import Mathlib

/-!
Grid Walk 3D: tile grid, steering, projectiles

A shallow embedding of the game logic of `Assignment3_Load-3D-model.cpp`.

Conventions of the embedding.

* `std::string` is a list of characters, `std::vector<T>` a list.
* `int` is `Int`; the code's arithmetic on tile coordinates is taken without
  overflow (signed overflow is undefined in C++).
* `float` is idealised as exact rational arithmetic (`ℚ`); `std::floor`
  followed by the cast to `int` is `Int.floor`. The one operation kept in
  binary32 is the subtraction `fireCooldown -= dt`: the cooldown is the
  only value that accumulates over frames and is then compared with a
  threshold, so its result is rounded (`f32round`).
* `glm::length` and `glm::normalize` belong to an external library; they are
  parameters of the model (structure `GLM`).
* an out-of-range `operator[]` is undefined behaviour; where a claim is about
  it the read is modelled by an `Option`.
-/

namespace GridWalk

/-! ## Vectors -/

/-- The type `glm::ivec2`. -/
structure IVec2 where
  x : Int
  y : Int
deriving DecidableEq, Repr

/-- The type `glm::vec2`, over exact rationals. -/
structure Vec2 where
  x : ℚ
  y : ℚ
deriving DecidableEq

instance : Add IVec2 := ⟨fun a b => ⟨a.x + b.x, a.y + b.y⟩⟩
instance : Neg IVec2 := ⟨fun a => ⟨-a.x, -a.y⟩⟩
instance : Add Vec2 := ⟨fun a b => ⟨a.x + b.x, a.y + b.y⟩⟩
instance : Sub Vec2 := ⟨fun a b => ⟨a.x - b.x, a.y - b.y⟩⟩

/-- Scaling `v * s` of a `glm::vec2` by a float. -/
def Vec2.smul (v : Vec2) (s : ℚ) : Vec2 := ⟨v.x * s, v.y * s⟩

/-- Division `v / s` of a `glm::vec2` by a float. -/
def Vec2.sdiv (v : Vec2) (s : ℚ) : Vec2 := ⟨v.x / s, v.y / s⟩

/-- The conversion `glm::vec2(t)` of an integer vector. -/
def IVec2.toVec2 (t : IVec2) : Vec2 := ⟨(t.x : ℚ), (t.y : ℚ)⟩

/-- The tile `{ (int)std::floor(p.x), (int)std::floor(p.y) }` containing a position. -/
def tileOf (p : Vec2) : IVec2 := ⟨⌊p.x⌋, ⌊p.y⌋⟩

/-- The library functions of glm the game logic calls. -/
structure GLM where
  length : Vec2 → ℚ
  normalize : Vec2 → Vec2

/-! ## Grid -/

/-- One row of the map, a `std::string`. -/
abbrev Row := List Char

/-- The globals `GW_MAP`, `GW_GRID_W`, `GW_GRID_H`. -/
structure GWGrid where
  GW_MAP : List Row
  GW_GRID_W : Int
  GW_GRID_H : Int
deriving DecidableEq

/-- Body of the loop of `gw_fixMapWidth` on one row, for width `w`. -/
def fixRow (w : Int) (r : Row) : Row :=
  let r1 := if (r.length : Int) < w then r ++ List.replicate (w - (r.length : Int)).toNat '#' else r
  if (r1.length : Int) > w then r1.take w.toNat else r1

/-- The function `gw_fixMapWidth`, from the map `GW_MAP` before the call to the globals
after it. `GW_MAP[0]` on an empty map is undefined: `none`. -/
def gw_fixMapWidth (m : List Row) : Option GWGrid :=
  match m with
  | [] => none
  | r0 :: _ =>
    let w : Int := (r0.length : Int)
    some { GW_MAP := m.map (fixRow w), GW_GRID_W := w, GW_GRID_H := (m.length : Int) }

/-- The read `GW_MAP[y][x]`, `none` when an index is out of range. -/
def cellAt (g : GWGrid) (x y : Int) : Option Char :=
  if x < 0 ∨ y < 0 then none
  else (g.GW_MAP[y.toNat]?).bind (fun r => r[x.toNat]?)

/-- The function `gw_wallAt` with its read of `GW_MAP[y][x]` checked. -/
def gw_wallAtChecked (g : GWGrid) (x y : Int) : Option Bool :=
  if x < 0 ∨ x ≥ g.GW_GRID_W ∨ y < 0 ∨ y ≥ g.GW_GRID_H then some true
  else (cellAt g x y).map (fun c => decide (c = '#'))

/-- The function `gw_wallAt` as used by the game logic: the checked function, an
out-of-range read (which does not occur on a normalised grid) counted as a wall. -/
def gw_wallAt (g : GWGrid) (x y : Int) : Bool :=
  (gw_wallAtChecked g x y).getD true

/-- The function `gw_centerOf`. -/
def gw_centerOf (t : IVec2) : Vec2 := t.toVec2 + ⟨1/2, 1/2⟩

/-- Length of the longest row of a template. -/
def longestRow (m : List Row) : Nat := (m.map List.length).foldr max 0

/-! ## Enemy steering -/

/-- The candidate directions `dirs` of `gw_chooseDirChase`, in evaluation order. -/
def GW_DIRS : List IVec2 := [⟨1, 0⟩, ⟨-1, 0⟩, ⟨0, 1⟩, ⟨0, -1⟩]

/-- The score `std::abs(playerTile.x - nt.x) + std::abs(playerTile.y - nt.y)`. -/
def chaseScore (playerTile nt : IVec2) : Int :=
  |playerTile.x - nt.x| + |playerTile.y - nt.y|

/-- One iteration of the loop of `gw_chooseDirChase` on the pair `(best, bestScore)`. -/
def chaseStep (g : GWGrid) (fromTile curDir playerTile : IVec2)
    (acc : IVec2 × Int) (d : IVec2) : IVec2 × Int :=
  if d = -curDir then acc
  else
    let nt := fromTile + d
    if gw_wallAt g nt.x nt.y then acc
    else
      let s := chaseScore playerTile nt
      if s < acc.2 then (d, s) else acc

/-- The function `gw_chooseDirChase`. -/
def gw_chooseDirChase (g : GWGrid) (fromTile curDir playerTile : IVec2) : IVec2 :=
  let r := GW_DIRS.foldl (chaseStep g fromTile curDir playerTile) (curDir, 1000000000)
  if r.2 = 1000000000 then
    let rev := -curDir
    if !gw_wallAt g (fromTile.x + rev.x) (fromTile.y + rev.y) then rev else ⟨0, 0⟩
  else r.1

/-- A direction the loop of `gw_chooseDirChase` scores: not the reverse of `curDir`, and
leading from `fromTile` to a tile that is not a wall. -/
def chaseCand (g : GWGrid) (fromTile curDir d : IVec2) : Prop :=
  d ≠ -curDir ∧ gw_wallAt g (fromTile + d).x (fromTile + d).y = false

instance (g : GWGrid) (fromTile curDir d : IVec2) : Decidable (chaseCand g fromTile curDir d) := by
  unfold chaseCand
  infer_instance

/-! ## Entities -/

/-- The struct `GWMoveCtrl`, with its default member initialisers. -/
structure GWMoveCtrl where
  moving : Bool := false
  dir : IVec2 := ⟨0, 0⟩
  queued : IVec2 := ⟨0, 0⟩
  target : Vec2 := ⟨0, 0⟩
deriving DecidableEq

/-- The struct `GWEntity`, with its default member initialisers. -/
structure GWEntity where
  pos : Vec2 := ⟨0, 0⟩
  yaw : ℚ := 0
  ctrl : GWMoveCtrl := {}
deriving DecidableEq

/-- The struct `GWBullet`. -/
structure GWBullet where
  pos : Vec2
  dir : Vec2
  life : ℚ := 3 / 2
  alive : Bool := true
deriving DecidableEq

/-- The constant `GW_STEP_SPEED_PLAYER`. -/
def GW_STEP_SPEED_PLAYER : ℚ := 6

/-- The constant `GW_STEP_SPEED_ENEMY`. -/
def GW_STEP_SPEED_ENEMY : ℚ := 5

/-- The constant `GW_BULLET_SPEED`. -/
def GW_BULLET_SPEED : ℚ := 12

/-- The constant `GW_FIRE_COOLDOWN`. -/
def GW_FIRE_COOLDOWN : ℚ := 1 / 4

/-- What one frame reads from the window: the four direction key pairs (arrow or letter),
the space key, and the elapsed time `dt`. -/
structure GWInput where
  left : Bool
  right : Bool
  up : Bool
  down : Bool
  space : Bool
  dt : ℚ
deriving DecidableEq

/-- The function `gw_readInput`. -/
def gw_readInput (k : GWInput) : IVec2 :=
  if k.left then ⟨-1, 0⟩
  else if k.right then ⟨1, 0⟩
  else if k.up then ⟨0, -1⟩
  else if k.down then ⟨0, 1⟩
  else ⟨0, 0⟩

/-! ## Player movement -/

/-- The facing angle set by `apply_dir` (and by the enemy steering) for a direction, the
old angle when the direction is not cardinal. -/
def yawOf (d : IVec2) (yaw : ℚ) : ℚ :=
  if d = ⟨1, 0⟩ then 0
  else if d = ⟨-1, 0⟩ then 180
  else if d = ⟨0, 1⟩ then 90
  else if d = ⟨0, -1⟩ then -90
  else yaw

/-- The lambda `apply_dir` of the player movement block. -/
def apply_dir (p : GWEntity) (d : IVec2) : GWEntity :=
  { p with yaw := yawOf d p.yaw, ctrl := { p.ctrl with dir := d } }

/-- Player movement, first statement: a non-zero input overwrites the queued direction. -/
def playerQueue (inp : IVec2) (p : GWEntity) : GWEntity :=
  if inp ≠ ⟨0, 0⟩ then { p with ctrl := { p.ctrl with queued := inp } } else p

/-- Player movement, start of a move from rest. -/
def playerStart (g : GWGrid) (p : GWEntity) : GWEntity :=
  if !p.ctrl.moving && decide (p.ctrl.queued ≠ ⟨0, 0⟩) then
    let t := tileOf p.pos
    let nt := t + p.ctrl.queued
    if !gw_wallAt g nt.x nt.y then
      let p1 := apply_dir p p.ctrl.queued
      { p1 with ctrl := { p1.ctrl with target := gw_centerOf nt, moving := true } }
    else p
  else p

/-- The flag `orthogonal` of the pre-turn block. -/
def orthogonal (queued dir : IVec2) : Bool :=
  (decide (queued.x = 0) && decide (dir.x ≠ 0)) || (decide (queued.y = 0) && decide (dir.y ≠ 0))

/-- Player movement, pre-turn block. -/
def playerPreTurn (glm : GLM) (g : GWGrid) (dt : ℚ) (p : GWEntity) : GWEntity :=
  if p.ctrl.moving && decide (p.ctrl.queued ≠ ⟨0, 0⟩) && decide (p.ctrl.queued ≠ p.ctrl.dir) then
    if orthogonal p.ctrl.queued p.ctrl.dir then
      let t := tileOf p.pos
      let center := gw_centerOf t
      let turnTo := t + p.ctrl.queued
      if !gw_wallAt g turnTo.x turnTo.y then
        let toC := center - p.pos
        let distC := glm.length toC
        let step := GW_STEP_SPEED_PLAYER * dt
        let willCrossCenter := decide (distC ≤ step + 1 / 10000)
        if decide (distC ≤ 1 / 5) || willCrossCenter then
          let p1 := apply_dir { p with pos := center } p.ctrl.queued
          { p1 with ctrl := { p1.ctrl with target := gw_centerOf turnTo, moving := true } }
        else p
      else p
    else p
  else p

/-- Whether the pre-turn block re-targets the player: the conjunction of its guards. -/
def preTurnFires (glm : GLM) (g : GWGrid) (dt : ℚ) (p : GWEntity) : Bool :=
  p.ctrl.moving && decide (p.ctrl.queued ≠ ⟨0, 0⟩) && decide (p.ctrl.queued ≠ p.ctrl.dir)
    && orthogonal p.ctrl.queued p.ctrl.dir
    && !gw_wallAt g (tileOf p.pos + p.ctrl.queued).x (tileOf p.pos + p.ctrl.queued).y
    && (decide (glm.length (gw_centerOf (tileOf p.pos) - p.pos) ≤ 1 / 5)
        || decide (glm.length (gw_centerOf (tileOf p.pos) - p.pos)
            ≤ GW_STEP_SPEED_PLAYER * dt + 1 / 10000))

/-- Player movement, interpolation towards the target. -/
def playerInterp (glm : GLM) (dt : ℚ) (p : GWEntity) : GWEntity :=
  if p.ctrl.moving then
    let toT := p.ctrl.target - p.pos
    let dist := glm.length toT
    if dist < 1 / 10000 then
      { p with pos := p.ctrl.target, ctrl := { p.ctrl with moving := false } }
    else
      let v := (toT.sdiv (max dist (1 / 1000000))).smul GW_STEP_SPEED_PLAYER
      let step := GW_STEP_SPEED_PLAYER * dt
      if step ≥ dist then
        { p with pos := p.ctrl.target, ctrl := { p.ctrl with moving := false } }
      else { p with pos := p.pos + v.smul dt }
  else p

/-- The player movement block of a frame, up to the gun pickup. -/
def playerMove (glm : GLM) (g : GWGrid) (inp : IVec2) (dt : ℚ) (p : GWEntity) : GWEntity :=
  playerInterp glm dt (playerPreTurn glm g dt (playerStart g (playerQueue inp p)))

/-! ## Enemy movement -/

/-- Enemy steering: an enemy at rest asks `gw_chooseDirChase` for a direction. -/
def ghostSteer (g : GWGrid) (playerTile : IVec2) (e : GWEntity) : GWEntity :=
  let gt := tileOf e.pos
  if !e.ctrl.moving then
    let ndir := gw_chooseDirChase g gt e.ctrl.dir playerTile
    if ndir ≠ ⟨0, 0⟩ then
      { e with yaw := yawOf ndir e.yaw,
               ctrl := { e.ctrl with dir := ndir, target := gw_centerOf (gt + ndir),
                                     moving := true } }
    else e
  else e

/-- Enemy interpolation towards the target. -/
def ghostInterp (glm : GLM) (dt : ℚ) (e : GWEntity) : GWEntity :=
  if e.ctrl.moving then
    let toT := e.ctrl.target - e.pos
    let dist := glm.length toT
    if dist < 1 / 10000 then
      { e with pos := e.ctrl.target, ctrl := { e.ctrl with moving := false } }
    else
      let v := (toT.sdiv dist).smul GW_STEP_SPEED_ENEMY
      let step := GW_STEP_SPEED_ENEMY * dt
      if step ≥ dist then
        { e with pos := e.ctrl.target, ctrl := { e.ctrl with moving := false } }
      else { e with pos := e.pos + v.smul dt }
  else e

/-- Body of the loop over the enemies: steering, then interpolation. -/
def ghostStep (glm : GLM) (g : GWGrid) (dt : ℚ) (playerTile : IVec2) (e : GWEntity) :
    GWEntity :=
  ghostInterp glm dt (ghostSteer g playerTile e)

/-! ## Pickup and shooting -/

/-- The write `GW_MAP[y][x] = c`. -/
def setCell (g : GWGrid) (x y : Int) (c : Char) : GWGrid :=
  match g.GW_MAP[y.toNat]? with
  | some r => { g with GW_MAP := g.GW_MAP.set y.toNat (r.set x.toNat c) }
  | none => g

/-- The gun pickup at the end of the player movement block, on the grid and `hasGun`. -/
def gw_pickup (g : GWGrid) (p : GWEntity) (hasGun : Bool) : GWGrid × Bool :=
  let pt := tileOf p.pos
  if pt.x ≥ 0 ∧ pt.x < g.GW_GRID_W ∧ pt.y ≥ 0 ∧ pt.y < g.GW_GRID_H
      ∧ cellAt g pt.x pt.y = some 'K' then
    (setCell g pt.x pt.y '.', true)
  else (g, hasGun)

/-- The vector `shootDir` of the shooting block, before normalisation. -/
def shootDirOf (p : GWEntity) : Vec2 :=
  if p.ctrl.dir ≠ ⟨0, 0⟩ then ⟨(p.ctrl.dir.x : ℚ), (p.ctrl.dir.y : ℚ)⟩
  else if |p.yaw - 0| < 1 / 1000 then ⟨1, 0⟩
  else if |p.yaw - 180| < 1 / 10 then ⟨-1, 0⟩
  else if |p.yaw - 90| < 1 / 10 then ⟨0, 1⟩
  else if |p.yaw + 90| < 1 / 10 then ⟨0, -1⟩
  else ⟨0, -1⟩

/-- The shooting block of a frame, on `bullets` and `fireCooldown` (the assignment
`prevSpace = spaceNow` is made by `gw_frame`). -/
def gw_shoot (glm : GLM) (spaceNow prevSpace hasGun : Bool) (fireCooldown : ℚ)
    (player : GWEntity) (bullets : List GWBullet) : List GWBullet × ℚ :=
  if spaceNow && !prevSpace then
    if hasGun && decide (fireCooldown ≤ 0) then
      let shootDir := shootDirOf player
      if glm.length shootDir > 0 then
        (bullets ++ [{ pos := player.pos, dir := glm.normalize shootDir, life := 3 / 2,
                       alive := true }],
          GW_FIRE_COOLDOWN)
      else (bullets, fireCooldown)
    else (bullets, fireCooldown)
  else (bullets, fireCooldown)

/-! ## Projectiles -/

/-- Body of the loop of the bullets update on one bullet. -/
def bulletUpdate (g : GWGrid) (dt : ℚ) (b : GWBullet) : GWBullet :=
  if !b.alive then b
  else
    let b1 := { b with pos := b.pos + (b.dir.smul GW_BULLET_SPEED).smul dt, life := b.life - dt }
    let b2 := if b1.life ≤ 0 then { b1 with alive := false } else b1
    let bt := tileOf b2.pos
    if bt.x < 0 ∨ bt.x ≥ g.GW_GRID_W ∨ bt.y < 0 ∨ bt.y ≥ g.GW_GRID_H
        ∨ gw_wallAt g bt.x bt.y = true then
      { b2 with alive := false }
    else b2

/-- The bullets update of a frame: the loop, then the erase of the dead bullets. -/
def bulletsStep (g : GWGrid) (dt : ℚ) (bs : List GWBullet) : List GWBullet :=
  (bs.map (bulletUpdate g dt)).filter (fun b => b.alive)

/-- Inner loop of the bullet-versus-ghost pass for an enemy at `gpos`: the bullets after
the loop when it ends with `killed = true`, `none` when it ends with `killed = false` (the
bullets are then unchanged). -/
def hitScan (glm : GLM) (gpos : Vec2) : List GWBullet → Option (List GWBullet)
  | [] => none
  | b :: bs =>
    if !b.alive then (hitScan glm gpos bs).map (fun bs2 => b :: bs2)
    else if glm.length (b.pos - gpos) < 7 / 10 then some ({ b with alive := false } :: bs)
    else (hitScan glm gpos bs).map (fun bs2 => b :: bs2)

/-- The bullet-versus-ghost pass: the enemies are examined in order, a killed one is
erased. -/
def bulletVsGhost (glm : GLM) : List GWEntity → List GWBullet → List GWEntity × List GWBullet
  | [], bs => ([], bs)
  | e :: es, bs =>
    match hitScan glm e.pos bs with
    | some bs2 => bulletVsGhost glm es bs2
    | none => ((e :: (bulletVsGhost glm es bs).1), (bulletVsGhost glm es bs).2)

/-- The flag `collided` of the player-versus-ghost block. -/
def playerCaught (glm : GLM) (player : GWEntity) (ghosts : List GWEntity) : Bool :=
  ghosts.any (fun e => decide (glm.length (e.pos - player.pos) < 11 / 20))

/-! ## Game state, reset and frame -/

/-- The variables of `main` the game logic works on, with the globals. -/
structure GWState where
  grid : GWGrid
  GW_MAP_ORIG : List Row
  player : GWEntity
  playerSpawn : Vec2
  ghosts : List GWEntity
  hasGun : Bool
  fireCooldown : ℚ
  bullets : List GWBullet
  prevSpace : Bool

/-- What the spawn scan of `gw_resetGame` updates. -/
structure ScanState where
  grid : GWGrid
  player : GWEntity
  playerSpawn : Vec2
  ghosts : List GWEntity

/-- Body of the spawn scan of `gw_resetGame` at cell `(x, y)`. -/
def scanCell (y x : Nat) (st : ScanState) : ScanState :=
  let st1 : ScanState :=
    if cellAt st.grid x y = some 'P' then
      { st with player := { st.player with pos := ⟨(x : ℚ) + 1 / 2, (y : ℚ) + 1 / 2⟩ },
                playerSpawn := ⟨(x : ℚ) + 1 / 2, (y : ℚ) + 1 / 2⟩,
                grid := setCell st.grid x y '.' }
    else st
  if cellAt st1.grid x y = some 'G' then
    { st1 with ghosts := st1.ghosts ++ [{ pos := ⟨(x : ℚ) + 1 / 2, (y : ℚ) + 1 / 2⟩ }],
               grid := setCell st1.grid x y '.' }
  else st1

/-- The spawn scan of `gw_resetGame`: rows in order, columns in order within a row. -/
def scanGrid (st : ScanState) : ScanState :=
  (List.range st.grid.GW_GRID_H.toNat).foldl
    (fun acc y => (List.range st.grid.GW_GRID_W.toNat).foldl (fun acc2 x => scanCell y x acc2) acc)
    st

/-- The function `gw_resetGame`; `prevSpace` is not among its parameters and is kept. -/
def gw_resetGame (s : GWState) : Option GWState :=
  match gw_fixMapWidth s.GW_MAP_ORIG with
  | none => none
  | some g0 =>
    let st := scanGrid { grid := g0, player := {}, playerSpawn := s.playerSpawn, ghosts := [] }
    let ghosts :=
      if st.ghosts.isEmpty then
        [({ pos := ⟨(st.grid.GW_GRID_W : ℚ) - 5 / 2, (st.grid.GW_GRID_H : ℚ) - 5 / 2⟩ } : GWEntity)]
      else st.ghosts
    some { grid := st.grid, GW_MAP_ORIG := s.GW_MAP_ORIG, player := st.player,
           playerSpawn := st.playerSpawn, ghosts := ghosts, hasGun := false,
           fireCooldown := 0, bullets := [], prevSpace := s.prevSpace }

/-- The integer nearest to `m`; the even one of the two when `m` lies halfway. -/
def roundHalfEven (m : ℚ) : Int :=
  if m - ⌊m⌋ < 1 / 2 then ⌊m⌋
  else if 1 / 2 < m - ⌊m⌋ then ⌊m⌋ + 1
  else if ⌊m⌋ % 2 = 0 then ⌊m⌋ else ⌊m⌋ + 1

/-- The spacing of the binary32 values around `x`: `2 ^ (e - 23)` where
`2 ^ e ≤ |x| < 2 ^ (e + 1)`, with `e` at least -126 (below `2 ^ (-126)` the values are the
multiples of `2 ^ (-149)`). -/
def f32ulp (x : ℚ) : ℚ := (2 : ℚ) ^ (max (Int.log 2 |x|) (-126) - 23)

/-- The binary32 value an exact result `x` is rounded to (round to nearest, ties to even).
Overflow to infinity is left out: the operands here are a cooldown of at most 0.25 and a
frame time. -/
def f32round (x : ℚ) : ℚ := (roundHalfEven (x / f32ulp x) : ℚ) * f32ulp x

/-- The statement `if (fireCooldown > 0.0f) fireCooldown -= dt;` closing a frame, the
difference of the two `float` operands rounded to binary32. -/
def coolTick (dt : ℚ) (c : ℚ) : ℚ := if c > 0 then f32round (c - dt) else c

/-- The state of a frame after the bullet-versus-ghost pass, before the
player-versus-ghost block. -/
def framePre (glm : GLM) (k : GWInput) (s : GWState) : GWState :=
  let p1 := playerMove glm s.grid (gw_readInput k) k.dt s.player
  let pk := gw_pickup s.grid p1 s.hasGun
  let sh := gw_shoot glm k.space s.prevSpace pk.2 s.fireCooldown p1 s.bullets
  let ghosts1 := s.ghosts.map (ghostStep glm pk.1 k.dt (tileOf p1.pos))
  let bullets2 := bulletsStep pk.1 k.dt sh.1
  let hit := bulletVsGhost glm ghosts1 bullets2
  { grid := pk.1, GW_MAP_ORIG := s.GW_MAP_ORIG, player := p1, playerSpawn := s.playerSpawn,
    ghosts := hit.1, hasGun := pk.2, fireCooldown := sh.2, bullets := hit.2,
    prevSpace := k.space }

/-- Whether the shooting block of the frame pushes a bullet. -/
def frameFires (glm : GLM) (k : GWInput) (s : GWState) : Bool :=
  let p1 := playerMove glm s.grid (gw_readInput k) k.dt s.player
  let pk := gw_pickup s.grid p1 s.hasGun
  decide ((gw_shoot glm k.space s.prevSpace pk.2 s.fireCooldown p1 s.bullets).1.length
    = s.bullets.length + 1)

/-- Whether the frame ends in a reset: the flag `collided`. -/
def frameResets (glm : GLM) (k : GWInput) (s : GWState) : Bool :=
  playerCaught glm (framePre glm k s).player (framePre glm k s).ghosts

/-- One iteration of the main loop on the game state. -/
def gw_frame (glm : GLM) (k : GWInput) (s : GWState) : Option GWState :=
  let s1 := framePre glm k s
  let s2 := if playerCaught glm s1.player s1.ghosts then gw_resetGame s1 else some s1
  s2.map (fun s3 => { s3 with fireCooldown := coolTick k.dt s3.fireCooldown })

/-- Successive frames. -/
def gw_run (glm : GLM) : List GWInput → GWState → Option GWState
  | [], s => some s
  | k :: ks, s => (gw_frame glm k s).bind (gw_run glm ks)

/-- No frame of the run ends in a reset. -/
def noReset (glm : GLM) : List GWInput → GWState → Bool
  | [], _ => true
  | k :: ks, s =>
    !frameResets glm k s &&
      (match gw_frame glm k s with
       | some s2 => noReset glm ks s2
       | none => false)

/-! ## Projectiles: the update as the specification words it -/

/-- A projectile advanced by direction * 12 * dt with its lifetime decreased by `dt`, in
the words of the specification. -/
def bulletAdvanced (dt : ℚ) (b : GWBullet) : GWBullet :=
  { b with pos := ⟨b.pos.x + b.dir.x * 12 * dt, b.pos.y + b.dir.y * 12 * dt⟩,
           life := b.life - dt }

/-- A projectile that stays, in the words of the specification: lifetime above 0 and its
tile (floor of the position) inside the grid and not a wall. -/
def bulletSurvives (g : GWGrid) (b : GWBullet) : Bool :=
  decide (0 < b.life)
    && decide (0 ≤ ⌊b.pos.x⌋ ∧ ⌊b.pos.x⌋ < g.GW_GRID_W ∧ 0 ≤ ⌊b.pos.y⌋ ∧ ⌊b.pos.y⌋ < g.GW_GRID_H)
    && !gw_wallAt g ⌊b.pos.x⌋ ⌊b.pos.y⌋

/-- A projectile that can kill an enemy at `gpos`: alive and, by `glm::length`, less than
0.7 away. -/
def inKillRange (glm : GLM) (gpos : Vec2) (b : GWBullet) : Prop :=
  b.alive = true ∧ glm.length (b.pos - gpos) < 7 / 10

instance (glm : GLM) (gpos : Vec2) (b : GWBullet) : Decidable (inKillRange glm gpos b) := by
  unfold inKillRange
  infer_instance

/-- The projectile with its `alive` flag cleared. -/
def GWBullet.kill (b : GWBullet) : GWBullet := { b with alive := false }

/-! ## The reset as the specification words it -/

/-- The cells `(x, y)` of the grid rectangle in row-major scan order. -/
def allCells (g : GWGrid) : List (Nat × Nat) :=
  (List.range g.GW_GRID_H.toNat).flatMap
    (fun y => (List.range g.GW_GRID_W.toNat).map (fun x => (x, y)))

/-- The cells of the grid that hold the character `c`, in row-major scan order. -/
def markerTiles (g : GWGrid) (c : Char) : List (Nat × Nat) :=
  (allCells g).filter (fun t => decide (cellAt g t.1 t.2 = some c))

/-- A spawn marker `'P'` or `'G'` replaced by `'.'`, any other character kept. -/
def clearCh (c : Char) : Char := if c = 'P' ∨ c = 'G' then '.' else c

/-- The grid with every `'P'` and `'G'` replaced by `'.'`. -/
def clearMarkers (g : GWGrid) : GWGrid :=
  { g with GW_MAP := g.GW_MAP.map (fun r => r.map clearCh) }

/-- The centre of the tile `(x, y)`. -/
def tileCentre (t : Nat × Nat) : Vec2 := ⟨(t.1 : ℚ) + 1 / 2, (t.2 : ℚ) + 1 / 2⟩

/-- The position the reset gives the player: the centre of the last `'P'` tile of the grid
in scan order, the default `(0, 0)` when there is none. -/
def spawnOfPlayer (g : GWGrid) : Vec2 :=
  match (markerTiles g 'P').getLast? with
  | some t => tileCentre t
  | none => ⟨0, 0⟩

/-- The enemies the reset creates: one idle enemy at the centre of each `'G'` tile of the
grid in scan order, or a single one at `(W - 2.5, H - 2.5)` when there is none. -/
def spawnOfGhosts (g : GWGrid) : List GWEntity :=
  if (markerTiles g 'G').isEmpty then
    [{ pos := ⟨(g.GW_GRID_W : ℚ) - 5 / 2, (g.GW_GRID_H : ℚ) - 5 / 2⟩ }]
  else (markerTiles g 'G').map (fun t => { pos := tileCentre t })

/-- The template `GW_MAP` shipped in the source. -/
def GW_MAP_SHIPPED : List Row :=
  ["###############".toList,
   "#K....#.......#".toList,
   "#.###.#.#####.#".toList,
   "#.#...#.....#.#".toList,
   "#.#.#####.#.#.#".toList,
   "#.#.....#...#.#".toList,
   "#.#####.#.#.#.#".toList,
   "#.....#.#.#...#".toList,
   "###.#.#.#.###.#".toList,
   "#P..#.#.......#".toList,
   "#.###.#.#####.#".toList,
   "#.....#.....#.#".toList,
   "#.#####.###.#.#".toList,
   "#.......#..G#.#".toList,
   "###############".toList]

/-- The shipped template after `gw_fixMapWidth`. -/
def exGridShipped : GWGrid :=
  { GW_MAP := GW_MAP_SHIPPED, GW_GRID_W := 15, GW_GRID_H := 15 }

/-- A template whose only `'P'` lies beyond the width of the first row. -/
def exTemplateRagged : List Row := [['#', '#'], ['#', '.', 'P']]

/-- The grid `gw_fixMapWidth` makes of `exTemplateRagged`. -/
def exGridRagged : GWGrid :=
  { GW_MAP := [['#', '#'], ['#', '.']], GW_GRID_W := 2, GW_GRID_H := 2 }

/-- The spawn scan of `gw_resetGame` over a list of cells `(x, y)`. -/
def scanCells (cs : List (Nat × Nat)) (st : ScanState) : ScanState :=
  cs.foldl (fun acc t => scanCell t.2 t.1 acc) st

/-! ## Targets of moving entities, as the specification words them -/

/-- A direction field: zero or one of the four cardinal directions. -/
def dirOrZero (d : IVec2) : Prop := d = ⟨0, 0⟩ ∨ d ∈ GW_DIRS

/-- The entity `e2` has just been given a target from `e`: it moves, in a cardinal
direction, to the centre of the neighbour in that direction of the tile containing `e`,
which is not a wall; the queued direction is kept. -/
def retargeted (g : GWGrid) (e e2 : GWEntity) : Prop :=
  e2.ctrl.moving = true ∧ e2.ctrl.dir ∈ GW_DIRS
    ∧ e2.ctrl.target = gw_centerOf (tileOf e.pos + e2.ctrl.dir)
    ∧ gw_wallAt g (tileOf e.pos + e2.ctrl.dir).x (tileOf e.pos + e2.ctrl.dir).y = false
    ∧ e2.ctrl.queued = e.ctrl.queued

/-- The library length is the Euclidean length on vectors along an axis. -/
def glmExactOnAxes (glm : GLM) : Prop :=
  ∀ a : ℚ, glm.length ⟨a, 0⟩ = |a| ∧ glm.length ⟨0, a⟩ = |a|

/-- The tile containing the entity is inside the grid and is not a wall. -/
def playerSafe (g : GWGrid) (p : GWEntity) : Prop :=
  0 ≤ (tileOf p.pos).x ∧ (tileOf p.pos).x < g.GW_GRID_W
    ∧ 0 ≤ (tileOf p.pos).y ∧ (tileOf p.pos).y < g.GW_GRID_H
    ∧ gw_wallAt g (tileOf p.pos).x (tileOf p.pos).y = false

/-- An entity at rest stands on the centre of a tile that is not a wall; a moving one is on
the segment from the centre of such a tile `D` to the centre of its neighbour `D + dir`,
not a wall either, which is its target. -/
def onTrack (g : GWGrid) (p : GWEntity) : Prop :=
  (p.ctrl.moving = false → ∃ T : IVec2, p.pos = gw_centerOf T ∧ gw_wallAt g T.x T.y = false)
    ∧ (p.ctrl.moving = true →
        p.ctrl.dir ∈ GW_DIRS ∧ ∃ (D : IVec2) (lam : ℚ), 0 ≤ lam ∧ lam ≤ 1
          ∧ p.pos = gw_centerOf D + (p.ctrl.dir.toVec2).smul lam
          ∧ p.ctrl.target = gw_centerOf (D + p.ctrl.dir)
          ∧ gw_wallAt g D.x D.y = false
          ∧ gw_wallAt g (D + p.ctrl.dir).x (D + p.ctrl.dir).y = false)

/-- The invariant behind the safety of the player: the width-normalised template has a
`'P'`, the queued direction is zero or cardinal, and the player is on track. -/
def playerOK (s : GWState) : Prop :=
  (∃ g0 : GWGrid, gw_fixMapWidth s.GW_MAP_ORIG = some g0 ∧ markerTiles g0 'P' ≠ [])
    ∧ dirOrZero s.player.ctrl.queued ∧ onTrack s.grid s.player

/-! ## A computable instance of the library -/

/-- Square root on the rationals, rounded down to a multiple of `1 / q.den`; exact when the
argument is the square of a rational. -/
def qsqrt (q : ℚ) : ℚ := (Nat.sqrt (q.num.toNat * q.den) : ℚ) / (q.den : ℚ)

/-- An instance of the library functions: `length` by `qsqrt`, `normalize` by division. -/
def glmQ : GLM :=
  { length := fun v => qsqrt (v.x * v.x + v.y * v.y),
    normalize := fun v => v.sdiv (qsqrt (v.x * v.x + v.y * v.y)) }

/-! ## Example data -/

/-- A 5x5 ring-walled grid with an open 3x3 interior. -/
def exGridRing : GWGrid :=
  { GW_MAP := [['#', '#', '#', '#', '#'],
               ['#', '.', '.', '.', '#'],
               ['#', '.', '.', '.', '#'],
               ['#', '.', '.', '.', '#'],
               ['#', '#', '#', '#', '#']],
    GW_GRID_W := 5, GW_GRID_H := 5 }

/-- A 5x3 grid whose interior is a dead-end corridor open to the left. -/
def exGridCorridor : GWGrid :=
  { GW_MAP := [['#', '#', '#', '#', '#'],
               ['#', '.', '.', '.', '#'],
               ['#', '#', '#', '#', '#']],
    GW_GRID_W := 5, GW_GRID_H := 3 }

/-- A template whose second row is shorter than the first. -/
def exTemplateShort : List Row := [['#', '.', '#'], ['#']]

/-- The grid `gw_fixMapWidth` makes of `exTemplateShort`. -/
def exGridShort : GWGrid :=
  { GW_MAP := [['#', '.', '#'], ['#', '#', '#']], GW_GRID_W := 3, GW_GRID_H := 2 }

/-- A template with a row of the width, a shorter row and a longer row. -/
def exTemplateMixed : List Row := [['#', '.'], ['P'], ['#', 'K', '#']]

/-- A frame input with only the fire key pressed, 1/100 time units after the last frame. -/
def exPress : GWInput :=
  { left := false, right := false, up := false, down := false, space := true, dt := 1 / 100 }

/-- A frame input with no key pressed, 1/100 time units after the last frame. -/
def exIdle : GWInput :=
  { left := false, right := false, up := false, down := false, space := false, dt := 1 / 100 }

/-- A state on the ring grid: the player at rest in tile (1,1) holding the gun, no enemy,
no projectile, no cooldown. -/
def exStateArmed : GWState :=
  { grid := exGridRing, GW_MAP_ORIG := exGridRing.GW_MAP,
    player := { pos := ⟨3 / 2, 3 / 2⟩ }, playerSpawn := ⟨3 / 2, 3 / 2⟩,
    ghosts := [], hasGun := true, fireCooldown := 0, bullets := [], prevSpace := false }

/-- A player on the ring grid, just past the centre of tile (1,1), moving right towards
the centre of tile (2,1), with a turn downwards queued. -/
def exPlayerTurning : GWEntity :=
  { pos := ⟨8 / 5, 3 / 2⟩, yaw := 0,
    ctrl := { moving := true, dir := ⟨1, 0⟩, queued := ⟨0, 1⟩, target := ⟨5 / 2, 3 / 2⟩ } }

/-- An entity on the ring grid at the centre of tile (1,1), moving right towards the centre
of tile (2,1), nothing queued. -/
def exMover : GWEntity :=
  { pos := ⟨3 / 2, 3 / 2⟩, yaw := 0,
    ctrl := { moving := true, dir := ⟨1, 0⟩, queued := ⟨0, 0⟩, target := ⟨5 / 2, 3 / 2⟩ } }

/-- An enemy at rest at the centre of tile (1,1). -/
def exGhostA : GWEntity := { pos := ⟨3 / 2, 3 / 2⟩ }

/-- An enemy at rest at the centre of tile (1,3). -/
def exGhostB : GWEntity := { pos := ⟨3 / 2, 7 / 2⟩ }

/-- A live projectile half a tile below `exGhostA`, flying downwards. -/
def exBulletNear : GWBullet := { pos := ⟨3 / 2, 2⟩, dir := ⟨0, 1⟩, life := 1, alive := true }

/-- A state on the grid of `exTemplateRagged` just before the player-versus-ghost block:
player and one enemy at rest at the centre of the only open tile (1,1). -/
def exStateCaught : GWState :=
  { grid := exGridRagged, GW_MAP_ORIG := exTemplateRagged,
    player := { pos := ⟨3 / 2, 3 / 2⟩ }, playerSpawn := ⟨0, 0⟩,
    ghosts := [{ pos := ⟨3 / 2, 3 / 2⟩ }], hasGun := false, fireCooldown := 0, bullets := [],
    prevSpace := false }

/-- A state whose template is the shipped map; the other fields are overwritten by the
reset. -/
def exStateShipped : GWState :=
  { grid := exGridShipped, GW_MAP_ORIG := GW_MAP_SHIPPED, player := {}, playerSpawn := ⟨0, 0⟩,
    ghosts := [], hasGun := false, fireCooldown := 0, bullets := [], prevSpace := false }

/-- A frame input with only the right key pressed, 1/100 time units after the last frame. -/
def exRight : GWInput :=
  { left := false, right := true, up := false, down := false, space := false, dt := 1 / 100 }

/-- A frame input with the fire key pressed, half a time unit after the last frame. -/
def exHitch : GWInput :=
  { left := false, right := false, up := false, down := false, space := true, dt := 1 / 2 }

/-- A frame input with no key pressed, 1/1024 time units after the last frame. -/
def exRelease : GWInput :=
  { left := false, right := false, up := false, down := false, space := false, dt := 1 / 1024 }

/-- A frame input with the fire key pressed, 1/1024 time units after the last frame. -/
def exTap : GWInput :=
  { left := false, right := false, up := false, down := false, space := true, dt := 1 / 1024 }

/-- A frame input with the fire key pressed, 0.01f time units after the last frame: the
binary32 value of the literal 0.01 is 5368709 / 2^29. -/
def exPressTick : GWInput :=
  { left := false, right := false, up := false, down := false, space := true,
    dt := 5368709 / 536870912 }

/-- A frame input with no key pressed, 0.01f time units after the last frame. -/
def exIdleTick : GWInput :=
  { left := false, right := false, up := false, down := false, space := false,
    dt := 5368709 / 536870912 }

/-! # Theorems -/

/-! ## Grid: facts about `gw_fixMapWidth` -/

theorem fixRow_short (w : Nat) (r : Row) (h : r.length < w) :
    fixRow (w : Int) r = r ++ List.replicate (w - r.length) '#' := by
  unfold fixRow
  have h1 : ((r.length : Int) < (w : Int)) := by exact_mod_cast h
  have h2 : ((w : Int) - (r.length : Int)).toNat = w - r.length := by omega
  simp only [h1, if_true, h2]
  have h3 : ¬ (((r ++ List.replicate (w - r.length) '#').length : Int) > (w : Int)) := by
    simp
    omega
  simp only [h3, if_false]

theorem fixRow_long (w : Nat) (r : Row) (h : w < r.length) :
    fixRow (w : Int) r = r.take w := by
  unfold fixRow
  have h1 : ¬ ((r.length : Int) < (w : Int)) := by omega
  have h3 : (r.length : Int) > (w : Int) := by omega
  simp only [h1, if_false, h3, if_true, Int.toNat_ofNat]

theorem fixRow_exact (w : Nat) (r : Row) (h : r.length = w) :
    fixRow (w : Int) r = r := by
  unfold fixRow
  have h1 : ¬ ((r.length : Int) < (w : Int)) := by omega
  have h3 : ¬ ((r.length : Int) > (w : Int)) := by omega
  simp only [h1, if_false, h3]

theorem fixRow_length (w : Nat) (r : Row) : (fixRow (w : Int) r).length = w := by
  rcases Nat.lt_trichotomy r.length w with h | h | h
  · rw [fixRow_short w r h]
    simp
    omega
  · rw [fixRow_exact w r h]
    exact h
  · rw [fixRow_long w r h]
    simp
    omega

theorem gw_fixMapWidth_cons (r0 : Row) (rest : List Row) :
    gw_fixMapWidth (r0 :: rest) =
      some { GW_MAP := (r0 :: rest).map (fixRow (r0.length : Int)),
             GW_GRID_W := (r0.length : Int),
             GW_GRID_H := ((r0 :: rest).length : Int) } := rfl

/-- On a normalised grid the read of an in-bounds cell is defined. -/
theorem cellAt_defined (tmpl : List Row) (g : GWGrid) (h : gw_fixMapWidth tmpl = some g)
    (x y : Int) (hx0 : 0 ≤ x) (hx : x < g.GW_GRID_W) (hy0 : 0 ≤ y) (hy : y < g.GW_GRID_H) :
    ∃ c, cellAt g x y = some c := by
  cases tmpl with
  | nil => simp [gw_fixMapWidth] at h
  | cons r0 rest =>
    rw [gw_fixMapWidth_cons] at h
    injection h with h
    subst h
    simp only at hx hy
    have hyn : y.toNat < (r0 :: rest).length := by omega
    have hxn : x.toNat < r0.length := by omega
    have hne : ¬ (x < 0 ∨ y < 0) := by omega
    unfold cellAt
    simp only [hne, if_false]
    rw [List.getElem?_map, List.getElem?_eq_getElem hyn]
    simp only [Option.map_some', Option.some_bind]
    have hl : x.toNat < (fixRow (r0.length : Int) ((r0 :: rest)[y.toNat])).length := by
      rw [fixRow_length]
      exact hxn
    exact ⟨_, List.getElem?_eq_getElem hl⟩

/-- C1: on a grid produced by `gw_fixMapWidth`, `gw_wallAt x y` is true exactly when
`(x, y)` is outside the grid bounds or the cell at row `y`, column `x` is `'#'`; it is true
for every out-of-bounds tile; and the lookup is always defined: the checked function never
fails and every in-bounds read `GW_MAP[y][x]` is within the row. -/
theorem gw_wallAt_iff (tmpl : List Row) (g : GWGrid) (h : gw_fixMapWidth tmpl = some g)
    (x y : Int) :
    (gw_wallAt g x y = true ↔
        (x < 0 ∨ x ≥ g.GW_GRID_W ∨ y < 0 ∨ y ≥ g.GW_GRID_H ∨ cellAt g x y = some '#'))
      ∧ ((x < 0 ∨ x ≥ g.GW_GRID_W ∨ y < 0 ∨ y ≥ g.GW_GRID_H) → gw_wallAt g x y = true)
      ∧ gw_wallAtChecked g x y = some (gw_wallAt g x y)
      ∧ ((0 ≤ x ∧ x < g.GW_GRID_W ∧ 0 ≤ y ∧ y < g.GW_GRID_H) → ∃ c, cellAt g x y = some c) := by
  by_cases hb : x < 0 ∨ x ≥ g.GW_GRID_W ∨ y < 0 ∨ y ≥ g.GW_GRID_H
  · have hw : gw_wallAtChecked g x y = some true := by
      unfold gw_wallAtChecked
      simp only [hb, if_true]
    have hv : gw_wallAt g x y = true := by
      unfold gw_wallAt
      rw [hw]
      rfl
    refine ⟨?_, fun _ => hv, ?_, ?_⟩
    · constructor
      · intro _
        rcases hb with hb | hb | hb | hb
        · exact Or.inl hb
        · exact Or.inr (Or.inl hb)
        · exact Or.inr (Or.inr (Or.inl hb))
        · exact Or.inr (Or.inr (Or.inr (Or.inl hb)))
      · intro _
        exact hv
    · rw [hw, hv]
    · intro hin
      omega
  · have hin : 0 ≤ x ∧ x < g.GW_GRID_W ∧ 0 ≤ y ∧ y < g.GW_GRID_H := by omega
    obtain ⟨c, hc⟩ := cellAt_defined tmpl g h x y hin.1 hin.2.1 hin.2.2.1 hin.2.2.2
    have hw : gw_wallAtChecked g x y = some (decide (c = '#')) := by
      unfold gw_wallAtChecked
      simp only [hb, if_false, hc, Option.map_some']
    have hv : gw_wallAt g x y = decide (c = '#') := by
      unfold gw_wallAt
      rw [hw]
      rfl
    refine ⟨?_, fun hb2 => absurd hb2 hb, ?_, fun _ => ⟨c, hc⟩⟩
    · rw [hv, hc]
      constructor
      · intro hd
        have : c = '#' := of_decide_eq_true hd
        subst this
        exact Or.inr (Or.inr (Or.inr (Or.inr rfl)))
      · intro hd
        rcases hd with hd | hd | hd | hd | hd
        · omega
        · omega
        · omega
        · omega
        · injection hd with hd
          exact decide_eq_true hd
    · rw [hw, hv]

/-- Witness for C1 on a two-row template: the padded cell of the short row is a wall. -/
theorem gw_wallAt_iff_witness :
    gw_fixMapWidth exTemplateShort = some exGridShort
      ∧ (gw_wallAt exGridShort 1 1 = true ↔
          ((1 : Int) < 0 ∨ (1 : Int) ≥ exGridShort.GW_GRID_W ∨ (1 : Int) < 0
            ∨ (1 : Int) ≥ exGridShort.GW_GRID_H ∨ cellAt exGridShort 1 1 = some '#')) :=
  ⟨by decide, (gw_wallAt_iff exTemplateShort exGridShort (by decide) 1 1).1⟩

/-- C2: for every non-empty template `gw_fixMapWidth` succeeds, keeps the number of rows,
and gives every row the length `GW_GRID_W`: a shorter row keeps its characters followed only
by `'#'`, a longer row is cut to its first `GW_GRID_W` characters, a row of exactly that
length is unchanged. -/
theorem gw_fixMapWidth_rows (tmpl : List Row) (hne : tmpl ≠ []) :
    ∃ (g : GWGrid) (w : Nat), gw_fixMapWidth tmpl = some g
      ∧ g.GW_GRID_W = (w : Int)
      ∧ g.GW_GRID_H = (tmpl.length : Int)
      ∧ g.GW_MAP.length = tmpl.length
      ∧ ∀ (i : Nat) (r r2 : Row), tmpl[i]? = some r → g.GW_MAP[i]? = some r2 →
          r2.length = w
          ∧ (r.length < w → r2 = r ++ List.replicate (w - r.length) '#')
          ∧ (w < r.length → r2 = r.take w)
          ∧ (r.length = w → r2 = r) := by
  cases tmpl with
  | nil => exact absurd rfl hne
  | cons r0 rest =>
    refine ⟨_, r0.length, gw_fixMapWidth_cons r0 rest, rfl, rfl, by simp, ?_⟩
    intro i r r2 hr hr2
    simp only at hr2
    rw [List.getElem?_map, hr] at hr2
    simp only [Option.map_some', Option.some.injEq] at hr2
    subst hr2
    exact ⟨fixRow_length _ _, fixRow_short _ _, fixRow_long _ _, fixRow_exact _ _⟩

/-- Witness for C2: a template with an exact, a short and a long row. -/
theorem gw_fixMapWidth_rows_witness :
    exTemplateMixed ≠ [] ∧
    ∃ (g : GWGrid) (w : Nat), gw_fixMapWidth exTemplateMixed = some g
      ∧ g.GW_GRID_W = (w : Int)
      ∧ g.GW_GRID_H = (exTemplateMixed.length : Int)
      ∧ g.GW_MAP.length = exTemplateMixed.length
      ∧ ∀ (i : Nat) (r r2 : Row), exTemplateMixed[i]? = some r → g.GW_MAP[i]? = some r2 →
          r2.length = w
          ∧ (r.length < w → r2 = r ++ List.replicate (w - r.length) '#')
          ∧ (w < r.length → r2 = r.take w)
          ∧ (r.length = w → r2 = r) :=
  ⟨by decide, gw_fixMapWidth_rows exTemplateMixed (by decide)⟩

/-- C3 fails as stated: the width is taken from the first row, not the longest one, and the
second cell of the longer row is discarded. -/
theorem gw_fixMapWidth_not_longest :
    gw_fixMapWidth [['#'], ['#', '.']] =
        some { GW_MAP := [['#'], ['#']], GW_GRID_W := 1, GW_GRID_H := 2 }
      ∧ longestRow [['#'], ['#', '.']] = 2
      ∧ (1 : Int) ≠ ((longestRow [['#'], ['#', '.']] : Nat) : Int) := by
  decide

/-- C3 amended: for every non-empty template the width computed by `gw_fixMapWidth` is the
length of the first row; every shorter row is right-padded with walls up to that width, and
every row longer than the first keeps exactly its first `GW_GRID_W` cells. -/
theorem gw_fixMapWidth_first_row (r0 : Row) (rest : List Row) :
    ∃ g : GWGrid, gw_fixMapWidth (r0 :: rest) = some g
      ∧ g.GW_GRID_W = (r0.length : Int)
      ∧ g.GW_MAP.head? = some r0
      ∧ ∀ (i : Nat) (r r2 : Row), (r0 :: rest)[i]? = some r → g.GW_MAP[i]? = some r2 →
          (r.length ≤ r0.length → r2 = r ++ List.replicate (r0.length - r.length) '#')
          ∧ (r0.length < r.length → r2 = r.take r0.length) := by
  refine ⟨_, gw_fixMapWidth_cons r0 rest, rfl, ?_, ?_⟩
  · simp [fixRow_exact]
  · intro i r r2 hr hr2
    simp only at hr2
    rw [List.getElem?_map, hr] at hr2
    simp only [Option.map_some', Option.some.injEq] at hr2
    subst hr2
    refine ⟨?_, fixRow_long _ _⟩
    intro hle
    rcases Nat.lt_or_eq_of_le hle with hlt | heq
    · exact fixRow_short _ _ hlt
    · rw [fixRow_exact _ _ heq, heq]
      simp

/-! ## Enemy steering: facts about `gw_chooseDirChase` -/

theorem chaseStep_cases (g : GWGrid) (fromTile curDir playerTile : IVec2)
    (acc : IVec2 × Int) (d : IVec2) :
    (chaseStep g fromTile curDir playerTile acc d = acc
        ∧ (chaseCand g fromTile curDir d → acc.2 ≤ chaseScore playerTile (fromTile + d)))
      ∨ (chaseStep g fromTile curDir playerTile acc d = (d, chaseScore playerTile (fromTile + d))
        ∧ chaseCand g fromTile curDir d ∧ chaseScore playerTile (fromTile + d) < acc.2) := by
  unfold chaseStep chaseCand
  by_cases h1 : d = -curDir
  · left
    simp [h1]
  · by_cases h2 : gw_wallAt g (fromTile + d).x (fromTile + d).y = true
    · left
      simp [h1, h2]
    · have h2f : gw_wallAt g (fromTile + d).x (fromTile + d).y = false := by
        simpa using h2
      by_cases h3 : chaseScore playerTile (fromTile + d) < acc.2
      · right
        simp [h1, h2f, h3]
      · left
        simp only [h1, h2f, h3, if_false]
        refine ⟨by simp, fun _ => ?_⟩
        omega

/-- Result of the scoring loop over any list of directions: either nothing beat the initial
pair, or the result is the first candidate of least score. -/
theorem chase_fold (g : GWGrid) (fromTile curDir playerTile : IVec2) (ds : List IVec2) :
    ∀ acc : IVec2 × Int,
      (ds.foldl (chaseStep g fromTile curDir playerTile) acc = acc
          ∧ ∀ d ∈ ds, chaseCand g fromTile curDir d →
              acc.2 ≤ chaseScore playerTile (fromTile + d))
        ∨ (∃ l1 l2 : List IVec2,
            ds = l1 ++ (ds.foldl (chaseStep g fromTile curDir playerTile) acc).1 :: l2
            ∧ chaseCand g fromTile curDir (ds.foldl (chaseStep g fromTile curDir playerTile) acc).1
            ∧ (ds.foldl (chaseStep g fromTile curDir playerTile) acc).2 =
                chaseScore playerTile
                  (fromTile + (ds.foldl (chaseStep g fromTile curDir playerTile) acc).1)
            ∧ (ds.foldl (chaseStep g fromTile curDir playerTile) acc).2 < acc.2
            ∧ (∀ d ∈ l1, chaseCand g fromTile curDir d →
                (ds.foldl (chaseStep g fromTile curDir playerTile) acc).2 <
                  chaseScore playerTile (fromTile + d))
            ∧ (∀ d ∈ l2, chaseCand g fromTile curDir d →
                (ds.foldl (chaseStep g fromTile curDir playerTile) acc).2 ≤
                  chaseScore playerTile (fromTile + d))) := by
  induction ds with
  | nil =>
    intro acc
    left
    simp
  | cons d ds ih =>
    intro acc
    rw [List.foldl_cons]
    rcases chaseStep_cases g fromTile curDir playerTile acc d with ⟨hs, hd⟩ | ⟨hs, hc, hlt⟩
    · rw [hs]
      rcases ih acc with ⟨hr, hall⟩ | ⟨l1, l2, hds, hc, hsc, hlt, h1, h2⟩
      · left
        refine ⟨hr, ?_⟩
        intro x hx hcx
        rcases List.mem_cons.mp hx with rfl | hx
        · exact hd hcx
        · exact hall x hx hcx
      · right
        refine ⟨d :: l1, l2, ?_, hc, hsc, hlt, ?_, h2⟩
        · rw [List.cons_append, ← hds]
        · intro x hx hcx
          rcases List.mem_cons.mp hx with rfl | hx
          · have := hd hcx
            omega
          · exact h1 x hx hcx
    · rw [hs]
      rcases ih (d, chaseScore playerTile (fromTile + d)) with
        ⟨hr, hall⟩ | ⟨l1, l2, hds, hc2, hsc, hlt2, h1, h2⟩
      · right
        rw [hr]
        exact ⟨[], ds, rfl, hc, rfl, hlt, by simp, hall⟩
      · right
        refine ⟨d :: l1, l2, ?_, hc2, hsc, ?_, ?_, h2⟩
        · rw [List.cons_append, ← hds]
        · simp only at hlt2
          omega
        · intro x hx hcx
          rcases List.mem_cons.mp hx with rfl | hx
          · exact hlt2
          · exact h1 x hx hcx

theorem chase_fold_mem (ds l1 l2 : List IVec2) (r : IVec2) (h : ds = l1 ++ r :: l2) :
    r ∈ ds := by
  rw [h]
  simp

/-- C4: when the Manhattan distances from the player tile to the neighbours of `fromTile`
are below 10^9, `gw_chooseDirChase` returns the exact reverse `-curDir` only if each
non-reverse direction leads to a wall or out-of-bounds tile; and when no non-reverse
direction is passable it returns `-curDir` if that neighbour is passable and `(0,0)`
otherwise. It holds for every `curDir`, in particular for the four cardinal ones. -/
theorem gw_chooseDirChase_reverse (g : GWGrid) (fromTile curDir playerTile : IVec2)
    (hrange : ∀ d ∈ GW_DIRS, chaseScore playerTile (fromTile + d) < 1000000000) :
    (gw_chooseDirChase g fromTile curDir playerTile = -curDir →
        ∀ d ∈ GW_DIRS, d ≠ -curDir → gw_wallAt g (fromTile + d).x (fromTile + d).y = true)
      ∧ ((∀ d ∈ GW_DIRS, d ≠ -curDir → gw_wallAt g (fromTile + d).x (fromTile + d).y = true) →
          gw_chooseDirChase g fromTile curDir playerTile =
            if gw_wallAt g (fromTile + -curDir).x (fromTile + -curDir).y = false
            then -curDir else ⟨0, 0⟩) := by
  have hfold := chase_fold g fromTile curDir playerTile GW_DIRS (curDir, 1000000000)
  rcases hfold with ⟨hr, hall⟩ | ⟨l1, l2, hds, hc, hsc, hlt, h1, h2⟩
  · have hnone : ∀ d ∈ GW_DIRS, d ≠ -curDir →
        gw_wallAt g (fromTile + d).x (fromTile + d).y = true := by
      intro d hd hne
      by_contra hw
      have hwf : gw_wallAt g (fromTile + d).x (fromTile + d).y = false := by
        simpa using hw
      have h9 := hall d hd ⟨hne, hwf⟩
      have := hrange d hd
      simp only at h9
      omega
    have hval : gw_chooseDirChase g fromTile curDir playerTile =
        if gw_wallAt g (fromTile + -curDir).x (fromTile + -curDir).y = false
        then -curDir else ⟨0, 0⟩ := by
      unfold gw_chooseDirChase
      simp only [hr, if_true]
      show (if (!gw_wallAt g (fromTile + -curDir).x (fromTile + -curDir).y) = true
        then -curDir else (⟨0, 0⟩ : IVec2)) = _
      cases gw_wallAt g (fromTile + -curDir).x (fromTile + -curDir).y <;> simp
    exact ⟨fun _ => hnone, fun _ => hval⟩
  · have hne9 : (GW_DIRS.foldl (chaseStep g fromTile curDir playerTile)
        (curDir, 1000000000)).2 ≠ 1000000000 := by
      simp only at hlt
      omega
    have hval : gw_chooseDirChase g fromTile curDir playerTile =
        (GW_DIRS.foldl (chaseStep g fromTile curDir playerTile) (curDir, 1000000000)).1 := by
      unfold gw_chooseDirChase
      simp only [hne9, if_false]
    have hmem := chase_fold_mem _ _ _ _ hds
    constructor
    · intro heq
      rw [hval] at heq
      exact absurd heq hc.1
    · intro hwalls
      have := hwalls _ hmem hc.1
      rw [hc.2] at this
      exact absurd this (by simp)

/-- Witness for C4: in a corridor, an enemy at its closed end heading right can only
reverse. -/
theorem gw_chooseDirChase_reverse_witness :
    (∀ d ∈ GW_DIRS, chaseScore ⟨1, 1⟩ ((⟨3, 1⟩ : IVec2) + d) < 1000000000)
      ∧ gw_chooseDirChase exGridCorridor ⟨3, 1⟩ ⟨1, 0⟩ ⟨1, 1⟩ = ⟨-1, 0⟩
      ∧ ((∀ d ∈ GW_DIRS, d ≠ -(⟨1, 0⟩ : IVec2) →
            gw_wallAt exGridCorridor ((⟨3, 1⟩ : IVec2) + d).x ((⟨3, 1⟩ : IVec2) + d).y = true) →
          gw_chooseDirChase exGridCorridor ⟨3, 1⟩ ⟨1, 0⟩ ⟨1, 1⟩ =
            if gw_wallAt exGridCorridor ((⟨3, 1⟩ : IVec2) + -(⟨1, 0⟩ : IVec2)).x
                ((⟨3, 1⟩ : IVec2) + -(⟨1, 0⟩ : IVec2)).y = false
            then -(⟨1, 0⟩ : IVec2) else ⟨0, 0⟩) :=
  ⟨by decide, by decide,
    (gw_chooseDirChase_reverse exGridCorridor ⟨3, 1⟩ ⟨1, 0⟩ ⟨1, 1⟩ (by decide)).2⟩

/-- The direction returned when some candidate exists, measured by the score the loop
computes. -/
theorem chase_best_scored (g : GWGrid) (fromTile curDir playerTile : IVec2)
    (hrange : ∀ d ∈ GW_DIRS, chaseScore playerTile (fromTile + d) < 1000000000)
    (hex : ∃ d ∈ GW_DIRS, chaseCand g fromTile curDir d) :
    chaseCand g fromTile curDir (gw_chooseDirChase g fromTile curDir playerTile)
      ∧ (∀ d ∈ GW_DIRS, chaseCand g fromTile curDir d →
          chaseScore playerTile (fromTile + gw_chooseDirChase g fromTile curDir playerTile) ≤
            chaseScore playerTile (fromTile + d))
      ∧ ∃ l1 l2 : List IVec2,
          GW_DIRS = l1 ++ gw_chooseDirChase g fromTile curDir playerTile :: l2
          ∧ ∀ d ∈ l1, chaseCand g fromTile curDir d →
              chaseScore playerTile (fromTile + gw_chooseDirChase g fromTile curDir playerTile) <
                chaseScore playerTile (fromTile + d) := by
  have hfold := chase_fold g fromTile curDir playerTile GW_DIRS (curDir, 1000000000)
  rcases hfold with ⟨hr, hall⟩ | ⟨l1, l2, hds, hc, hsc, hlt, h1, h2⟩
  · obtain ⟨d, hd, hcd⟩ := hex
    have h9 := hall d hd hcd
    have := hrange d hd
    simp only at h9
    omega
  · have hne9 : (GW_DIRS.foldl (chaseStep g fromTile curDir playerTile)
        (curDir, 1000000000)).2 ≠ 1000000000 := by
      simp only at hlt
      omega
    have hval : gw_chooseDirChase g fromTile curDir playerTile =
        (GW_DIRS.foldl (chaseStep g fromTile curDir playerTile) (curDir, 1000000000)).1 := by
      unfold gw_chooseDirChase
      simp only [hne9, if_false]
    rw [hval, ← hsc]
    refine ⟨hc, ?_, l1, l2, hds, h1⟩
    intro d hd hcd
    rw [hds] at hd
    rcases List.mem_append.mp hd with hd | hd
    · exact le_of_lt (h1 d hd hcd)
    · rcases List.mem_cons.mp hd with rfl | hd
      · rw [hsc]
      · exact h2 d hd hcd

/-- C5: when the Manhattan distance `|px - x| + |py - y|` from the player tile to each of
the four neighbours of `fromTile` is below 10^9 and some non-reverse direction leads to a
tile that is not a wall, `gw_chooseDirChase` returns one of the four directions, non-reverse
and leading to a tile that is not a wall, whose tile has the least Manhattan distance to the
player tile among all such directions, and every such direction before it in the order
+x, -x, +y, -y has a strictly larger Manhattan distance. -/
theorem gw_chooseDirChase_best (g : GWGrid) (fromTile curDir playerTile : IVec2)
    (hrange : ∀ d ∈ ([⟨1, 0⟩, ⟨-1, 0⟩, ⟨0, 1⟩, ⟨0, -1⟩] : List IVec2),
      |playerTile.x - (fromTile.x + d.x)| + |playerTile.y - (fromTile.y + d.y)| < 1000000000)
    (hex : ∃ d ∈ ([⟨1, 0⟩, ⟨-1, 0⟩, ⟨0, 1⟩, ⟨0, -1⟩] : List IVec2),
      d ≠ ⟨-curDir.x, -curDir.y⟩ ∧ gw_wallAt g (fromTile.x + d.x) (fromTile.y + d.y) = false) :
    (gw_chooseDirChase g fromTile curDir playerTile ≠ ⟨-curDir.x, -curDir.y⟩
        ∧ gw_wallAt g (fromTile.x + (gw_chooseDirChase g fromTile curDir playerTile).x)
            (fromTile.y + (gw_chooseDirChase g fromTile curDir playerTile).y) = false)
      ∧ (∀ d ∈ ([⟨1, 0⟩, ⟨-1, 0⟩, ⟨0, 1⟩, ⟨0, -1⟩] : List IVec2),
          d ≠ ⟨-curDir.x, -curDir.y⟩ →
          gw_wallAt g (fromTile.x + d.x) (fromTile.y + d.y) = false →
          |playerTile.x - (fromTile.x + (gw_chooseDirChase g fromTile curDir playerTile).x)|
              + |playerTile.y - (fromTile.y + (gw_chooseDirChase g fromTile curDir playerTile).y)|
            ≤ |playerTile.x - (fromTile.x + d.x)| + |playerTile.y - (fromTile.y + d.y)|)
      ∧ ∃ l1 l2 : List IVec2,
          ([⟨1, 0⟩, ⟨-1, 0⟩, ⟨0, 1⟩, ⟨0, -1⟩] : List IVec2)
              = l1 ++ gw_chooseDirChase g fromTile curDir playerTile :: l2
          ∧ ∀ d ∈ l1, d ≠ ⟨-curDir.x, -curDir.y⟩ →
              gw_wallAt g (fromTile.x + d.x) (fromTile.y + d.y) = false →
              |playerTile.x - (fromTile.x + (gw_chooseDirChase g fromTile curDir playerTile).x)|
                  + |playerTile.y
                      - (fromTile.y + (gw_chooseDirChase g fromTile curDir playerTile).y)|
                < |playerTile.x - (fromTile.x + d.x)| + |playerTile.y - (fromTile.y + d.y)| := by
  have hrange2 : ∀ d ∈ GW_DIRS, chaseScore playerTile (fromTile + d) < 1000000000 := hrange
  have hex2 : ∃ d ∈ GW_DIRS, chaseCand g fromTile curDir d := hex
  obtain ⟨hc, hmin, l1, l2, hds, hfirst⟩ :=
    chase_best_scored g fromTile curDir playerTile hrange2 hex2
  refine ⟨hc, ?_, l1, l2, hds, ?_⟩
  · intro d hd hne hw
    exact hmin d hd ⟨hne, hw⟩
  · intro d hd hne hw
    exact hfirst d hd ⟨hne, hw⟩

/-- Witness for C5: on the ring grid, from the centre tile with the player diagonally
below right, +x and +y tie at Manhattan distance 1 and +x is returned. -/
theorem gw_chooseDirChase_best_witness :
    gw_chooseDirChase exGridRing ⟨2, 2⟩ ⟨0, 0⟩ ⟨3, 3⟩ = ⟨1, 0⟩
      ∧ |((3 : Int) - (2 + 1))| + |((3 : Int) - (2 + 0))|
          = |((3 : Int) - (2 + 0))| + |((3 : Int) - (2 + 1))|
      ∧ (gw_chooseDirChase exGridRing ⟨2, 2⟩ ⟨0, 0⟩ ⟨3, 3⟩ ≠ ⟨-(0 : Int), -(0 : Int)⟩
        ∧ gw_wallAt exGridRing
            ((2 : Int) + (gw_chooseDirChase exGridRing ⟨2, 2⟩ ⟨0, 0⟩ ⟨3, 3⟩).x)
            ((2 : Int) + (gw_chooseDirChase exGridRing ⟨2, 2⟩ ⟨0, 0⟩ ⟨3, 3⟩).y) = false) :=
  ⟨by decide, by decide,
    (gw_chooseDirChase_best exGridRing ⟨2, 2⟩ ⟨0, 0⟩ ⟨3, 3⟩ (by decide)
      ⟨⟨1, 0⟩, by decide, by decide, by decide⟩).1⟩

/-! ## Shooting -/

theorem qsqrt_pos (q : ℚ) (hq : 0 < q) : 0 < qsqrt q := by
  unfold qsqrt
  have hnum : 0 < q.num := Rat.num_pos.mpr hq
  have hden : 0 < q.den := q.den_pos
  have hprod : 0 < q.num.toNat * q.den := Nat.mul_pos (by omega) hden
  have hs : 0 < Nat.sqrt (q.num.toNat * q.den) := Nat.sqrt_pos.mpr hprod
  have h1 : (0 : ℚ) < (Nat.sqrt (q.num.toNat * q.den) : ℚ) := by exact_mod_cast hs
  have h2 : (0 : ℚ) < (q.den : ℚ) := by exact_mod_cast hden
  exact div_pos h1 h2

/-- The instance `glmQ` gives every non-zero vector a positive length. -/
theorem glmQ_length_pos (v : Vec2) (hv : v ≠ ⟨0, 0⟩) : 0 < glmQ.length v := by
  show 0 < qsqrt (v.x * v.x + v.y * v.y)
  apply qsqrt_pos
  have hxy : v.x ≠ 0 ∨ v.y ≠ 0 := by
    by_contra hcon
    push_neg at hcon
    apply hv
    cases v with
    | mk x y =>
      simp only at hcon
      rw [hcon.1, hcon.2]
  rcases hxy with hx | hy
  · have := mul_self_pos.mpr hx
    have := mul_self_nonneg v.y
    linarith
  · have := mul_self_pos.mpr hy
    have := mul_self_nonneg v.x
    linarith

theorem shootDirOf_ne_zero (p : GWEntity) : shootDirOf p ≠ ⟨0, 0⟩ := by
  unfold shootDirOf
  by_cases hd : p.ctrl.dir ≠ ⟨0, 0⟩
  · rw [if_pos hd]
    intro h
    injection h with hx hy
    apply hd
    have hx2 : p.ctrl.dir.x = 0 := by exact_mod_cast hx
    have hy2 : p.ctrl.dir.y = 0 := by exact_mod_cast hy
    cases hdir : p.ctrl.dir with
    | mk a b =>
      rw [hdir] at hx2 hy2
      simp only at hx2 hy2
      rw [hx2, hy2]
  · rw [if_neg hd]
    split_ifs <;> intro h <;> injection h with hx hy <;> norm_num at hx hy

/-- The shooting block on its own: with `glm::length` positive on non-zero vectors it
pushes a bullet exactly when the key is pressed now, `prevSpace` is false, `hasGun` is true
and the cooldown is at most 0. -/
theorem gw_shoot_block (glm : GLM) (hlen : ∀ v : Vec2, v ≠ ⟨0, 0⟩ → 0 < glm.length v)
    (spaceNow prevSpace hasGun : Bool) (fireCooldown : ℚ) (player : GWEntity)
    (bullets : List GWBullet) :
    ((gw_shoot glm spaceNow prevSpace hasGun fireCooldown player bullets).1.length
          = bullets.length + 1 ↔
        (spaceNow = true ∧ prevSpace = false ∧ hasGun = true ∧ fireCooldown ≤ 0))
      ∧ ((spaceNow = true ∧ prevSpace = false ∧ hasGun = true ∧ fireCooldown ≤ 0) →
          ∃ b : GWBullet,
            gw_shoot glm spaceNow prevSpace hasGun fireCooldown player bullets
                = (bullets ++ [b], 1 / 4)
              ∧ b.pos = player.pos ∧ b.alive = true ∧ b.life = 3 / 2)
      ∧ (¬ (spaceNow = true ∧ prevSpace = false ∧ hasGun = true ∧ fireCooldown ≤ 0) →
          gw_shoot glm spaceNow prevSpace hasGun fireCooldown player bullets
            = (bullets, fireCooldown)) := by
  have hpos : glm.length (shootDirOf player) > 0 := hlen _ (shootDirOf_ne_zero player)
  by_cases hc : spaceNow = true ∧ prevSpace = false ∧ hasGun = true ∧ fireCooldown ≤ 0
  · obtain ⟨h1, h2, h3, h4⟩ := hc
    have hval : gw_shoot glm spaceNow prevSpace hasGun fireCooldown player bullets
        = (bullets ++ [{ pos := player.pos, dir := glm.normalize (shootDirOf player),
                         life := 3 / 2, alive := true }], 1 / 4) := by
      unfold gw_shoot
      simp [h1, h2, h3, h4, hpos, GW_FIRE_COOLDOWN]
    refine ⟨?_, ?_, ?_⟩
    · rw [hval]
      simp [h1, h2, h3, h4]
    · intro _
      exact ⟨_, hval, rfl, rfl, rfl⟩
    · intro hn
      exact absurd ⟨h1, h2, h3, h4⟩ hn
  · have hval : gw_shoot glm spaceNow prevSpace hasGun fireCooldown player bullets
        = (bullets, fireCooldown) := by
      unfold gw_shoot
      by_cases h1 : spaceNow = true
      · by_cases h2 : prevSpace = false
        · by_cases h3 : hasGun = true
          · have h4 : ¬ fireCooldown ≤ 0 := fun h4 => hc ⟨h1, h2, h3, h4⟩
            simp [h1, h2, h3, h4]
          · simp [h1, h2, h3]
        · simp [h1, h2]
      · simp [h1]
    refine ⟨?_, ?_, ?_⟩
    · rw [hval]
      constructor
      · intro h
        simp at h
      · intro h
        exact absurd h hc
    · intro h
      exact absurd h hc
    · intro _
      exact hval

/-! ## Cooldown across frames -/

theorem gw_shoot_cases (glm : GLM) (spaceNow prevSpace hasGun : Bool) (fireCooldown : ℚ)
    (player : GWEntity) (bullets : List GWBullet) :
    gw_shoot glm spaceNow prevSpace hasGun fireCooldown player bullets = (bullets, fireCooldown)
      ∨ (fireCooldown ≤ 0 ∧ ∃ b : GWBullet,
          gw_shoot glm spaceNow prevSpace hasGun fireCooldown player bullets
            = (bullets ++ [b], GW_FIRE_COOLDOWN)) := by
  unfold gw_shoot
  by_cases h1 : (spaceNow && !prevSpace) = true
  · rw [if_pos h1]
    by_cases h2 : (hasGun && decide (fireCooldown ≤ 0)) = true
    · rw [if_pos h2]
      by_cases h3 : glm.length (shootDirOf player) > 0
      · right
        rw [if_pos h3]
        simp only [Bool.and_eq_true, decide_eq_true_eq] at h2
        exact ⟨h2.2, _, rfl⟩
      · left
        rw [if_neg h3]
    · left
      rw [if_neg h2]
  · left
    rw [if_neg h1]

theorem gw_shoot_of_pos (glm : GLM) (spaceNow prevSpace hasGun : Bool) (fireCooldown : ℚ)
    (player : GWEntity) (bullets : List GWBullet) (hpos : 0 < fireCooldown) :
    gw_shoot glm spaceNow prevSpace hasGun fireCooldown player bullets
      = (bullets, fireCooldown) := by
  rcases gw_shoot_cases glm spaceNow prevSpace hasGun fireCooldown player bullets with h | ⟨h, _⟩
  · exact h
  · exact absurd h (not_le.mpr hpos)

theorem frameFires_of_pos (glm : GLM) (k : GWInput) (s : GWState) (hpos : 0 < s.fireCooldown) :
    frameFires glm k s = false := by
  unfold frameFires
  simp only [gw_shoot_of_pos glm _ _ _ _ _ _ hpos]
  simp

theorem framePre_fireCooldown (glm : GLM) (k : GWInput) (s : GWState) :
    (framePre glm k s).fireCooldown =
      if frameFires glm k s = true then GW_FIRE_COOLDOWN else s.fireCooldown := by
  unfold framePre frameFires
  simp only
  rcases gw_shoot_cases glm k.space s.prevSpace
      (gw_pickup s.grid (playerMove glm s.grid (gw_readInput k) k.dt s.player) s.hasGun).2
      s.fireCooldown (playerMove glm s.grid (gw_readInput k) k.dt s.player) s.bullets
    with h | ⟨_, b, h⟩
  · simp only [h]
    simp
  · simp only [h]
    simp

theorem gw_frame_of_noReset (glm : GLM) (k : GWInput) (s : GWState)
    (hres : frameResets glm k s = false) :
    gw_frame glm k s =
      some { framePre glm k s with
             fireCooldown := coolTick k.dt (framePre glm k s).fireCooldown } := by
  unfold frameResets at hres
  unfold gw_frame
  simp only [hres]
  rfl

/-! ### Rounding to binary32 -/

theorem roundHalfEven_near (m : ℚ) : |(roundHalfEven m : ℚ) - m| ≤ 1 / 2 := by
  have h0 : (⌊m⌋ : ℚ) ≤ m := Int.floor_le m
  have h1 : m < (⌊m⌋ : ℚ) + 1 := Int.lt_floor_add_one m
  unfold roundHalfEven
  rw [abs_le]
  split_ifs with ha hb hc
  · constructor <;> linarith
  · push_cast
    constructor <;> linarith
  · constructor <;> linarith
  · push_cast
    constructor <;> linarith

theorem roundHalfEven_le (m : ℚ) (n : Int) (h : m ≤ n) : roundHalfEven m ≤ n := by
  rcases eq_or_lt_of_le h with heq | hlt
  · have hfl : ⌊m⌋ = n := by rw [heq]; exact Int.floor_intCast n
    unfold roundHalfEven
    have hd : m - (⌊m⌋ : ℚ) < 1 / 2 := by rw [hfl, heq]; norm_num
    rw [if_pos hd, hfl]
  · have hf1 : ⌊m⌋ + 1 ≤ n := by
      have : ⌊m⌋ < n := Int.floor_lt.mpr hlt
      omega
    unfold roundHalfEven
    split_ifs <;> omega

theorem roundHalfEven_intCast (n : Int) : roundHalfEven (n : ℚ) = n := by
  unfold roundHalfEven
  rw [Int.floor_intCast, sub_self, if_pos (by norm_num)]

/-- A value less than half away from an integer is rounded to that integer. -/
theorem roundHalfEven_eq (m : ℚ) (r : Int) (h : |m - r| < 1 / 2) : roundHalfEven m = r := by
  rw [abs_lt] at h
  obtain ⟨h1, h2⟩ := h
  rcases le_or_lt (r : ℚ) m with hge | hlt
  · have hfl : ⌊m⌋ = r := by
      rw [Int.floor_eq_iff]
      constructor <;> linarith
    unfold roundHalfEven
    rw [hfl, if_pos (by linarith)]
  · have hfl : ⌊m⌋ = r - 1 := by
      rw [Int.floor_eq_iff]
      push_cast
      constructor <;> linarith
    unfold roundHalfEven
    rw [hfl]
    push_cast
    rw [if_neg (by linarith), if_pos (by linarith)]
    ring

/-- A value halfway above an odd integer is rounded up, to the even neighbour. -/
theorem roundHalfEven_tie_odd (m : ℚ) (f : Int) (hm : m = (f : ℚ) + 1 / 2) (hodd : f % 2 = 1) :
    roundHalfEven m = f + 1 := by
  have hfl : ⌊m⌋ = f := by
    rw [Int.floor_eq_iff, hm]
    constructor <;> linarith
  unfold roundHalfEven
  rw [hfl, hm]
  rw [if_neg (by norm_num), if_neg (by norm_num), if_neg (by omega)]

theorem f32ulp_pos (x : ℚ) : 0 < f32ulp x := by
  unfold f32ulp
  positivity

/-- The rounded value is within half a spacing of the exact one. -/
theorem f32round_near (x : ℚ) : |f32round x - x| ≤ f32ulp x / 2 := by
  have hu := f32ulp_pos x
  have h := roundHalfEven_near (x / f32ulp x)
  unfold f32round
  have hx : (roundHalfEven (x / f32ulp x) : ℚ) * f32ulp x - x
      = ((roundHalfEven (x / f32ulp x) : ℚ) - x / f32ulp x) * f32ulp x := by
    rw [sub_mul, div_mul_cancel₀ x (ne_of_gt hu)]
  rw [hx, abs_mul, abs_of_pos hu]
  calc |(roundHalfEven (x / f32ulp x) : ℚ) - x / f32ulp x| * f32ulp x
      ≤ 1 / 2 * f32ulp x := mul_le_mul_of_nonneg_right h (le_of_lt hu)
    _ = f32ulp x / 2 := by ring

theorem f32round_zero : f32round 0 = 0 := by
  simp [f32round, roundHalfEven]

/-- Rounding does not cross zero from below. -/
theorem f32round_nonpos (x : ℚ) (h : x ≤ 0) : f32round x ≤ 0 := by
  have hu := f32ulp_pos x
  unfold f32round
  have hm : x / f32ulp x ≤ ((0 : Int) : ℚ) := by
    simp only [Int.cast_zero]
    exact div_nonpos_of_nonpos_of_nonneg h (le_of_lt hu)
  have hr := roundHalfEven_le _ 0 hm
  have hr2 : (roundHalfEven (x / f32ulp x) : ℚ) ≤ 0 := by exact_mod_cast hr
  exact mul_nonpos_of_nonpos_of_nonneg hr2 (le_of_lt hu)

/-- The exponent of a value lying between two consecutive powers of two. -/
theorem int_log_two_eq (a : ℚ) (e : Int) (hlo : (2 : ℚ) ^ e ≤ a)
    (hhi : a < (2 : ℚ) ^ (e + 1)) : Int.log 2 a = e := by
  have hpos : 0 < a := lt_of_lt_of_le (by positivity) hlo
  have h1 : e ≤ Int.log 2 a := by
    rw [← Int.zpow_le_iff_le_log (by norm_num) hpos]
    exact_mod_cast hlo
  have h2 : Int.log 2 a < e + 1 := by
    rw [← Int.lt_zpow_iff_log_lt (by norm_num) hpos]
    exact_mod_cast hhi
  omega

/-- The rounding of a value of absolute value `a` with `2 ^ e ≤ a < 2 ^ (e + 1)`, `e` at
least -126, whose quotient by the spacing `2 ^ (e - 23)` is rounded to the integer `r`. -/
theorem f32round_eq (x a y : ℚ) (e r : Int) (ha : |x| = a) (he : -126 ≤ e)
    (hlo : (2 : ℚ) ^ e ≤ a) (hhi : a < (2 : ℚ) ^ (e + 1))
    (hr : roundHalfEven (x / (2 : ℚ) ^ (e - 23)) = r) (hy : y = r * (2 : ℚ) ^ (e - 23)) :
    f32round x = y := by
  have hu : f32ulp x = (2 : ℚ) ^ (e - 23) := by
    unfold f32ulp
    rw [ha, int_log_two_eq a e hlo hhi, max_eq_left he]
  unfold f32round
  rw [hu, hr, hy]

theorem f32_exponent (x : ℚ) (h0 : 0 < x) (h1 : x ≤ 1 / 4) :
    max (Int.log 2 |x|) (-126) ≤ -2 := by
  apply max_le
  · rw [abs_of_pos h0]
    have : Int.log 2 x < -1 := by
      rw [← Int.lt_zpow_iff_log_lt (by norm_num) h0]
      norm_num
      linarith
    omega
  · norm_num

/-- Below 0.25 the binary32 values are at most `2 ^ (-26)` apart. -/
theorem f32ulp_le (x : ℚ) (h0 : 0 < x) (h1 : x < 1 / 4) : f32ulp x ≤ 1 / 67108864 := by
  have he : max (Int.log 2 |x|) (-126) ≤ -3 := by
    apply max_le
    · rw [abs_of_pos h0]
      have : Int.log 2 x < -2 := by
        rw [← Int.lt_zpow_iff_log_lt (by norm_num) h0]
        norm_num
        linarith
      omega
    · norm_num
  unfold f32ulp
  calc (2 : ℚ) ^ (max (Int.log 2 |x|) (-126) - 23) ≤ (2 : ℚ) ^ (-26 : Int) := by
        apply zpow_le_zpow_right₀ (by norm_num)
        omega
    _ = 1 / 67108864 := by norm_num

/-- For a positive value of at most 0.25, the value 0.25 is a multiple of the spacing. -/
theorem quarter_on_grid (x : ℚ) (h0 : 0 < x) (h1 : x ≤ 1 / 4) :
    ∃ n : Int, (1 / 4 : ℚ) = (n : ℚ) * f32ulp x := by
  have he := f32_exponent x h0 h1
  refine ⟨2 ^ (21 - max (Int.log 2 |x|) (-126)).toNat, ?_⟩
  unfold f32ulp
  push_cast
  rw [← zpow_natCast, ← zpow_add₀ (by norm_num : (2 : ℚ) ≠ 0)]
  have : ((21 - max (Int.log 2 |x|) (-126)).toNat : Int) + (max (Int.log 2 |x|) (-126) - 23)
      = -2 := by
    rw [Int.toNat_of_nonneg (by omega)]
    ring
  rw [this]
  norm_num

/-- The value 0.25 is a binary32 value. -/
theorem f32round_quarter : f32round (1 / 4) = 1 / 4 := by
  obtain ⟨n, hn⟩ := quarter_on_grid (1 / 4) (by norm_num) (le_refl _)
  have hu := f32ulp_pos (1 / 4)
  have hm : (1 / 4 : ℚ) / f32ulp (1 / 4) = (n : ℚ) := by
    rw [div_eq_iff (ne_of_gt hu)]
    exact hn
  unfold f32round
  rw [hm, roundHalfEven_intCast, ← hn]

/-- Between 0 and 0.25 rounding moves a value by at most `2 ^ (-27)`. -/
theorem f32round_error (x : ℚ) (h0 : 0 ≤ x) (h1 : x ≤ 1 / 4) :
    |f32round x - x| ≤ 1 / 134217728 := by
  rcases eq_or_lt_of_le h0 with h | h
  · subst h
    rw [f32round_zero]
    norm_num
  · rcases eq_or_lt_of_le h1 with hq | hq
    · rw [hq, f32round_quarter]
      norm_num
    · have hn := f32round_near x
      have hu := f32ulp_le x h hq
      linarith

/-- A value of at most 0.25 is rounded to at most 0.25. -/
theorem f32round_le_quarter (x : ℚ) (h1 : x ≤ 1 / 4) : f32round x ≤ 1 / 4 := by
  rcases le_or_lt x 0 with h | h
  · have := f32round_nonpos x h
    linarith
  · obtain ⟨n, hn⟩ := quarter_on_grid x h h1
    have hu := f32ulp_pos x
    have hm : x / f32ulp x ≤ (n : ℚ) := by
      rw [div_le_iff₀ hu, ← hn]
      exact h1
    have hr := roundHalfEven_le _ _ hm
    have hr2 : (roundHalfEven (x / f32ulp x) : ℚ) ≤ (n : ℚ) := by exact_mod_cast hr
    unfold f32round
    rw [hn]
    exact mul_le_mul_of_nonneg_right hr2 (le_of_lt hu)

/-- A cooldown of at most 0.25 that exceeds `dt` by more than `2 ^ (-27) + r` is still
above `r` after the decrement. -/
theorem coolTick_above (dt c r : ℚ) (hdt : 0 ≤ dt) (hr : 0 ≤ r) (hc : c ≤ 1 / 4)
    (h : dt + 1 / 134217728 + r < c) : r < coolTick dt c ∧ coolTick dt c ≤ 1 / 4 := by
  have hpos : c > 0 := by linarith
  unfold coolTick
  rw [if_pos hpos]
  have herr := f32round_error (c - dt) (by linarith) (by linarith)
  rw [abs_le] at herr
  constructor
  · linarith [herr.1]
  · exact f32round_le_quarter (c - dt) (by linarith)

/-- A run without reset that starts with a cooldown of at most 0.25 and more than its
frames subtract, `2 ^ (-27)` added per frame for the rounding, ends with a positive
cooldown. -/
theorem gw_run_cooldown_pos (glm : GLM) (ks : List GWInput) :
    ∀ s s1 : GWState, noReset glm ks s = true → gw_run glm ks s = some s1 →
      (∀ i ∈ ks, 0 ≤ i.dt) → s.fireCooldown ≤ 1 / 4 →
      (ks.map GWInput.dt).sum + (ks.length : ℚ) / 134217728 < s.fireCooldown →
      0 < s1.fireCooldown := by
  induction ks with
  | nil =>
    intro s s1 _ hrun _ _ hsum
    simp only [gw_run, Option.some.injEq] at hrun
    subst hrun
    simpa using hsum
  | cons k ks ih =>
    intro s s1 hno hrun hdt hle hsum
    simp only [noReset, Bool.and_eq_true, Bool.not_eq_true'] at hno
    obtain ⟨hres, hrest⟩ := hno
    have hframe := gw_frame_of_noReset glm k s hres
    rw [hframe] at hrest
    simp only at hrest
    simp only [gw_run, hframe, Option.some_bind] at hrun
    have hk : 0 ≤ k.dt := hdt k (List.mem_cons_self k ks)
    have htail : ∀ i ∈ ks, 0 ≤ i.dt := fun i hi => hdt i (List.mem_cons_of_mem k hi)
    have hsumtail : 0 ≤ (ks.map GWInput.dt).sum := by
      apply List.sum_nonneg
      intro x hx
      obtain ⟨i, hi, rfl⟩ := List.mem_map.mp hx
      exact htail i hi
    have hlen : (0 : ℚ) ≤ (ks.length : ℚ) / 134217728 := by positivity
    simp only [List.map_cons, List.sum_cons, List.length_cons, Nat.cast_add, Nat.cast_one]
      at hsum
    have hpos : 0 < s.fireCooldown := by
      have : (0 : ℚ) < ((ks.length : ℚ) + 1) / 134217728 := by positivity
      linarith
    have hpre : (framePre glm k s).fireCooldown = s.fireCooldown := by
      rw [framePre_fireCooldown, frameFires_of_pos glm k s hpos]
      simp
    have hstep := coolTick_above k.dt s.fireCooldown
      ((ks.map GWInput.dt).sum + (ks.length : ℚ) / 134217728) hk (by linarith) hle
      (by linarith)
    apply ih _ s1 hrest hrun htail
    · simp only [hpre]
      exact hstep.2
    · simp only [hpre]
      exact hstep.1

theorem gw_pickup_keeps_gun (g : GWGrid) (p : GWEntity) :
    (gw_pickup g p true).2 = true := by
  unfold gw_pickup
  simp only
  split_ifs <;> rfl

/-- A fresh press with the gun in hand and no cooldown fires, when `glm::length` is
positive on non-zero vectors. -/
theorem frameFires_of_edge (glm : GLM) (hlen : ∀ v : Vec2, v ≠ ⟨0, 0⟩ → 0 < glm.length v)
    (k : GWInput) (s : GWState) (hk : k.space = true) (hp : s.prevSpace = false)
    (hg : s.hasGun = true) (hc : s.fireCooldown ≤ 0) :
    frameFires glm k s = true := by
  unfold frameFires
  simp only [hg, gw_pickup_keeps_gun, hk, hp]
  have hpos := hlen _
    (shootDirOf_ne_zero (playerMove glm s.grid (gw_readInput k) k.dt s.player))
  unfold gw_shoot
  simp [hc, hpos]

theorem framePre_ghosts_nil (glm : GLM) (k : GWInput) (s : GWState) (hs : s.ghosts = []) :
    (framePre glm k s).ghosts = [] := by
  unfold framePre
  simp only [hs, List.map_nil, bulletVsGhost]

theorem frameResets_of_no_ghosts (glm : GLM) (k : GWInput) (s : GWState)
    (hs : s.ghosts = []) : frameResets glm k s = false := by
  unfold frameResets
  rw [framePre_ghosts_nil glm k s hs]
  rfl

/-- Without enemies no frame of a run resets and the run is defined. -/
theorem gw_run_of_no_ghosts (glm : GLM) (ks : List GWInput) :
    ∀ s : GWState, s.ghosts = [] →
      noReset glm ks s = true ∧ ∃ s1 : GWState, gw_run glm ks s = some s1 := by
  induction ks with
  | nil =>
    intro s _
    exact ⟨rfl, s, rfl⟩
  | cons k ks ih =>
    intro s hs
    have hres := frameResets_of_no_ghosts glm k s hs
    have hframe := gw_frame_of_noReset glm k s hres
    have hnext := ih { framePre glm k s with
        fireCooldown := coolTick k.dt (framePre glm k s).fireCooldown }
      (framePre_ghosts_nil glm k s hs)
    constructor
    · simp only [noReset, hres, hframe, Bool.not_false, Bool.true_and]
      exact hnext.1
    · obtain ⟨s1, h1⟩ := hnext.2
      exact ⟨s1, by simp only [gw_run, hframe, Option.some_bind, h1]⟩

theorem gw_shoot_of_released (glm : GLM) (prevSpace hasGun : Bool) (fireCooldown : ℚ)
    (player : GWEntity) (bullets : List GWBullet) :
    gw_shoot glm false prevSpace hasGun fireCooldown player bullets
      = (bullets, fireCooldown) := by
  unfold gw_shoot
  simp

/-- The state after a frame with the key released and no enemy: nothing is fired, the gun
is kept and the cooldown takes its decrement. -/
theorem gw_frame_released (glm : GLM) (k : GWInput) (s : GWState) (hk : k.space = false)
    (hs : s.ghosts = []) (hg : s.hasGun = true) :
    ∃ s2 : GWState, gw_frame glm k s = some s2 ∧ s2.ghosts = [] ∧ s2.hasGun = true
      ∧ s2.prevSpace = false ∧ s2.fireCooldown = coolTick k.dt s.fireCooldown := by
  refine ⟨_, gw_frame_of_noReset glm k s (frameResets_of_no_ghosts glm k s hs),
    framePre_ghosts_nil glm k s hs, ?_, hk, ?_⟩
  · show (gw_pickup s.grid _ s.hasGun).2 = true
    rw [hg]
    exact gw_pickup_keeps_gun _ _
  · show coolTick k.dt (framePre glm k s).fireCooldown = coolTick k.dt s.fireCooldown
    have hpre : (framePre glm k s).fireCooldown = s.fireCooldown := by
      show (gw_shoot glm k.space s.prevSpace _ s.fireCooldown _ s.bullets).2 = s.fireCooldown
      rw [hk, gw_shoot_of_released]
    rw [hpre]

/-- The state after a frame that fires, without enemies: the cooldown is 0.25 less the
frame's `dt`, rounded. -/
theorem gw_frame_fired (glm : GLM) (k : GWInput) (s : GWState)
    (hs : s.ghosts = []) (hg : s.hasGun = true) (hf : frameFires glm k s = true) :
    ∃ s2 : GWState, gw_frame glm k s = some s2 ∧ s2.ghosts = [] ∧ s2.hasGun = true
      ∧ s2.prevSpace = k.space ∧ s2.fireCooldown = f32round (1 / 4 - k.dt) := by
  refine ⟨_, gw_frame_of_noReset glm k s (frameResets_of_no_ghosts glm k s hs),
    framePre_ghosts_nil glm k s hs, ?_, rfl, ?_⟩
  · show (gw_pickup s.grid _ s.hasGun).2 = true
    rw [hg]
    exact gw_pickup_keeps_gun _ _
  · show coolTick k.dt (framePre glm k s).fireCooldown = f32round (1 / 4 - k.dt)
    rw [framePre_fireCooldown, if_pos hf]
    unfold coolTick GW_FIRE_COOLDOWN
    rw [if_pos (by norm_num)]

theorem gw_run_cons (glm : GLM) (k : GWInput) (ks : List GWInput) (s : GWState) :
    gw_run glm (k :: ks) s = (gw_frame glm k s).bind (gw_run glm ks) := rfl

/-- A run of frames with the key released and no enemy: the gun is kept and the cooldown
takes the decrements of the frames in turn. -/
theorem gw_run_released (glm : GLM) (ks : List GWInput) :
    ∀ s : GWState, (∀ k ∈ ks, k.space = false) → s.ghosts = [] → s.hasGun = true →
      (s.prevSpace = false ∨ ks ≠ []) →
      ∃ s1 : GWState, gw_run glm ks s = some s1 ∧ s1.ghosts = [] ∧ s1.hasGun = true
        ∧ s1.prevSpace = false
        ∧ s1.fireCooldown = ks.foldl (fun c k => coolTick k.dt c) s.fireCooldown := by
  induction ks with
  | nil =>
    intro s _ hs hg hp
    rcases hp with hp | hp
    · exact ⟨s, rfl, hs, hg, hp, rfl⟩
    · exact absurd rfl hp
  | cons k ks ih =>
    intro s hks hs hg _
    obtain ⟨s2, hf, hs2, hg2, hp2, hc2⟩ :=
      gw_frame_released glm k s (hks k (List.mem_cons_self k ks)) hs hg
    obtain ⟨s1, hrun, hs1, hg1, hp1, hc1⟩ :=
      ih s2 (fun i hi => hks i (List.mem_cons_of_mem k hi)) hs2 hg2 (Or.inl hp2)
    refine ⟨s1, ?_, hs1, hg1, hp1, ?_⟩
    · simp only [gw_run, hf, Option.some_bind, hrun]
    · rw [hc1, hc2]
      rfl

/-- The cooldown 25 frames of 0.01f after a shot, in binary32: set to 0.25 and decreased at
the end of the firing frame and of the 24 frames after it, it ends at -3 / 2^26, although
25 times 0.01f is less than 0.25. Steps 19 to 21 are ties, rounded to even. -/
theorem cooldown_after_ticks :
    (List.replicate 24 exIdleTick).foldl (fun c k => coolTick k.dt c)
        (f32round (1 / 4 - exPressTick.dt)) = -3 / 67108864 := by
  have h1 : f32round (1 / 4 - 5368709 / 536870912) = 16106127 / 67108864 := by
    exact f32round_eq _ (128849019 / 536870912) _ (-3) (16106127)
      (by rw [abs_of_pos (by norm_num)]; norm_num) (by norm_num) (by norm_num) (by norm_num)
      (roundHalfEven_eq _ _ (by rw [abs_lt]; constructor <;> norm_num))
      (by norm_num)
  have h2 : coolTick (5368709 / 536870912) (16106127 / 67108864) = 7717519 / 33554432 := by
    unfold coolTick
    rw [if_pos (by norm_num)]
    exact f32round_eq _ (123480307 / 536870912) _ (-3) (15435038)
      (by rw [abs_of_pos (by norm_num)]; norm_num) (by norm_num) (by norm_num) (by norm_num)
      (roundHalfEven_eq _ _ (by rw [abs_lt]; constructor <;> norm_num))
      (by norm_num)
  have h3 : coolTick (5368709 / 536870912) (7717519 / 33554432) = 14763949 / 67108864 := by
    unfold coolTick
    rw [if_pos (by norm_num)]
    exact f32round_eq _ (118111595 / 536870912) _ (-3) (14763949)
      (by rw [abs_of_pos (by norm_num)]; norm_num) (by norm_num) (by norm_num) (by norm_num)
      (roundHalfEven_eq _ _ (by rw [abs_lt]; constructor <;> norm_num))
      (by norm_num)
  have h4 : coolTick (5368709 / 536870912) (14763949 / 67108864) = 3523215 / 16777216 := by
    unfold coolTick
    rw [if_pos (by norm_num)]
    exact f32round_eq _ (112742883 / 536870912) _ (-3) (14092860)
      (by rw [abs_of_pos (by norm_num)]; norm_num) (by norm_num) (by norm_num) (by norm_num)
      (roundHalfEven_eq _ _ (by rw [abs_lt]; constructor <;> norm_num))
      (by norm_num)
  have h5 : coolTick (5368709 / 536870912) (3523215 / 16777216) = 13421771 / 67108864 := by
    unfold coolTick
    rw [if_pos (by norm_num)]
    exact f32round_eq _ (107374171 / 536870912) _ (-3) (13421771)
      (by rw [abs_of_pos (by norm_num)]; norm_num) (by norm_num) (by norm_num) (by norm_num)
      (roundHalfEven_eq _ _ (by rw [abs_lt]; constructor <;> norm_num))
      (by norm_num)
  have h6 : coolTick (5368709 / 536870912) (13421771 / 67108864) = 6375341 / 33554432 := by
    unfold coolTick
    rw [if_pos (by norm_num)]
    exact f32round_eq _ (102005459 / 536870912) _ (-3) (12750682)
      (by rw [abs_of_pos (by norm_num)]; norm_num) (by norm_num) (by norm_num) (by norm_num)
      (roundHalfEven_eq _ _ (by rw [abs_lt]; constructor <;> norm_num))
      (by norm_num)
  have h7 : coolTick (5368709 / 536870912) (6375341 / 33554432) = 12079593 / 67108864 := by
    unfold coolTick
    rw [if_pos (by norm_num)]
    exact f32round_eq _ (96636747 / 536870912) _ (-3) (12079593)
      (by rw [abs_of_pos (by norm_num)]; norm_num) (by norm_num) (by norm_num) (by norm_num)
      (roundHalfEven_eq _ _ (by rw [abs_lt]; constructor <;> norm_num))
      (by norm_num)
  have h8 : coolTick (5368709 / 536870912) (12079593 / 67108864) = 1426063 / 8388608 := by
    unfold coolTick
    rw [if_pos (by norm_num)]
    exact f32round_eq _ (91268035 / 536870912) _ (-3) (11408504)
      (by rw [abs_of_pos (by norm_num)]; norm_num) (by norm_num) (by norm_num) (by norm_num)
      (roundHalfEven_eq _ _ (by rw [abs_lt]; constructor <;> norm_num))
      (by norm_num)
  have h9 : coolTick (5368709 / 536870912) (1426063 / 8388608) = 10737415 / 67108864 := by
    unfold coolTick
    rw [if_pos (by norm_num)]
    exact f32round_eq _ (85899323 / 536870912) _ (-3) (10737415)
      (by rw [abs_of_pos (by norm_num)]; norm_num) (by norm_num) (by norm_num) (by norm_num)
      (roundHalfEven_eq _ _ (by rw [abs_lt]; constructor <;> norm_num))
      (by norm_num)
  have h10 : coolTick (5368709 / 536870912) (10737415 / 67108864) = 5033163 / 33554432 := by
    unfold coolTick
    rw [if_pos (by norm_num)]
    exact f32round_eq _ (80530611 / 536870912) _ (-3) (10066326)
      (by rw [abs_of_pos (by norm_num)]; norm_num) (by norm_num) (by norm_num) (by norm_num)
      (roundHalfEven_eq _ _ (by rw [abs_lt]; constructor <;> norm_num))
      (by norm_num)
  have h11 : coolTick (5368709 / 536870912) (5033163 / 33554432) = 9395237 / 67108864 := by
    unfold coolTick
    rw [if_pos (by norm_num)]
    exact f32round_eq _ (75161899 / 536870912) _ (-3) (9395237)
      (by rw [abs_of_pos (by norm_num)]; norm_num) (by norm_num) (by norm_num) (by norm_num)
      (roundHalfEven_eq _ _ (by rw [abs_lt]; constructor <;> norm_num))
      (by norm_num)
  have h12 : coolTick (5368709 / 536870912) (9395237 / 67108864) = 2181037 / 16777216 := by
    unfold coolTick
    rw [if_pos (by norm_num)]
    exact f32round_eq _ (69793187 / 536870912) _ (-3) (8724148)
      (by rw [abs_of_pos (by norm_num)]; norm_num) (by norm_num) (by norm_num) (by norm_num)
      (roundHalfEven_eq _ _ (by rw [abs_lt]; constructor <;> norm_num))
      (by norm_num)
  have h13 : coolTick (5368709 / 536870912) (2181037 / 16777216) = 16106119 / 134217728 := by
    unfold coolTick
    rw [if_pos (by norm_num)]
    exact f32round_eq _ (64424475 / 536870912) _ (-4) (16106119)
      (by rw [abs_of_pos (by norm_num)]; norm_num) (by norm_num) (by norm_num) (by norm_num)
      (roundHalfEven_eq _ _ (by rw [abs_lt]; constructor <;> norm_num))
      (by norm_num)
  have h14 : coolTick (5368709 / 536870912) (16106119 / 134217728) = 7381971 / 67108864 := by
    unfold coolTick
    rw [if_pos (by norm_num)]
    exact f32round_eq _ (59055767 / 536870912) _ (-4) (14763942)
      (by rw [abs_of_pos (by norm_num)]; norm_num) (by norm_num) (by norm_num) (by norm_num)
      (roundHalfEven_eq _ _ (by rw [abs_lt]; constructor <;> norm_num))
      (by norm_num)
  have h15 : coolTick (5368709 / 536870912) (7381971 / 67108864) = 13421765 / 134217728 := by
    unfold coolTick
    rw [if_pos (by norm_num)]
    exact f32round_eq _ (53687059 / 536870912) _ (-4) (13421765)
      (by rw [abs_of_pos (by norm_num)]; norm_num) (by norm_num) (by norm_num) (by norm_num)
      (roundHalfEven_eq _ _ (by rw [abs_lt]; constructor <;> norm_num))
      (by norm_num)
  have h16 : coolTick (5368709 / 536870912) (13421765 / 134217728) = 3019897 / 33554432 := by
    unfold coolTick
    rw [if_pos (by norm_num)]
    exact f32round_eq _ (48318351 / 536870912) _ (-4) (12079588)
      (by rw [abs_of_pos (by norm_num)]; norm_num) (by norm_num) (by norm_num) (by norm_num)
      (roundHalfEven_eq _ _ (by rw [abs_lt]; constructor <;> norm_num))
      (by norm_num)
  have h17 : coolTick (5368709 / 536870912) (3019897 / 33554432) = 10737411 / 134217728 := by
    unfold coolTick
    rw [if_pos (by norm_num)]
    exact f32round_eq _ (42949643 / 536870912) _ (-4) (10737411)
      (by rw [abs_of_pos (by norm_num)]; norm_num) (by norm_num) (by norm_num) (by norm_num)
      (roundHalfEven_eq _ _ (by rw [abs_lt]; constructor <;> norm_num))
      (by norm_num)
  have h18 : coolTick (5368709 / 536870912) (10737411 / 134217728) = 4697617 / 67108864 := by
    unfold coolTick
    rw [if_pos (by norm_num)]
    exact f32round_eq _ (37580935 / 536870912) _ (-4) (9395234)
      (by rw [abs_of_pos (by norm_num)]; norm_num) (by norm_num) (by norm_num) (by norm_num)
      (roundHalfEven_eq _ _ (by rw [abs_lt]; constructor <;> norm_num))
      (by norm_num)
  have h19 : coolTick (5368709 / 536870912) (4697617 / 67108864) = 8053057 / 134217728 := by
    unfold coolTick
    rw [if_pos (by norm_num)]
    exact f32round_eq _ (32212227 / 536870912) _ (-5) (16106114)
      (by rw [abs_of_pos (by norm_num)]; norm_num) (by norm_num) (by norm_num) (by norm_num)
      (by rw [roundHalfEven_tie_odd _ 16106113 (by norm_num) (by decide)]; norm_num)
      (by norm_num)
  have h20 : coolTick (5368709 / 536870912) (8053057 / 134217728) = 209715 / 4194304 := by
    unfold coolTick
    rw [if_pos (by norm_num)]
    exact f32round_eq _ (26843519 / 536870912) _ (-5) (13421760)
      (by rw [abs_of_pos (by norm_num)]; norm_num) (by norm_num) (by norm_num) (by norm_num)
      (by rw [roundHalfEven_tie_odd _ 13421759 (by norm_num) (by decide)]; norm_num)
      (by norm_num)
  have h21 : coolTick (5368709 / 536870912) (209715 / 4194304) = 5368703 / 134217728 := by
    unfold coolTick
    rw [if_pos (by norm_num)]
    exact f32round_eq _ (21474811 / 536870912) _ (-5) (10737406)
      (by rw [abs_of_pos (by norm_num)]; norm_num) (by norm_num) (by norm_num) (by norm_num)
      (by rw [roundHalfEven_tie_odd _ 10737405 (by norm_num) (by decide)]; norm_num)
      (by norm_num)
  have h22 : coolTick (5368709 / 536870912) (5368703 / 134217728) = 16106103 / 536870912 := by
    unfold coolTick
    rw [if_pos (by norm_num)]
    exact f32round_eq _ (16106103 / 536870912) _ (-6) (16106103)
      (by rw [abs_of_pos (by norm_num)]; norm_num) (by norm_num) (by norm_num) (by norm_num)
      (roundHalfEven_eq _ _ (by rw [abs_lt]; constructor <;> norm_num))
      (by norm_num)
  have h23 : coolTick (5368709 / 536870912) (16106103 / 536870912) = 5368697 / 268435456 := by
    unfold coolTick
    rw [if_pos (by norm_num)]
    exact f32round_eq _ (5368697 / 268435456) _ (-6) (10737394)
      (by rw [abs_of_pos (by norm_num)]; norm_num) (by norm_num) (by norm_num) (by norm_num)
      (roundHalfEven_eq _ _ (by rw [abs_lt]; constructor <;> norm_num))
      (by norm_num)
  have h24 : coolTick (5368709 / 536870912) (5368697 / 268435456) = 5368685 / 536870912 := by
    unfold coolTick
    rw [if_pos (by norm_num)]
    exact f32round_eq _ (5368685 / 536870912) _ (-7) (10737370)
      (by rw [abs_of_pos (by norm_num)]; norm_num) (by norm_num) (by norm_num) (by norm_num)
      (roundHalfEven_eq _ _ (by rw [abs_lt]; constructor <;> norm_num))
      (by norm_num)
  have h25 : coolTick (5368709 / 536870912) (5368685 / 536870912) = (-3 / 67108864) := by
    unfold coolTick
    rw [if_pos (by norm_num)]
    exact f32round_eq _ (3 / 67108864) _ (-25) (-12582912)
      (by rw [abs_of_neg (by norm_num)]; norm_num) (by norm_num) (by norm_num) (by norm_num)
      (roundHalfEven_eq _ _ (by rw [abs_lt]; constructor <;> norm_num))
      (by norm_num)
  have hfold : ∀ (n : Nat) (c : ℚ),
      (List.replicate (n + 1) exIdleTick).foldl (fun c k => coolTick k.dt c) c
        = (List.replicate n exIdleTick).foldl (fun c k => coolTick k.dt c)
            (coolTick (5368709 / 536870912) c) := fun _ _ => rfl
  show (List.replicate 24 exIdleTick).foldl (fun c k => coolTick k.dt c)
      (f32round (1 / 4 - 5368709 / 536870912)) = -3 / 67108864
  rw [h1, hfold, h2, hfold, h3, hfold, h4, hfold, h5, hfold, h6, hfold, h7, hfold, h8, hfold, h9, hfold, h10, hfold, h11, hfold, h12, hfold, h13, hfold, h14, hfold, h15, hfold, h16, hfold, h17, hfold, h18, hfold, h19, hfold, h20, hfold, h21, hfold, h22, hfold, h23, hfold, h24, hfold, h25]
  rfl

/-- On the ring grid without enemies the armed player presses the fire key in a frame that
comes half a time unit after the one before, releases it in the next frame and presses it
again in the frame after that, each 1/1024 time units after the one before: both presses
create a projectile. -/
theorem cooldown_hitch_refires :
    (0 ≤ exHitch.dt ∧ 0 ≤ exRelease.dt ∧ 0 ≤ exTap.dt)
      ∧ exStateArmed.hasGun = true
      ∧ frameFires glmQ exHitch exStateArmed = true
      ∧ noReset glmQ [exHitch, exRelease, exTap] exStateArmed = true
      ∧ (∃ s1 s2 : GWState, gw_frame glmQ exHitch exStateArmed = some s1
          ∧ gw_frame glmQ exRelease s1 = some s2
          ∧ s1.hasGun = true ∧ s2.hasGun = true
          ∧ exTap.space = true ∧ s2.prevSpace = false
          ∧ frameFires glmQ exTap s2 = true)
      ∧ exRelease.dt + exTap.dt < 1 / 4 := by
  have hfire : frameFires glmQ exHitch exStateArmed = true :=
    frameFires_of_edge glmQ glmQ_length_pos exHitch exStateArmed rfl rfl rfl (le_refl 0)
  obtain ⟨s1, h1, hg1, hgun1, _, hc1⟩ :=
    gw_frame_fired glmQ exHitch exStateArmed rfl rfl hfire
  have hc1neg : s1.fireCooldown ≤ 0 := by
    rw [hc1]
    apply f32round_nonpos
    norm_num [exHitch]
  obtain ⟨s2, h2, hg2, hgun2, hprev2, hc2⟩ :=
    gw_frame_released glmQ exRelease s1 rfl hg1 hgun1
  have hc2neg : s2.fireCooldown ≤ 0 := by
    rw [hc2]
    unfold coolTick
    rw [if_neg (not_lt.mpr hc1neg)]
    exact hc1neg
  refine ⟨?_, rfl, hfire, (gw_run_of_no_ghosts glmQ _ exStateArmed rfl).1,
    ⟨s1, s2, h1, h2, hgun1, hgun2, rfl, hprev2,
      frameFires_of_edge glmQ glmQ_length_pos exTap s2 rfl hprev2 hgun2 hc2neg⟩, ?_⟩
  · norm_num [exHitch, exRelease, exTap]
  · norm_num [exRelease, exTap]

/-- On the ring grid without enemies, at a constant 0.01f per frame, the armed player
presses the fire key, releases it for 24 frames and presses it again: both presses create a
projectile, although the 25 frame times between them sum to less than 0.25. -/
theorem cooldown_rounding_refires :
    (0 ≤ exPressTick.dt ∧ 0 ≤ exIdleTick.dt)
      ∧ exStateArmed.hasGun = true
      ∧ frameFires glmQ exPressTick exStateArmed = true
      ∧ noReset glmQ (exPressTick :: List.replicate 24 exIdleTick ++ [exPressTick])
          exStateArmed = true
      ∧ (∃ s1 : GWState,
          gw_run glmQ (exPressTick :: List.replicate 24 exIdleTick) exStateArmed = some s1
          ∧ s1.hasGun = true
          ∧ exPressTick.space = true ∧ s1.prevSpace = false
          ∧ frameFires glmQ exPressTick s1 = true)
      ∧ ((List.replicate 24 exIdleTick ++ [exPressTick]).map GWInput.dt).sum < 1 / 4 := by
  have hfire : frameFires glmQ exPressTick exStateArmed = true :=
    frameFires_of_edge glmQ glmQ_length_pos exPressTick exStateArmed rfl rfl rfl (le_refl 0)
  obtain ⟨sA, hA, hgA, hgunA, _, hcA⟩ :=
    gw_frame_fired glmQ exPressTick exStateArmed rfl rfl hfire
  obtain ⟨s1, hrun, _, hgun1, hprev1, hc1⟩ :=
    gw_run_released glmQ (List.replicate 24 exIdleTick) sA
      (fun k hk => by rw [List.eq_of_mem_replicate hk]; rfl) hgA hgunA (Or.inr (by simp))
  have hc : s1.fireCooldown ≤ 0 := by
    rw [hc1, hcA, cooldown_after_ticks]
    norm_num
  refine ⟨?_, rfl, hfire, (gw_run_of_no_ghosts glmQ _ exStateArmed rfl).1,
    ⟨s1, ?_, hgun1, rfl, hprev1,
      frameFires_of_edge glmQ glmQ_length_pos exPressTick s1 rfl hprev1 hgun1 hc⟩, ?_⟩
  · norm_num [exPressTick, exIdleTick]
  · rw [gw_run_cons, hA, Option.some_bind]
    exact hrun
  · simp only [List.map_append, List.map_replicate, List.sum_append, List.sum_replicate,
      List.map_cons, List.map_nil, List.sum_cons, List.sum_nil, exPressTick, exIdleTick]
    norm_num

/-- C7 fails as stated, in two ways. (1) The cooldown is decreased by the
`dt` of the firing frame, which is time that passed before the shot: after a firing frame
that comes half a time unit after the one before, the cooldown is over at once, and a
fire-edge 1/1024 + 1/1024 time units later creates a second projectile. (2) The
subtraction is rounded to binary32: at a constant 0.01f per frame a fire-edge 25 frames
after the shot creates a second projectile, although 25 times 0.01f is less than 0.25.
In both runs every `dt` is non-negative, the player holds the gun and no frame resets. -/
theorem cooldown_window_elapsed_time_fails :
    ((0 ≤ exHitch.dt ∧ 0 ≤ exRelease.dt ∧ 0 ≤ exTap.dt)
        ∧ exStateArmed.hasGun = true
        ∧ frameFires glmQ exHitch exStateArmed = true
        ∧ noReset glmQ [exHitch, exRelease, exTap] exStateArmed = true
        ∧ (∃ s1 s2 : GWState, gw_frame glmQ exHitch exStateArmed = some s1
            ∧ gw_frame glmQ exRelease s1 = some s2
            ∧ s1.hasGun = true ∧ s2.hasGun = true
            ∧ exTap.space = true ∧ s2.prevSpace = false
            ∧ frameFires glmQ exTap s2 = true)
        ∧ exRelease.dt + exTap.dt < 1 / 4)
      ∧ ((0 ≤ exPressTick.dt ∧ 0 ≤ exIdleTick.dt)
        ∧ exStateArmed.hasGun = true
        ∧ frameFires glmQ exPressTick exStateArmed = true
        ∧ noReset glmQ (exPressTick :: List.replicate 24 exIdleTick ++ [exPressTick])
            exStateArmed = true
        ∧ (∃ s1 : GWState,
            gw_run glmQ (exPressTick :: List.replicate 24 exIdleTick) exStateArmed = some s1
            ∧ s1.hasGun = true
            ∧ exPressTick.space = true ∧ s1.prevSpace = false
            ∧ frameFires glmQ exPressTick s1 = true)
        ∧ ((List.replicate 24 exIdleTick ++ [exPressTick]).map GWInput.dt).sum < 1 / 4) :=
  ⟨cooldown_hitch_refires, cooldown_rounding_refires⟩

/-- C7 amended: (a) in a frame without reset the cooldown after the frame is: 0.25 less
`dt`, rounded to binary32, when the shooting block fired; the old value less `dt`, rounded
to binary32, when it did not fire and the old value is positive; the old value when it did
not fire and the old value is not positive; and the rounding moves a difference between 0
and 0.25 by at most 2^-27. (b) If the shooting block of a frame creates a projectile, no
reset occurs in that frame and the following ones, every `dt` is non-negative, and the
values `dt` of these frames, from the firing frame up to the frame before the later one,
plus 2^-27 for each of these frames, sum to less than 0.25, then the shooting block of the
later frame creates no projectile, whatever its input. (c) The same holds with the elapsed
time between the two frames, the `dt` of the frames after the firing frame up to and
including the later one, in place of that sum, when the `dt` of the firing frame is at most
the `dt` of the later frame. -/
theorem fire_cooldown_window (glm : GLM) :
    (∀ (k : GWInput) (s s2 : GWState), frameResets glm k s = false →
        gw_frame glm k s = some s2 →
        (frameFires glm k s = true → s2.fireCooldown = f32round (1 / 4 - k.dt))
          ∧ (frameFires glm k s = false → 0 < s.fireCooldown →
              s2.fireCooldown = f32round (s.fireCooldown - k.dt))
          ∧ (frameFires glm k s = false → s.fireCooldown ≤ 0 →
              s2.fireCooldown = s.fireCooldown))
      ∧ (∀ x : ℚ, 0 ≤ x → x ≤ 1 / 4 → |f32round x - x| ≤ 1 / 134217728)
      ∧ (∀ (k : GWInput) (mids : List GWInput) (kj : GWInput) (s0 s1 : GWState),
          frameFires glm k s0 = true →
          noReset glm (k :: mids) s0 = true →
          gw_run glm (k :: mids) s0 = some s1 →
          (∀ i ∈ k :: mids, 0 ≤ i.dt) →
          ((k :: mids).map GWInput.dt).sum + ((k :: mids).length : ℚ) / 134217728 < 1 / 4 →
          frameFires glm kj s1 = false)
      ∧ (∀ (k : GWInput) (mids : List GWInput) (kj : GWInput) (s0 s1 : GWState),
          frameFires glm k s0 = true →
          noReset glm (k :: mids) s0 = true →
          gw_run glm (k :: mids) s0 = some s1 →
          (∀ i ∈ k :: mids, 0 ≤ i.dt) →
          k.dt ≤ kj.dt →
          ((mids ++ [kj]).map GWInput.dt).sum + ((mids ++ [kj]).length : ℚ) / 134217728
            < 1 / 4 →
          frameFires glm kj s1 = false) := by
  have hwindow : ∀ (k : GWInput) (mids : List GWInput) (kj : GWInput) (s0 s1 : GWState),
      frameFires glm k s0 = true →
      noReset glm (k :: mids) s0 = true →
      gw_run glm (k :: mids) s0 = some s1 →
      (∀ i ∈ k :: mids, 0 ≤ i.dt) →
      ((k :: mids).map GWInput.dt).sum + ((k :: mids).length : ℚ) / 134217728 < 1 / 4 →
      frameFires glm kj s1 = false := by
    intro k mids kj s0 s1 hfire hno hrun hdt hsum
    simp only [noReset, Bool.and_eq_true, Bool.not_eq_true'] at hno
    obtain ⟨hres, hrest⟩ := hno
    have hframe := gw_frame_of_noReset glm k s0 hres
    rw [hframe] at hrest
    simp only at hrest
    simp only [gw_run, hframe, Option.some_bind] at hrun
    have hk : 0 ≤ k.dt := hdt k (List.mem_cons_self k mids)
    have htail : ∀ i ∈ mids, 0 ≤ i.dt := fun i hi => hdt i (List.mem_cons_of_mem k hi)
    have hsumtail : 0 ≤ (mids.map GWInput.dt).sum := by
      apply List.sum_nonneg
      intro x hx
      obtain ⟨i, hi, rfl⟩ := List.mem_map.mp hx
      exact htail i hi
    have hlen : (0 : ℚ) ≤ (mids.length : ℚ) / 134217728 := by positivity
    simp only [List.map_cons, List.sum_cons, List.length_cons, Nat.cast_add, Nat.cast_one]
      at hsum
    have hpre : (framePre glm k s0).fireCooldown = 1 / 4 := by
      rw [framePre_fireCooldown, hfire]
      simp [GW_FIRE_COOLDOWN]
    have hstep := coolTick_above k.dt (1 / 4)
      ((mids.map GWInput.dt).sum + (mids.length : ℚ) / 134217728) hk (by linarith)
      (le_refl _) (by linarith)
    have hpos1 : 0 < s1.fireCooldown := by
      apply gw_run_cooldown_pos glm mids _ s1 hrest hrun htail
      · simp only [hpre]
        exact hstep.2
      · simp only [hpre]
        exact hstep.1
    exact frameFires_of_pos glm kj s1 hpos1
  refine ⟨?_, f32round_error, hwindow, ?_⟩
  · intro k s s2 hres hframe
    rw [gw_frame_of_noReset glm k s hres] at hframe
    injection hframe with hframe
    subst hframe
    simp only
    rw [framePre_fireCooldown]
    refine ⟨?_, ?_, ?_⟩
    · intro hf
      rw [if_pos hf]
      unfold coolTick GW_FIRE_COOLDOWN
      rw [if_pos (by norm_num)]
    · intro hf hpos
      rw [hf]
      simp only [Bool.false_eq_true, if_false]
      unfold coolTick
      rw [if_pos hpos]
    · intro hf hle
      rw [hf]
      simp only [Bool.false_eq_true, if_false]
      unfold coolTick
      rw [if_neg (not_lt.mpr hle)]
  · intro k mids kj s0 s1 hfire hno hrun hdt hle hsum
    apply hwindow k mids kj s0 s1 hfire hno hrun hdt
    simp only [List.map_append, List.sum_append, List.map_cons, List.map_nil, List.sum_cons,
      List.sum_nil, List.length_append, List.length_cons, List.length_nil, Nat.cast_add,
      Nat.cast_one, add_zero, zero_add] at hsum
    simp only [List.map_cons, List.sum_cons, List.length_cons, Nat.cast_add, Nat.cast_one]
    linarith

/-- Witness for C7: on the ring grid without enemies, the armed player presses, releases
and presses again at 1/100 time units per frame; the first press fires and the second does
not. -/
theorem fire_cooldown_window_witness :
    frameFires glmQ exPress exStateArmed = true
      ∧ noReset glmQ [exPress, exIdle] exStateArmed = true
      ∧ ∃ s1 : GWState, gw_run glmQ [exPress, exIdle] exStateArmed = some s1
          ∧ frameFires glmQ exPress s1 = false := by
  have hfire : frameFires glmQ exPress exStateArmed = true :=
    frameFires_of_edge glmQ glmQ_length_pos exPress exStateArmed rfl rfl rfl (le_refl 0)
  obtain ⟨hno, s1, hrun⟩ := gw_run_of_no_ghosts glmQ [exPress, exIdle] exStateArmed rfl
  refine ⟨hfire, hno, s1, hrun, ?_⟩
  refine (fire_cooldown_window glmQ).2.2.1 exPress [exIdle] exPress exStateArmed s1 hfire hno
    hrun ?_ ?_
  · intro i hi
    simp only [List.mem_cons, List.mem_singleton, List.not_mem_nil, or_false] at hi
    rcases hi with rfl | rfl <;> norm_num [exPress, exIdle]
  · norm_num [exPress, exIdle]

/-! ## The instance `glmQ` on axis-aligned vectors -/

theorem qsqrt_mul_self (a : ℚ) : qsqrt (a * a) = |a| := by
  unfold qsqrt
  rw [Rat.mul_self_num, Rat.mul_self_den]
  have h1 : (a.num * a.num).toNat * (a.den * a.den)
      = (a.num.natAbs * a.den) * (a.num.natAbs * a.den) := by
    have : (a.num * a.num).toNat = a.num.natAbs * a.num.natAbs := by
      have h0 : a.num * a.num = ((a.num.natAbs * a.num.natAbs : ℕ) : ℤ) := by
        push_cast
        rw [abs_mul_abs_self]
      rw [h0, Int.toNat_ofNat]
    rw [this]
    ring
  rw [h1, Nat.sqrt_eq]
  have hden : (a.den : ℚ) ≠ 0 := by exact_mod_cast a.den_ne_zero
  have ha : |a| = |(a.num : ℚ)| / (a.den : ℚ) := by
    conv_lhs => rw [← Rat.num_div_den a]
    rw [abs_div]
    congr 1
    exact abs_of_pos (by exact_mod_cast a.den_pos)
  rw [ha]
  push_cast
  rw [Nat.cast_natAbs]
  field_simp
  ring

/-- The instance `glmQ` gives a vector along the x axis its exact length. -/
theorem glmQ_length_x (a : ℚ) : glmQ.length ⟨a, 0⟩ = |a| := by
  show qsqrt (a * a + 0 * 0) = |a|
  rw [mul_zero, add_zero, qsqrt_mul_self]

/-- The instance `glmQ` gives a vector along the y axis its exact length. -/
theorem glmQ_length_y (a : ℚ) : glmQ.length ⟨0, a⟩ = |a| := by
  show qsqrt (0 * 0 + a * a) = |a|
  rw [mul_zero, zero_add, qsqrt_mul_self]

theorem vec2_sub_def (a b : Vec2) : a - b = ⟨a.x - b.x, a.y - b.y⟩ := rfl

theorem vec2_add_def (a b : Vec2) : a + b = ⟨a.x + b.x, a.y + b.y⟩ := rfl

theorem ivec2_add_def (a b : IVec2) : a + b = ⟨a.x + b.x, a.y + b.y⟩ := rfl

theorem ghostSteer_of_moving (g : GWGrid) (playerTile : IVec2) (e : GWEntity)
    (hm : e.ctrl.moving = true) : ghostSteer g playerTile e = e := by
  unfold ghostSteer
  simp [hm]

theorem ghostInterp_lands (glm : GLM) (dt : ℚ) (e : GWEntity) (hm : e.ctrl.moving = true)
    (hd : glm.length (e.ctrl.target - e.pos) ≤ GW_STEP_SPEED_ENEMY * dt) :
    (ghostInterp glm dt e).pos = e.ctrl.target
      ∧ (ghostInterp glm dt e).ctrl.moving = false := by
  unfold ghostInterp
  simp only [hm, if_true]
  by_cases h1 : glm.length (e.ctrl.target - e.pos) < 1 / 10000
  · simp only [h1, if_true, and_self]
  · simp only [h1, if_false, ge_iff_le, hd, if_true, and_self]

theorem playerInterp_lands (glm : GLM) (dt : ℚ) (p : GWEntity) (hm : p.ctrl.moving = true)
    (hd : glm.length (p.ctrl.target - p.pos) ≤ GW_STEP_SPEED_PLAYER * dt) :
    (playerInterp glm dt p).pos = p.ctrl.target
      ∧ (playerInterp glm dt p).ctrl.moving = false := by
  unfold playerInterp
  simp only [hm, if_true]
  by_cases h1 : glm.length (p.ctrl.target - p.pos) < 1 / 10000
  · simp only [h1, if_true, and_self]
  · simp only [h1, if_false, ge_iff_le, hd, if_true, and_self]

theorem playerQueue_fields (inp : IVec2) (p : GWEntity) :
    (playerQueue inp p).pos = p.pos ∧ (playerQueue inp p).ctrl.moving = p.ctrl.moving
      ∧ (playerQueue inp p).ctrl.target = p.ctrl.target
      ∧ (playerQueue inp p).ctrl.dir = p.ctrl.dir ∧ (playerQueue inp p).yaw = p.yaw := by
  unfold playerQueue
  split_ifs <;> simp

theorem playerStart_of_moving (g : GWGrid) (p : GWEntity) (hm : p.ctrl.moving = true) :
    playerStart g p = p := by
  unfold playerStart
  simp [hm]

theorem playerPreTurn_of_not_fires (glm : GLM) (g : GWGrid) (dt : ℚ) (p : GWEntity)
    (hf : preTurnFires glm g dt p = false) : playerPreTurn glm g dt p = p := by
  unfold preTurnFires at hf
  unfold playerPreTurn
  by_cases h1 : (p.ctrl.moving && decide (p.ctrl.queued ≠ ⟨0, 0⟩)
      && decide (p.ctrl.queued ≠ p.ctrl.dir)) = true
  · rw [if_pos h1]
    by_cases h2 : orthogonal p.ctrl.queued p.ctrl.dir = true
    · rw [if_pos h2]
      by_cases h3 : (!gw_wallAt g (tileOf p.pos + p.ctrl.queued).x
          (tileOf p.pos + p.ctrl.queued).y) = true
      · simp only [h3, if_true]
        rw [h1, h2, h3] at hf
        simp only [Bool.true_and] at hf
        simp only [GW_STEP_SPEED_PLAYER] at hf ⊢
        rw [if_neg (by rw [hf]; simp)]
      · simp only [h3]
        simp
    · rw [if_neg h2]
  · rw [if_neg h1]

theorem exPlayerTurning_tile : tileOf exPlayerTurning.pos = ⟨1, 1⟩ := by
  show (⟨⌊(8 / 5 : ℚ)⌋, ⌊(3 / 2 : ℚ)⌋⟩ : IVec2) = ⟨1, 1⟩
  have h1 : ⌊(8 / 5 : ℚ)⌋ = 1 := by
    rw [Int.floor_eq_iff]
    norm_num
  have h2 : ⌊(3 / 2 : ℚ)⌋ = 1 := by
    rw [Int.floor_eq_iff]
    norm_num
  rw [h1, h2]

/-- C8 fails for the player as stated: on the ring grid a player 0.9 from its target with
`dt = 1/5` (so `6 * dt = 1.2`) and an orthogonal turn queued is re-targeted by the pre-turn
block and ends the frame at the centre of the tile below, not on the target it had. -/
theorem playerMove_preTurn_misses_target :
    exPlayerTurning.ctrl.moving = true
      ∧ glmQ.length (exPlayerTurning.ctrl.target - exPlayerTurning.pos)
          ≤ GW_STEP_SPEED_PLAYER * (1 / 5)
      ∧ (playerMove glmQ exGridRing ⟨0, 0⟩ (1 / 5) exPlayerTurning).pos = ⟨3 / 2, 5 / 2⟩
      ∧ (playerMove glmQ exGridRing ⟨0, 0⟩ (1 / 5) exPlayerTurning).pos
          ≠ exPlayerTurning.ctrl.target := by
  have hq : playerQueue ⟨0, 0⟩ exPlayerTurning = exPlayerTurning := by
    simp [playerQueue]
  have hs : playerStart exGridRing exPlayerTurning = exPlayerTurning :=
    playerStart_of_moving _ _ rfl
  have hwall : gw_wallAt exGridRing 1 2 = false := by decide
  have hlenC : glmQ.length (gw_centerOf ⟨1, 1⟩ - exPlayerTurning.pos) = 1 / 10 := by
    have : gw_centerOf ⟨1, 1⟩ - exPlayerTurning.pos = ⟨-(1 / 10), 0⟩ := by
      simp only [gw_centerOf, IVec2.toVec2, exPlayerTurning, vec2_sub_def, vec2_add_def]
      norm_num
    rw [this, glmQ_length_x]
    norm_num
  have hpre : playerPreTurn glmQ exGridRing (1 / 5) exPlayerTurning =
      { pos := ⟨3 / 2, 3 / 2⟩, yaw := 90,
        ctrl := { moving := true, dir := ⟨0, 1⟩, queued := ⟨0, 1⟩, target := ⟨3 / 2, 5 / 2⟩ } } := by
    unfold playerPreTurn
    simp only [exPlayerTurning_tile, hlenC]
    simp [exPlayerTurning, orthogonal, ivec2_add_def, hwall, apply_dir, yawOf, gw_centerOf,
      IVec2.toVec2, vec2_add_def]
    norm_num
  have hlenT : glmQ.length ((⟨3 / 2, 5 / 2⟩ : Vec2) - ⟨3 / 2, 3 / 2⟩) = 1 := by
    have : ((⟨3 / 2, 5 / 2⟩ : Vec2) - ⟨3 / 2, 3 / 2⟩) = ⟨0, 1⟩ := by
      simp only [vec2_sub_def]
      norm_num
    rw [this, glmQ_length_y]
    norm_num
  have hpos : (playerMove glmQ exGridRing ⟨0, 0⟩ (1 / 5) exPlayerTurning).pos
      = ⟨3 / 2, 5 / 2⟩ := by
    unfold playerMove
    rw [hq, hs, hpre]
    unfold playerInterp
    simp only [hlenT, GW_STEP_SPEED_PLAYER, if_true]
    norm_num
  refine ⟨rfl, ?_, hpos, ?_⟩
  · have : exPlayerTurning.ctrl.target - exPlayerTurning.pos = ⟨9 / 10, 0⟩ := by
      simp only [exPlayerTurning, vec2_sub_def]
      norm_num
    rw [this, glmQ_length_x, abs_of_pos (by norm_num : (0 : ℚ) < 9 / 10)]
    norm_num [GW_STEP_SPEED_PLAYER]
  · rw [hpos]
    simp only [exPlayerTurning]
    intro h
    injection h with hx hy
    norm_num at hx

/-- C8 amended: an enemy that is moving at the start of its update with remaining distance
to its target at most `5 * dt` ends the update exactly on that target with `moving` false;
a player that is moving at the start of the movement block with remaining distance at most
`6 * dt` ends the block exactly on that target with `moving` false, provided the pre-turn
block does not re-target it in that frame. -/
theorem motion_lands_on_target (glm : GLM) (g : GWGrid) (dt : ℚ) :
    (∀ (playerTile : IVec2) (e : GWEntity), e.ctrl.moving = true →
        glm.length (e.ctrl.target - e.pos) ≤ GW_STEP_SPEED_ENEMY * dt →
        (ghostStep glm g dt playerTile e).pos = e.ctrl.target
          ∧ (ghostStep glm g dt playerTile e).ctrl.moving = false)
      ∧ (∀ (inp : IVec2) (p : GWEntity), p.ctrl.moving = true →
          glm.length (p.ctrl.target - p.pos) ≤ GW_STEP_SPEED_PLAYER * dt →
          preTurnFires glm g dt (playerQueue inp p) = false →
          (playerMove glm g inp dt p).pos = p.ctrl.target
            ∧ (playerMove glm g inp dt p).ctrl.moving = false) := by
  constructor
  · intro playerTile e hm hd
    unfold ghostStep
    rw [ghostSteer_of_moving g playerTile e hm]
    exact ghostInterp_lands glm dt e hm hd
  · intro inp p hm hd hf
    obtain ⟨hqp, hqm, hqt, _, _⟩ := playerQueue_fields inp p
    have hm2 : (playerQueue inp p).ctrl.moving = true := by rw [hqm, hm]
    unfold playerMove
    rw [playerStart_of_moving g _ hm2, playerPreTurn_of_not_fires glm g dt _ hf]
    have hd2 : glm.length ((playerQueue inp p).ctrl.target - (playerQueue inp p).pos)
        ≤ GW_STEP_SPEED_PLAYER * dt := by rw [hqt, hqp]; exact hd
    have := playerInterp_lands glm dt _ hm2 hd2
    rw [hqt] at this
    exact this

theorem exMover_length : glmQ.length (exMover.ctrl.target - exMover.pos) = 1 := by
  have : exMover.ctrl.target - exMover.pos = ⟨1, 0⟩ := by
    simp only [exMover, vec2_sub_def]
    norm_num
  rw [this, glmQ_length_x]
  norm_num

/-- Witness for C8 amended: the entity `exMover`, one tile from its target, lands on it
with `dt = 1/5` as an enemy and, with a forward key held, as the player. -/
theorem motion_lands_on_target_witness :
    ((ghostStep glmQ exGridRing (1 / 5) ⟨3, 3⟩ exMover).pos = exMover.ctrl.target
        ∧ (ghostStep glmQ exGridRing (1 / 5) ⟨3, 3⟩ exMover).ctrl.moving = false)
      ∧ ((playerMove glmQ exGridRing ⟨1, 0⟩ (1 / 5) exMover).pos = exMover.ctrl.target
        ∧ (playerMove glmQ exGridRing ⟨1, 0⟩ (1 / 5) exMover).ctrl.moving = false) :=
  ⟨(motion_lands_on_target glmQ exGridRing (1 / 5)).1 ⟨3, 3⟩ exMover rfl
      (by rw [exMover_length]; norm_num [GW_STEP_SPEED_ENEMY]),
    (motion_lands_on_target glmQ exGridRing (1 / 5)).2 ⟨1, 0⟩ exMover rfl
      (by rw [exMover_length]; norm_num [GW_STEP_SPEED_PLAYER])
      (by simp [preTurnFires, playerQueue, exMover])⟩

/-! ## Projectile update -/

theorem bulletUpdate_of_dead (g : GWGrid) (dt : ℚ) (b : GWBullet) (hb : b.alive = false) :
    bulletUpdate g dt b = b := by
  unfold bulletUpdate
  simp [hb]

theorem bulletUpdate_of_alive (g : GWGrid) (dt : ℚ) (b : GWBullet) (hb : b.alive = true) :
    (bulletSurvives g (bulletAdvanced dt b) = true → bulletUpdate g dt b = bulletAdvanced dt b)
      ∧ (bulletSurvives g (bulletAdvanced dt b) = false → (bulletUpdate g dt b).alive = false) := by
  have hadv : bulletAdvanced dt b =
      { pos := b.pos + (b.dir.smul GW_BULLET_SPEED).smul dt, dir := b.dir,
        life := b.life - dt, alive := true } := by
    unfold bulletAdvanced
    rw [hb]
    rfl
  rw [hadv]
  unfold bulletUpdate bulletSurvives tileOf
  simp only [hb, Bool.not_true, Bool.false_eq_true, if_false]
  by_cases hl : b.life - dt ≤ 0
  · have hl2 : ¬ 0 < b.life - dt := not_lt.mpr hl
    simp only [hl, hl2, if_true, decide_False, Bool.false_and, Bool.false_eq_true, false_implies,
      true_and, forall_const]
    split_ifs <;> rfl
  · have hl2 : 0 < b.life - dt := not_le.mp hl
    simp only [hl, hl2, if_false, decide_True, Bool.true_and]
    by_cases hin : ⌊(b.pos + (b.dir.smul GW_BULLET_SPEED).smul dt).x⌋ < 0
        ∨ ⌊(b.pos + (b.dir.smul GW_BULLET_SPEED).smul dt).x⌋ ≥ g.GW_GRID_W
        ∨ ⌊(b.pos + (b.dir.smul GW_BULLET_SPEED).smul dt).y⌋ < 0
        ∨ ⌊(b.pos + (b.dir.smul GW_BULLET_SPEED).smul dt).y⌋ ≥ g.GW_GRID_H
        ∨ gw_wallAt g ⌊(b.pos + (b.dir.smul GW_BULLET_SPEED).smul dt).x⌋
            ⌊(b.pos + (b.dir.smul GW_BULLET_SPEED).smul dt).y⌋ = true
    · rw [if_pos hin]
      constructor
      · intro h
        simp only [Bool.and_eq_true, decide_eq_true_eq, Bool.not_eq_true'] at h
        rcases hin with h1 | h1 | h1 | h1 | h1
        · omega
        · omega
        · omega
        · omega
        · rw [h.2] at h1
          exact absurd h1 (by simp)
      · intro _
        rfl
    · rw [if_neg hin]
      push_neg at hin
      constructor
      · intro _
        rfl
      · intro h
        exfalso
        have hw : gw_wallAt g ⌊(b.pos + (b.dir.smul GW_BULLET_SPEED).smul dt).x⌋
            ⌊(b.pos + (b.dir.smul GW_BULLET_SPEED).smul dt).y⌋ = false := by
          simpa using hin.2.2.2.2
        have hb4 : 0 ≤ ⌊(b.pos + (b.dir.smul GW_BULLET_SPEED).smul dt).x⌋
            ∧ ⌊(b.pos + (b.dir.smul GW_BULLET_SPEED).smul dt).x⌋ < g.GW_GRID_W
            ∧ 0 ≤ ⌊(b.pos + (b.dir.smul GW_BULLET_SPEED).smul dt).y⌋
            ∧ ⌊(b.pos + (b.dir.smul GW_BULLET_SPEED).smul dt).y⌋ < g.GW_GRID_H :=
          ⟨hin.1, hin.2.1, hin.2.2.1, hin.2.2.2.1⟩
        simp [hw, hb4] at h
theorem bulletsStep_eq (g : GWGrid) (dt : ℚ) (bs : List GWBullet) :
    bulletsStep g dt bs =
      (((bs.filter (fun b => b.alive)).map (bulletAdvanced dt)).filter (bulletSurvives g)) := by
  unfold bulletsStep
  induction bs with
  | nil => rfl
  | cons b bs ih =>
    rw [List.map_cons]
    cases hb : b.alive with
    | false =>
      rw [bulletUpdate_of_dead g dt b hb]
      simp only [List.filter_cons, hb, Bool.false_eq_true, if_false]
      exact ih
    | true =>
      have hcase := bulletUpdate_of_alive g dt b hb
      cases hsv : bulletSurvives g (bulletAdvanced dt b) with
      | true =>
        have hu := hcase.1 hsv
        have ha : (bulletAdvanced dt b).alive = true := hb
        simp only [List.filter_cons, hb, if_true, List.map_cons, hsv, hu, ha]
        rw [ih]
      | false =>
        have hu := hcase.2 hsv
        simp only [List.filter_cons, hb, if_true, List.map_cons, hsv, hu, Bool.false_eq_true,
          if_false]
        exact ih

/-- C9: the bullets update with its purge keeps exactly the projectiles that were alive,
each advanced by direction * 12 * dt with lifetime decreased by `dt`, whose new lifetime is
positive and whose new tile is inside the grid and not a wall, in their original order;
every projectile of the result is alive; and the list handed to the bullet-versus-ghost
pass of the same frame is this result, so the removed projectiles are gone before it. -/
theorem bulletsStep_spec (g : GWGrid) (dt : ℚ) (bs : List GWBullet) :
    bulletsStep g dt bs =
        (((bs.filter (fun b => b.alive)).map (bulletAdvanced dt)).filter (bulletSurvives g))
      ∧ (∀ b ∈ bulletsStep g dt bs, b.alive = true ∧ bulletSurvives g b = true)
      ∧ ∀ (glm : GLM) (k : GWInput) (s : GWState),
          ∃ (gs : List GWEntity) (bs0 : List GWBullet),
            (framePre glm k s).bullets =
                (bulletVsGhost glm gs (bulletsStep (framePre glm k s).grid k.dt bs0)).2
            ∧ (framePre glm k s).ghosts =
                (bulletVsGhost glm gs (bulletsStep (framePre glm k s).grid k.dt bs0)).1 := by
  refine ⟨bulletsStep_eq g dt bs, ?_, ?_⟩
  · intro b hb
    constructor
    · unfold bulletsStep at hb
      exact (List.mem_filter.mp hb).2
    · rw [bulletsStep_eq] at hb
      exact (List.mem_filter.mp hb).2
  · intro glm k s
    exact ⟨_, _, rfl, rfl⟩

/-! ## Bullet versus ghost -/

theorem hitScan_none_iff (glm : GLM) (gpos : Vec2) (bs : List GWBullet) :
    hitScan glm gpos bs = none ↔ ∀ x ∈ bs, ¬ inKillRange glm gpos x := by
  induction bs with
  | nil => simp [hitScan]
  | cons b bs ih =>
    unfold hitScan
    cases hb : b.alive with
    | false =>
      simp only [Bool.not_false, if_true, Option.map_eq_none', ih, List.mem_cons,
        forall_eq_or_imp]
      constructor
      · intro h
        exact ⟨fun hk => by rw [hk.1] at hb; exact absurd hb (by simp), h⟩
      · intro h
        exact h.2
    | true =>
      simp only [Bool.not_true, Bool.false_eq_true, if_false]
      by_cases hr : glm.length (b.pos - gpos) < 7 / 10
      · rw [if_pos hr]
        constructor
        · intro h
          exact absurd h (by simp)
        · intro h
          exact absurd ⟨hb, hr⟩ (h b (List.mem_cons_self b bs))
      · rw [if_neg hr]
        simp only [Option.map_eq_none', ih, List.mem_cons, forall_eq_or_imp]
        constructor
        · intro h
          exact ⟨fun hk => hr hk.2, h⟩
        · intro h
          exact h.2

theorem hitScan_some (glm : GLM) (gpos : Vec2) (bs : List GWBullet) :
    ∀ bs2 : List GWBullet, hitScan glm gpos bs = some bs2 →
      ∃ (l1 : List GWBullet) (b : GWBullet) (l2 : List GWBullet),
        bs = l1 ++ b :: l2 ∧ (∀ x ∈ l1, ¬ inKillRange glm gpos x) ∧ inKillRange glm gpos b
          ∧ bs2 = l1 ++ b.kill :: l2 := by
  induction bs with
  | nil =>
    intro bs2 h
    simp [hitScan] at h
  | cons b bs ih =>
    intro bs2 h
    unfold hitScan at h
    by_cases hk : inKillRange glm gpos b
    · have hb : b.alive = true := hk.1
      have hr : glm.length (b.pos - gpos) < 7 / 10 := hk.2
      simp only [hb, Bool.not_true, Bool.false_eq_true, if_false, hr, if_true,
        Option.some.injEq] at h
      exact ⟨[], b, bs, rfl, by simp, hk, h.symm⟩
    · have hrec : (hitScan glm gpos bs).map (fun bs3 => b :: bs3) = some bs2 := by
        cases hb : b.alive with
        | false => simpa [hb] using h
        | true =>
          have hr : ¬ glm.length (b.pos - gpos) < 7 / 10 := fun hr => hk ⟨hb, hr⟩
          simpa [hb, hr] using h
      obtain ⟨bs3, h3, hcons⟩ := Option.map_eq_some'.mp hrec
      obtain ⟨l1, b1, l2, hbs, hl1, hb1, hbs3⟩ := ih bs3 h3
      refine ⟨b :: l1, b1, l2, by rw [hbs]; rfl, ?_, hb1, ?_⟩
      · intro x hx
        rcases List.mem_cons.mp hx with rfl | hx
        · exact hk
        · exact hl1 x hx
      · rw [← hcons, hbs3]
        rfl

theorem hitScan_first (glm : GLM) (gpos : Vec2) (l1 : List GWBullet) (b : GWBullet)
    (l2 : List GWBullet) (hl1 : ∀ x ∈ l1, ¬ inKillRange glm gpos x)
    (hb : inKillRange glm gpos b) :
    hitScan glm gpos (l1 ++ b :: l2) = some (l1 ++ b.kill :: l2) := by
  induction l1 with
  | nil =>
    unfold hitScan
    simp only [List.nil_append, hb.1, Bool.not_true, Bool.false_eq_true, if_false, hb.2, if_true]
    rfl
  | cons a l1 ih =>
    have ha : ¬ inKillRange glm gpos a := hl1 a (List.mem_cons_self a l1)
    have hrest := ih (fun x hx => hl1 x (List.mem_cons_of_mem a hx))
    rw [List.cons_append]
    unfold hitScan
    cases hal : a.alive with
    | false => simp [hrest]
    | true =>
      have hr : ¬ glm.length (a.pos - gpos) < 7 / 10 := fun hr => ha ⟨hal, hr⟩
      simp [hr, hrest]

theorem bulletVsGhost_cons_hit (glm : GLM) (e : GWEntity) (es : List GWEntity)
    (bs bs2 : List GWBullet) (h : hitScan glm e.pos bs = some bs2) :
    bulletVsGhost glm (e :: es) bs = bulletVsGhost glm es bs2 := by
  rw [bulletVsGhost, h]

theorem bulletVsGhost_cons_miss (glm : GLM) (e : GWEntity) (es : List GWEntity)
    (bs : List GWBullet) (h : hitScan glm e.pos bs = none) :
    bulletVsGhost glm (e :: es) bs =
      (e :: (bulletVsGhost glm es bs).1, (bulletVsGhost glm es bs).2) := by
  rw [bulletVsGhost, h]

theorem aliveCount_kill (l1 l2 : List GWBullet) (b : GWBullet) (hb : b.alive = true) :
    ((l1 ++ b :: l2).filter (fun x => x.alive)).length =
      ((l1 ++ b.kill :: l2).filter (fun x => x.alive)).length + 1 := by
  have hk : b.kill.alive = false := rfl
  simp only [List.filter_append, List.filter_cons, hb, hk, if_true, Bool.false_eq_true, if_false,
    List.length_append, List.length_cons]
  omega

/-- Enemies removed by the pass and projectiles it newly marks dead are equally many; the
surviving enemies keep their order and the projectile list keeps its length. -/
theorem bulletVsGhost_counts (glm : GLM) (es : List GWEntity) :
    ∀ bs : List GWBullet,
      (bulletVsGhost glm es bs).1.Sublist es
        ∧ (bulletVsGhost glm es bs).2.length = bs.length
        ∧ (bulletVsGhost glm es bs).1.length + (bs.filter (fun x => x.alive)).length =
            es.length + ((bulletVsGhost glm es bs).2.filter (fun x => x.alive)).length := by
  induction es with
  | nil =>
    intro bs
    simp [bulletVsGhost]
  | cons e es ih =>
    intro bs
    cases h : hitScan glm e.pos bs with
    | none =>
      rw [bulletVsGhost_cons_miss glm e es bs h]
      obtain ⟨h1, h2, h3⟩ := ih bs
      refine ⟨h1.cons₂ e, h2, ?_⟩
      simp only [List.length_cons]
      omega
    | some bs2 =>
      rw [bulletVsGhost_cons_hit glm e es bs bs2 h]
      obtain ⟨l1, b, l2, hbs, _, hb, hbs2⟩ := hitScan_some glm e.pos bs bs2 h
      obtain ⟨h1, h2, h3⟩ := ih bs2
      refine ⟨h1.cons e, ?_, ?_⟩
      · rw [h2, hbs, hbs2]
        simp
      · have hc := aliveCount_kill l1 l2 b hb.1
        rw [← hbs, ← hbs2] at hc
        simp only [List.length_cons]
        omega

theorem bulletVsGhost_no_hits (glm : GLM) (es : List GWEntity) (bs : List GWBullet)
    (h : ∀ e ∈ es, ∀ x ∈ bs, ¬ inKillRange glm e.pos x) :
    bulletVsGhost glm es bs = (es, bs) := by
  induction es with
  | nil => rfl
  | cons e es ih =>
    have hmiss : hitScan glm e.pos bs = none :=
      (hitScan_none_iff glm e.pos bs).mpr (h e (List.mem_cons_self e es))
    rw [bulletVsGhost_cons_miss glm e es bs hmiss,
      ih (fun e2 he2 => h e2 (List.mem_cons_of_mem e he2))]

theorem bulletVsGhost_append_no_hits (glm : GLM) (es1 es2 : List GWEntity)
    (bs : List GWBullet) (h : ∀ e ∈ es1, ∀ x ∈ bs, ¬ inKillRange glm e.pos x) :
    bulletVsGhost glm (es1 ++ es2) bs =
      (es1 ++ (bulletVsGhost glm es2 bs).1, (bulletVsGhost glm es2 bs).2) := by
  induction es1 with
  | nil => rfl
  | cons e es1 ih =>
    have hmiss : hitScan glm e.pos bs = none :=
      (hitScan_none_iff glm e.pos bs).mpr (h e (List.mem_cons_self e es1))
    rw [List.cons_append, bulletVsGhost_cons_miss glm e (es1 ++ es2) bs hmiss,
      ih (fun e2 he2 => h e2 (List.mem_cons_of_mem e he2))]
    rfl

/-- C10: in the bullet-versus-ghost pass (a) an enemy examined while some alive projectile
is less than 0.7 from it is removed, the first such projectile in collection order is marked
dead and no other projectile changes for that enemy; (b) an enemy examined with no such
projectile stays and no projectile changes for it; (c) the surviving enemies keep their
order, and the number of enemies removed equals the number of projectiles newly marked
dead; (d) when one projectile is in range of one enemy and no other pair is in range, exactly
that enemy is removed and exactly that projectile is marked dead, everything else unchanged
and in order. -/
theorem bulletVsGhost_spec (glm : GLM) :
    (∀ (e : GWEntity) (es : List GWEntity) (bs : List GWBullet),
        (∃ x ∈ bs, inKillRange glm e.pos x) →
        ∃ (l1 : List GWBullet) (b : GWBullet) (l2 : List GWBullet),
          bs = l1 ++ b :: l2 ∧ (∀ x ∈ l1, ¬ inKillRange glm e.pos x) ∧ inKillRange glm e.pos b
            ∧ bulletVsGhost glm (e :: es) bs = bulletVsGhost glm es (l1 ++ b.kill :: l2))
      ∧ (∀ (e : GWEntity) (es : List GWEntity) (bs : List GWBullet),
          (∀ x ∈ bs, ¬ inKillRange glm e.pos x) →
          bulletVsGhost glm (e :: es) bs =
            (e :: (bulletVsGhost glm es bs).1, (bulletVsGhost glm es bs).2))
      ∧ (∀ (es : List GWEntity) (bs : List GWBullet),
          (bulletVsGhost glm es bs).1.Sublist es
            ∧ (bulletVsGhost glm es bs).2.length = bs.length
            ∧ (bulletVsGhost glm es bs).1.length + (bs.filter (fun x => x.alive)).length =
                es.length + ((bulletVsGhost glm es bs).2.filter (fun x => x.alive)).length)
      ∧ (∀ (gs1 : List GWEntity) (e : GWEntity) (gs2 : List GWEntity)
          (bs1 : List GWBullet) (b : GWBullet) (bs2 : List GWBullet),
          inKillRange glm e.pos b →
          (∀ x ∈ bs1 ++ bs2, ¬ inKillRange glm e.pos x) →
          (∀ e2 ∈ gs1 ++ gs2, ∀ x ∈ bs1 ++ b :: bs2, ¬ inKillRange glm e2.pos x) →
          bulletVsGhost glm (gs1 ++ e :: gs2) (bs1 ++ b :: bs2) =
            (gs1 ++ gs2, bs1 ++ b.kill :: bs2)) := by
  refine ⟨?_, ?_, fun es bs => bulletVsGhost_counts glm es bs, ?_⟩
  · intro e es bs hex
    cases h : hitScan glm e.pos bs with
    | none =>
      obtain ⟨x, hx, hk⟩ := hex
      exact absurd hk ((hitScan_none_iff glm e.pos bs).mp h x hx)
    | some bs2 =>
      obtain ⟨l1, b, l2, hbs, hl1, hb, hbs2⟩ := hitScan_some glm e.pos bs bs2 h
      refine ⟨l1, b, l2, hbs, hl1, hb, ?_⟩
      rw [bulletVsGhost_cons_hit glm e es bs bs2 h, hbs2]
  · intro e es bs hno
    exact bulletVsGhost_cons_miss glm e es bs ((hitScan_none_iff glm e.pos bs).mpr hno)
  · intro gs1 e gs2 bs1 b bs2 hb hothers hrest
    have h1 : ∀ e2 ∈ gs1, ∀ x ∈ bs1 ++ b :: bs2, ¬ inKillRange glm e2.pos x :=
      fun e2 he2 => hrest e2 (List.mem_append_left gs2 he2)
    have hfirst : hitScan glm e.pos (bs1 ++ b :: bs2) = some (bs1 ++ b.kill :: bs2) :=
      hitScan_first glm e.pos bs1 b bs2
        (fun x hx => hothers x (List.mem_append_left bs2 hx)) hb
    have h2 : ∀ e2 ∈ gs2, ∀ x ∈ bs1 ++ b.kill :: bs2, ¬ inKillRange glm e2.pos x := by
      intro e2 he2 x hx
      rcases List.mem_append.mp hx with hx | hx
      · exact hrest e2 (List.mem_append_right gs1 he2) x
          (List.mem_append_left _ hx)
      · rcases List.mem_cons.mp hx with rfl | hx
        · intro hk
          exact absurd hk.1 (by simp [GWBullet.kill])
        · exact hrest e2 (List.mem_append_right gs1 he2) x
            (List.mem_append_right _ (List.mem_cons_of_mem b hx))
    rw [bulletVsGhost_append_no_hits glm gs1 (e :: gs2) _ h1,
      bulletVsGhost_cons_hit glm e gs2 _ _ hfirst,
      bulletVsGhost_no_hits glm gs2 _ h2]

theorem exBulletNear_inRange : inKillRange glmQ exGhostA.pos exBulletNear := by
  refine ⟨rfl, ?_⟩
  have : exBulletNear.pos - exGhostA.pos = ⟨0, 1 / 2⟩ := by
    simp only [exBulletNear, exGhostA, vec2_sub_def]
    norm_num
  rw [this, glmQ_length_y, abs_of_pos (by norm_num : (0 : ℚ) < 1 / 2)]
  norm_num

theorem exBulletNear_outOfRange : ¬ inKillRange glmQ exGhostB.pos exBulletNear := by
  intro h
  have hv : exBulletNear.pos - exGhostB.pos = ⟨0, -(3 / 2)⟩ := by
    simp only [exBulletNear, exGhostB, vec2_sub_def]
    norm_num
  have h2 := h.2
  rw [hv, glmQ_length_y, abs_neg, abs_of_pos (by norm_num : (0 : ℚ) < 3 / 2)] at h2
  norm_num at h2

/-- Witness for C10: with the instance `glmQ`, of two enemies and one projectile only the
first enemy is in range; it is removed and the projectile marked dead. -/
theorem bulletVsGhost_spec_witness :
    inKillRange glmQ exGhostA.pos exBulletNear
      ∧ bulletVsGhost glmQ ([] ++ exGhostA :: [exGhostB]) ([] ++ exBulletNear :: []) =
          ([] ++ [exGhostB], [] ++ exBulletNear.kill :: []) :=
  ⟨exBulletNear_inRange,
    (bulletVsGhost_spec glmQ).2.2.2 [] exGhostA [exGhostB] [] exBulletNear []
      exBulletNear_inRange
      (by simp)
      (by
        intro e2 he2 x hx
        simp only [List.nil_append, List.mem_singleton] at he2 hx
        subst he2
        subst hx
        exact exBulletNear_outOfRange)⟩

/-! ## Cell writes and the gun pickup -/

theorem setCell_dims (g : GWGrid) (x y : Int) (c : Char) :
    (setCell g x y c).GW_GRID_W = g.GW_GRID_W ∧ (setCell g x y c).GW_GRID_H = g.GW_GRID_H := by
  unfold setCell
  cases g.GW_MAP[y.toNat]? <;> exact ⟨rfl, rfl⟩

theorem cellAt_setCell_same (g : GWGrid) (x y : Int) (c c0 : Char) (hx : 0 ≤ x) (hy : 0 ≤ y)
    (h0 : cellAt g x y = some c0) : cellAt (setCell g x y c) x y = some c := by
  have hneg : ¬ (x < 0 ∨ y < 0) := by omega
  unfold cellAt at h0 ⊢
  rw [if_neg hneg] at h0 ⊢
  unfold setCell
  cases hr : g.GW_MAP[y.toNat]? with
  | none =>
    rw [hr] at h0
    simp at h0
  | some r =>
    rw [hr] at h0
    simp only [Option.some_bind] at h0
    obtain ⟨hlen, _⟩ := List.getElem?_eq_some.mp h0
    obtain ⟨hylen, _⟩ := List.getElem?_eq_some.mp hr
    simp only [List.getElem?_set, if_true, hylen, Option.some_bind, hlen]

theorem cellAt_setCell_other (g : GWGrid) (x y x2 y2 : Int) (c : Char) (hx : 0 ≤ x)
    (hy : 0 ≤ y) (hne : x2 ≠ x ∨ y2 ≠ y) :
    cellAt (setCell g x y c) x2 y2 = cellAt g x2 y2 := by
  unfold cellAt
  by_cases hneg : x2 < 0 ∨ y2 < 0
  · rw [if_pos hneg, if_pos hneg]
  · rw [if_neg hneg, if_neg hneg]
    unfold setCell
    cases hr : g.GW_MAP[y.toNat]? with
    | none => rfl
    | some r =>
      simp only
      by_cases hyy : y.toNat = y2.toNat
      · have hy2 : y2 = y := by omega
        have hx2 : x.toNat ≠ x2.toNat := by
          rcases hne with h | h
          · omega
          · exact absurd hy2 h
        obtain ⟨hylen, _⟩ := List.getElem?_eq_some.mp hr
        rw [List.getElem?_set, if_pos hyy, if_pos hylen, ← hyy, hr]
        simp only [Option.some_bind]
        exact List.getElem?_set_ne hx2
      · rw [List.getElem?_set_ne hyy]

/-- C13: the gun pickup is idempotent: applied twice in a row it gives the same grid and
flag as applied once. When the player's tile is inside the grid and holds `'K'`, it sets
`hasGun` and turns exactly that cell into `'.'`, every other cell and the dimensions
unchanged; when the tile is out of bounds or does not hold `'K'`, grid and flag are
unchanged. -/
theorem gw_pickup_idempotent (g : GWGrid) (p : GWEntity) (hasGun : Bool) :
    gw_pickup (gw_pickup g p hasGun).1 p (gw_pickup g p hasGun).2 = gw_pickup g p hasGun
      ∧ (((tileOf p.pos).x ≥ 0 ∧ (tileOf p.pos).x < g.GW_GRID_W ∧ (tileOf p.pos).y ≥ 0
            ∧ (tileOf p.pos).y < g.GW_GRID_H
            ∧ cellAt g (tileOf p.pos).x (tileOf p.pos).y = some 'K') →
          (gw_pickup g p hasGun).2 = true
            ∧ cellAt (gw_pickup g p hasGun).1 (tileOf p.pos).x (tileOf p.pos).y = some '.'
            ∧ (∀ x y : Int, (x ≠ (tileOf p.pos).x ∨ y ≠ (tileOf p.pos).y) →
                cellAt (gw_pickup g p hasGun).1 x y = cellAt g x y)
            ∧ (gw_pickup g p hasGun).1.GW_GRID_W = g.GW_GRID_W
            ∧ (gw_pickup g p hasGun).1.GW_GRID_H = g.GW_GRID_H)
      ∧ (¬ ((tileOf p.pos).x ≥ 0 ∧ (tileOf p.pos).x < g.GW_GRID_W ∧ (tileOf p.pos).y ≥ 0
            ∧ (tileOf p.pos).y < g.GW_GRID_H
            ∧ cellAt g (tileOf p.pos).x (tileOf p.pos).y = some 'K') →
          gw_pickup g p hasGun = (g, hasGun)) := by
  by_cases hk : (tileOf p.pos).x ≥ 0 ∧ (tileOf p.pos).x < g.GW_GRID_W ∧ (tileOf p.pos).y ≥ 0
      ∧ (tileOf p.pos).y < g.GW_GRID_H
      ∧ cellAt g (tileOf p.pos).x (tileOf p.pos).y = some 'K'
  · have hval : gw_pickup g p hasGun
        = (setCell g (tileOf p.pos).x (tileOf p.pos).y '.', true) := by
      unfold gw_pickup
      simp only
      rw [if_pos hk]
    have hsame := cellAt_setCell_same g (tileOf p.pos).x (tileOf p.pos).y '.' 'K'
      hk.1 hk.2.2.1 hk.2.2.2.2
    have hnot : ¬ ((tileOf p.pos).x ≥ 0
        ∧ (tileOf p.pos).x < (setCell g (tileOf p.pos).x (tileOf p.pos).y '.').GW_GRID_W
        ∧ (tileOf p.pos).y ≥ 0
        ∧ (tileOf p.pos).y < (setCell g (tileOf p.pos).x (tileOf p.pos).y '.').GW_GRID_H
        ∧ cellAt (setCell g (tileOf p.pos).x (tileOf p.pos).y '.')
            (tileOf p.pos).x (tileOf p.pos).y = some 'K') := by
      intro h
      rw [hsame] at h
      exact absurd h.2.2.2.2 (by decide)
    refine ⟨?_, ?_, fun hn => absurd hk hn⟩
    · rw [hval]
      unfold gw_pickup
      simp only
      rw [if_neg hnot]
    · intro _
      rw [hval]
      refine ⟨rfl, hsame, ?_, (setCell_dims _ _ _ _).1, (setCell_dims _ _ _ _).2⟩
      intro x y hne
      exact cellAt_setCell_other g _ _ x y '.' hk.1 hk.2.2.1 hne
  · have hval : gw_pickup g p hasGun = (g, hasGun) := by
      unfold gw_pickup
      simp only
      rw [if_neg hk]
    refine ⟨?_, fun h => absurd h hk, fun _ => hval⟩
    rw [hval]
    exact hval

/-! ## The pre-turn block -/

theorem playerPreTurn_of_fires (glm : GLM) (g : GWGrid) (dt : ℚ) (p : GWEntity)
    (hf : preTurnFires glm g dt p = true) :
    playerPreTurn glm g dt p =
      { pos := gw_centerOf (tileOf p.pos), yaw := yawOf p.ctrl.queued p.yaw,
        ctrl := { moving := true, dir := p.ctrl.queued, queued := p.ctrl.queued,
                  target := gw_centerOf (tileOf p.pos + p.ctrl.queued) } } := by
  unfold preTurnFires at hf
  simp only [Bool.and_eq_true] at hf
  obtain ⟨⟨⟨⟨⟨h1, h2⟩, h3⟩, h4⟩, h5⟩, h6⟩ := hf
  unfold playerPreTurn
  simp only [h1, h2, h3, h4, h5, Bool.and_self, if_true]
  simp only [GW_STEP_SPEED_PLAYER] at h6 ⊢
  rw [if_pos h6]
  rfl

theorem scanRows_eq (w : Nat) (ys : List Nat) :
    ∀ st : ScanState,
      ys.foldl (fun acc y => (List.range w).foldl (fun acc2 x => scanCell y x acc2) acc) st =
        scanCells (ys.flatMap (fun y => (List.range w).map (fun x => (x, y)))) st := by
  induction ys with
  | nil =>
    intro st
    rfl
  | cons y ys ih =>
    intro st
    rw [List.foldl_cons, ih, List.flatMap_cons]
    unfold scanCells
    rw [List.foldl_append, List.foldl_map]

theorem scanGrid_eq (st : ScanState) : scanGrid st = scanCells (allCells st.grid) st := by
  unfold scanGrid allCells
  exact scanRows_eq _ _ st

theorem scanCells_append (l : List (Nat × Nat)) (t : Nat × Nat) (st : ScanState) :
    scanCells (l ++ [t]) st = scanCell t.2 t.1 (scanCells l st) := by
  unfold scanCells
  rw [List.foldl_append]
  rfl

theorem scanCell_cases (y x : Nat) (st : ScanState) :
    (cellAt st.grid x y = some 'P'
        ∧ scanCell y x st =
          { st with player := { st.player with pos := tileCentre (x, y) },
                    playerSpawn := tileCentre (x, y),
                    grid := setCell st.grid x y '.' })
      ∨ (cellAt st.grid x y = some 'G'
        ∧ scanCell y x st =
          { st with ghosts := st.ghosts ++ [{ pos := tileCentre (x, y) }],
                    grid := setCell st.grid x y '.' })
      ∨ (cellAt st.grid x y ≠ some 'P' ∧ cellAt st.grid x y ≠ some 'G'
        ∧ scanCell y x st = st) := by
  have hx : (0 : Int) ≤ (x : Int) := Int.natCast_nonneg x
  have hy : (0 : Int) ≤ (y : Int) := Int.natCast_nonneg y
  by_cases hP : cellAt st.grid x y = some 'P'
  · left
    refine ⟨hP, ?_⟩
    have hdot := cellAt_setCell_same st.grid x y '.' 'P' hx hy hP
    have hnG : ¬ cellAt (setCell st.grid x y '.') x y = some 'G' := by
      rw [hdot]
      decide
    unfold scanCell
    simp only [hP, if_true, hnG, if_false]
    rfl
  · by_cases hG : cellAt st.grid x y = some 'G'
    · right
      left
      refine ⟨hG, ?_⟩
      unfold scanCell
      simp only
      rw [if_neg hP, if_pos hG]
      rfl
    · right
      right
      refine ⟨hP, hG, ?_⟩
      unfold scanCell
      simp only
      rw [if_neg hP, if_neg hG]

theorem setCell_length (g : GWGrid) (x y : Int) (c : Char) :
    (setCell g x y c).GW_MAP.length = g.GW_MAP.length := by
  unfold setCell
  cases g.GW_MAP[y.toNat]? with
  | none => rfl
  | some r => simp

theorem cell_step_set (g0 g : GWGrid) (l : List (Nat × Nat)) (t : Nat × Nat) (htl : t ∉ l)
    (c0 : Char) (hc0 : clearCh c0 = '.')
    (hcell : ∀ x y : Nat, cellAt g x y =
      if (x, y) ∈ l then (cellAt g0 x y).map clearCh else cellAt g0 x y)
    (hc : cellAt g t.1 t.2 = some c0) :
    ∀ x y : Nat, cellAt (setCell g t.1 t.2 '.') x y =
      if (x, y) ∈ l ++ [t] then (cellAt g0 x y).map clearCh else cellAt g0 x y := by
  intro x y
  have hx : (0 : Int) ≤ (t.1 : Int) := Int.natCast_nonneg _
  have hy : (0 : Int) ≤ (t.2 : Int) := Int.natCast_nonneg _
  by_cases h : (x, y) = t
  · subst h
    have hmem : (x, y) ∈ l ++ [(x, y)] := by simp
    rw [if_pos hmem, cellAt_setCell_same g _ _ '.' c0 hx hy hc]
    have h0 : cellAt g0 x y = some c0 := by
      have := hcell x y
      rw [if_neg htl] at this
      rw [← this]
      exact hc
    rw [h0]
    simp [hc0]
  · have hne : (x : Int) ≠ (t.1 : Int) ∨ (y : Int) ≠ (t.2 : Int) := by
      by_contra hcon
      push_neg at hcon
      apply h
      have h1 : x = t.1 := by exact_mod_cast hcon.1
      have h2 : y = t.2 := by exact_mod_cast hcon.2
      rw [h1, h2]
    rw [cellAt_setCell_other g _ _ _ _ '.' hx hy hne, hcell x y]
    have hiff : (x, y) ∈ l ++ [t] ↔ (x, y) ∈ l := by
      simp [h]
    by_cases hm : (x, y) ∈ l
    · rw [if_pos hm, if_pos (hiff.mpr hm)]
    · rw [if_neg hm, if_neg (fun h2 => hm (hiff.mp h2))]

theorem cell_step_keep (g0 g : GWGrid) (l : List (Nat × Nat)) (t : Nat × Nat) (htl : t ∉ l)
    (hcell : ∀ x y : Nat, cellAt g x y =
      if (x, y) ∈ l then (cellAt g0 x y).map clearCh else cellAt g0 x y)
    (hnP : cellAt g t.1 t.2 ≠ some 'P') (hnG : cellAt g t.1 t.2 ≠ some 'G') :
    ∀ x y : Nat, cellAt g x y =
      if (x, y) ∈ l ++ [t] then (cellAt g0 x y).map clearCh else cellAt g0 x y := by
  intro x y
  by_cases h : (x, y) = t
  · subst h
    have hmem : (x, y) ∈ l ++ [(x, y)] := by simp
    have h0 : cellAt g x y = cellAt g0 x y := by
      rw [hcell x y, if_neg htl]
    rw [if_pos hmem, h0]
    rw [h0] at hnP hnG
    cases hv : cellAt g0 x y with
    | none => rfl
    | some c =>
      rw [hv] at hnP hnG
      have h1 : c ≠ 'P' := fun hh => hnP (by rw [hh])
      have h2 : c ≠ 'G' := fun hh => hnG (by rw [hh])
      simp [clearCh, h1, h2]
  · rw [hcell x y]
    have hiff : (x, y) ∈ l ++ [t] ↔ (x, y) ∈ l := by
      simp [h]
    by_cases hm : (x, y) ∈ l
    · rw [if_pos hm, if_pos (hiff.mpr hm)]
    · rw [if_neg hm, if_neg (fun h2 => hm (hiff.mp h2))]

/-- Result of the spawn scan over a duplicate-free list of cells, in terms of the grid it
started from. -/
theorem scanCells_spec (st : ScanState) (cs : List (Nat × Nat)) (hnd : cs.Nodup) :
    (scanCells cs st).grid.GW_GRID_W = st.grid.GW_GRID_W
      ∧ (scanCells cs st).grid.GW_GRID_H = st.grid.GW_GRID_H
      ∧ (scanCells cs st).grid.GW_MAP.length = st.grid.GW_MAP.length
      ∧ (∀ x y : Nat, cellAt (scanCells cs st).grid x y =
            if (x, y) ∈ cs then (cellAt st.grid x y).map clearCh else cellAt st.grid x y)
      ∧ (scanCells cs st).ghosts = st.ghosts ++
            (cs.filter (fun t => decide (cellAt st.grid t.1 t.2 = some 'G'))).map
              (fun t => ({ pos := tileCentre t } : GWEntity))
      ∧ (scanCells cs st).player.pos =
            (match (cs.filter (fun t => decide (cellAt st.grid t.1 t.2 = some 'P'))).getLast? with
             | some t => tileCentre t
             | none => st.player.pos)
      ∧ (scanCells cs st).player.yaw = st.player.yaw
      ∧ (scanCells cs st).player.ctrl = st.player.ctrl := by
  induction cs using List.reverseRecOn with
  | nil =>
    simp [scanCells]
  | append_singleton l t ih =>
    have hl : l.Nodup := List.Nodup.of_append_left hnd
    have htl : t ∉ l := by
      intro hmem
      have hdis := (List.nodup_append.mp hnd).2.2
      exact hdis hmem (List.mem_singleton_self t)
    obtain ⟨hW, hH, hL, hcell, hgh, hpos, hyaw, hctrl⟩ := ih hl
    have ht : cellAt (scanCells l st).grid t.1 t.2 = cellAt st.grid t.1 t.2 := by
      rw [hcell t.1 t.2, if_neg htl]
    rw [scanCells_append]
    rcases scanCell_cases t.2 t.1 (scanCells l st) with ⟨hc, hv⟩ | ⟨hc, hv⟩ | ⟨hnP, hnG, hv⟩
    · have hP : cellAt st.grid t.1 t.2 = some 'P' := by rw [← ht]; exact hc
      have hnG : ¬ cellAt st.grid t.1 t.2 = some 'G' := by rw [hP]; decide
      rw [hv]
      refine ⟨?_, ?_, ?_, ?_, ?_, ?_, hyaw, hctrl⟩
      · exact (setCell_dims _ _ _ _).1.trans hW
      · exact (setCell_dims _ _ _ _).2.trans hH
      · exact (setCell_length _ _ _ _).trans hL
      · exact cell_step_set st.grid _ l t htl 'P' (by decide) hcell hc
      · simp only [List.filter_append, List.filter_cons, List.filter_nil, hnG, decide_False,
          Bool.false_eq_true, if_false, List.append_nil]
        exact hgh
      · simp only [List.filter_append, List.filter_cons, List.filter_nil, hP, decide_True,
          if_true, List.getLast?_append, List.getLast?_singleton]
        rfl
    · have hG : cellAt st.grid t.1 t.2 = some 'G' := by rw [← ht]; exact hc
      have hnP : ¬ cellAt st.grid t.1 t.2 = some 'P' := by rw [hG]; decide
      rw [hv]
      refine ⟨?_, ?_, ?_, ?_, ?_, ?_, hyaw, hctrl⟩
      · exact (setCell_dims _ _ _ _).1.trans hW
      · exact (setCell_dims _ _ _ _).2.trans hH
      · exact (setCell_length _ _ _ _).trans hL
      · exact cell_step_set st.grid _ l t htl 'G' (by decide) hcell hc
      · simp only [List.filter_append, List.filter_cons, List.filter_nil, hG, decide_True,
          if_true, List.map_append, List.map_cons, List.map_nil, hgh, List.append_assoc]
      · simp only [List.filter_append, List.filter_cons, List.filter_nil, hnP, decide_False,
          Bool.false_eq_true, if_false, List.append_nil]
        exact hpos
    · have hnP2 : ¬ cellAt st.grid t.1 t.2 = some 'P' := by rw [← ht]; exact hnP
      have hnG2 : ¬ cellAt st.grid t.1 t.2 = some 'G' := by rw [← ht]; exact hnG
      rw [hv]
      refine ⟨hW, hH, hL, ?_, ?_, ?_, hyaw, hctrl⟩
      · exact cell_step_keep st.grid _ l t htl hcell hnP hnG
      · simp only [List.filter_append, List.filter_cons, List.filter_nil, hnG2, decide_False,
          Bool.false_eq_true, if_false, List.append_nil]
        exact hgh
      · simp only [List.filter_append, List.filter_cons, List.filter_nil, hnP2, decide_False,
          Bool.false_eq_true, if_false, List.append_nil]
        exact hpos

theorem mem_allCells (g : GWGrid) (x y : Nat) :
    (x, y) ∈ allCells g ↔ x < g.GW_GRID_W.toNat ∧ y < g.GW_GRID_H.toNat := by
  unfold allCells
  simp only [List.mem_flatMap, List.mem_range, List.mem_map, Prod.mk.injEq]
  constructor
  · rintro ⟨y2, hy2, x2, hx2, rfl, rfl⟩
    exact ⟨hx2, hy2⟩
  · rintro ⟨hx, hy⟩
    exact ⟨y, hy, x, hx, rfl, rfl⟩

theorem allCells_nodup (g : GWGrid) : (allCells g).Nodup := by
  unfold allCells
  rw [List.nodup_flatMap]
  constructor
  · intro y _
    apply List.Nodup.map _ (List.nodup_range _)
    intro a b hab
    simp only [Prod.mk.injEq, and_true] at hab
    exact hab
  · apply List.Pairwise.imp _ (List.nodup_range g.GW_GRID_H.toNat)
    intro a b hab
    simp only [Function.onFun]
    intro t hta htb
    simp only [List.mem_map] at hta htb
    obtain ⟨_, _, rfl⟩ := hta
    obtain ⟨_, _, h2⟩ := htb
    simp only [Prod.mk.injEq] at h2
    exact hab h2.2.symm

theorem cellAt_clearMarkers (g : GWGrid) (x y : Int) :
    cellAt (clearMarkers g) x y = (cellAt g x y).map clearCh := by
  unfold cellAt clearMarkers
  by_cases hneg : x < 0 ∨ y < 0
  · rw [if_pos hneg, if_pos hneg]
    rfl
  · rw [if_neg hneg, if_neg hneg]
    simp only [List.getElem?_map]
    cases g.GW_MAP[y.toNat]? with
    | none => rfl
    | some r => simp [List.getElem?_map]

/-- Two grids of the same dimensions and number of rows with the same cells are equal. -/
theorem grid_ext (g1 g2 : GWGrid) (hW : g1.GW_GRID_W = g2.GW_GRID_W)
    (hH : g1.GW_GRID_H = g2.GW_GRID_H) (hL : g1.GW_MAP.length = g2.GW_MAP.length)
    (hcell : ∀ x y : Nat, cellAt g1 x y = cellAt g2 x y) : g1 = g2 := by
  cases g1 with
  | mk m1 w1 h1 =>
    cases g2 with
    | mk m2 w2 h2 =>
      simp only at hW hH hL
      subst hW
      subst hH
      have hm : m1 = m2 := by
        apply List.ext_getElem?
        intro n
        by_cases hn : n < m1.length
        · have hn2 : n < m2.length := by omega
          rw [List.getElem?_eq_getElem hn, List.getElem?_eq_getElem hn2]
          congr 1
          apply List.ext_getElem?
          intro i
          have := hcell i n
          unfold cellAt at this
          have hneg : ¬ ((i : Int) < 0 ∨ (n : Int) < 0) := by omega
          rw [if_neg hneg, if_neg hneg] at this
          simp only [Int.toNat_ofNat, List.getElem?_eq_getElem hn,
            List.getElem?_eq_getElem hn2, Option.some_bind] at this
          exact this
        · rw [List.getElem?_eq_none (by omega), List.getElem?_eq_none (by omega)]
      rw [hm]

theorem cellAt_outside (tmpl : List Row) (g : GWGrid) (h : gw_fixMapWidth tmpl = some g)
    (x y : Nat) (hout : ¬ (x < g.GW_GRID_W.toNat ∧ y < g.GW_GRID_H.toNat)) :
    cellAt g x y = none := by
  cases tmpl with
  | nil => simp [gw_fixMapWidth] at h
  | cons r0 rest =>
    rw [gw_fixMapWidth_cons] at h
    injection h with h
    subst h
    simp only [Int.toNat_ofNat] at hout
    unfold cellAt
    have hneg : ¬ ((x : Int) < 0 ∨ (y : Int) < 0) := by omega
    rw [if_neg hneg]
    simp only [Int.toNat_ofNat]
    by_cases hy : y < (r0 :: rest).length
    · have hx : r0.length ≤ x := by
        by_contra hcon
        exact hout ⟨by omega, hy⟩
      rw [List.getElem?_map, List.getElem?_eq_getElem hy]
      simp only [Option.map_some', Option.some_bind]
      apply List.getElem?_eq_none
      rw [fixRow_length]
      exact hx
    · have hy2 : (r0 :: rest).length ≤ y := Nat.le_of_not_lt hy
      rw [List.getElem?_eq_none (by rw [List.length_map]; exact hy2)]
      rfl

/-- What `gw_resetGame` returns, in terms of the width-normalised template. -/
theorem gw_resetGame_spec (s : GWState) (g0 : GWGrid)
    (h : gw_fixMapWidth s.GW_MAP_ORIG = some g0) :
    ∃ s2 : GWState, gw_resetGame s = some s2
      ∧ s2.grid = clearMarkers g0
      ∧ s2.GW_MAP_ORIG = s.GW_MAP_ORIG
      ∧ s2.player = { pos := spawnOfPlayer g0 }
      ∧ s2.ghosts = spawnOfGhosts g0
      ∧ s2.hasGun = false ∧ s2.fireCooldown = 0 ∧ s2.bullets = []
      ∧ s2.prevSpace = s.prevSpace := by
  obtain ⟨hW, hH, hL, hcell, hgh, hpos, hyaw, hctrl⟩ :=
    scanCells_spec { grid := g0, player := {}, playerSpawn := s.playerSpawn, ghosts := [] }
      (allCells g0) (allCells_nodup g0)
  simp only at hW hH hL hcell hgh hpos hyaw hctrl
  have hgrid : (scanCells (allCells g0)
      { grid := g0, player := {}, playerSpawn := s.playerSpawn, ghosts := [] }).grid
      = clearMarkers g0 := by
    refine grid_ext _ (clearMarkers g0) (hW.trans rfl) (hH.trans rfl) ?_ ?_
    · rw [hL]
      simp [clearMarkers]
    · intro x y
      rw [hcell x y, cellAt_clearMarkers]
      by_cases hm : (x, y) ∈ allCells g0
      · rw [if_pos hm]
      · rw [if_neg hm]
        have hout : ¬ (x < g0.GW_GRID_W.toNat ∧ y < g0.GW_GRID_H.toNat) :=
          fun hh => hm ((mem_allCells g0 x y).mpr hh)
        rw [cellAt_outside _ g0 h x y hout]
        rfl
  have hplayer : (scanCells (allCells g0)
      { grid := g0, player := {}, playerSpawn := s.playerSpawn, ghosts := [] }).player
      = { pos := spawnOfPlayer g0 } := by
    have hp : (scanCells (allCells g0)
        { grid := g0, player := {}, playerSpawn := s.playerSpawn, ghosts := [] }).player.pos
        = spawnOfPlayer g0 := by
      rw [hpos]
      rfl
    cases hpl : (scanCells (allCells g0)
        { grid := g0, player := {}, playerSpawn := s.playerSpawn, ghosts := [] }).player with
    | mk pos yaw ctrl =>
      rw [hpl] at hp hyaw hctrl
      simp only at hp hyaw hctrl
      rw [hp, hyaw, hctrl]
  have hghosts : (scanCells (allCells g0)
      { grid := g0, player := {}, playerSpawn := s.playerSpawn, ghosts := [] }).ghosts
      = (markerTiles g0 'G').map (fun t => ({ pos := tileCentre t } : GWEntity)) := by
    rw [hgh]
    rfl
  unfold gw_resetGame
  rw [h]
  simp only
  rw [scanGrid_eq]
  simp only
  refine ⟨_, rfl, hgrid, rfl, hplayer, ?_, rfl, rfl, rfl, rfl⟩
  simp only
  rw [hghosts, hgrid]
  unfold spawnOfGhosts
  cases hmt : markerTiles g0 'G' with
  | nil => rfl
  | cons a l => rfl

/-! ## Frames of entities at rest -/

theorem playerMove_idle (glm : GLM) (g : GWGrid) (dt : ℚ) (p : GWEntity)
    (hm : p.ctrl.moving = false) (hq : p.ctrl.queued = ⟨0, 0⟩) :
    playerMove glm g ⟨0, 0⟩ dt p = p := by
  have h1 : playerQueue ⟨0, 0⟩ p = p := by
    unfold playerQueue
    simp
  have h2 : playerStart g p = p := by
    unfold playerStart
    simp [hm, hq]
  have h3 : playerPreTurn glm g dt p = p := by
    unfold playerPreTurn
    simp [hm]
  have h4 : playerInterp glm dt p = p := by
    unfold playerInterp
    simp [hm]
  unfold playerMove
  rw [h1, h2, h3, h4]

theorem ghostStep_stuck (glm : GLM) (g : GWGrid) (dt : ℚ) (playerTile : IVec2) (e : GWEntity)
    (hm : e.ctrl.moving = false)
    (hc : gw_chooseDirChase g (tileOf e.pos) e.ctrl.dir playerTile = ⟨0, 0⟩) :
    ghostStep glm g dt playerTile e = e := by
  have h1 : ghostSteer g playerTile e = e := by
    unfold ghostSteer
    simp [hm, hc]
  have h2 : ghostInterp glm dt e = e := by
    unfold ghostInterp
    simp [hm]
  unfold ghostStep
  rw [h1, h2]

theorem tileOf_three_halves : tileOf ⟨3 / 2, 3 / 2⟩ = ⟨1, 1⟩ := by
  have h : ⌊(3 / 2 : ℚ)⌋ = 1 := by
    rw [Int.floor_eq_iff]
    norm_num
  show (⟨⌊(3 / 2 : ℚ)⌋, ⌊(3 / 2 : ℚ)⌋⟩ : IVec2) = ⟨1, 1⟩
  rw [h]

theorem tileOf_zero : tileOf ⟨0, 0⟩ = ⟨0, 0⟩ := by
  show (⟨⌊(0 : ℚ)⌋, ⌊(0 : ℚ)⌋⟩ : IVec2) = ⟨0, 0⟩
  rw [Int.floor_zero]

/-- The frame of `exStateCaught` with no key pressed leaves player and enemy where they
are. -/
theorem framePre_exStateCaught :
    (framePre glmQ exIdle exStateCaught).player = exStateCaught.player
      ∧ (framePre glmQ exIdle exStateCaught).ghosts = exStateCaught.ghosts
      ∧ (framePre glmQ exIdle exStateCaught).GW_MAP_ORIG = exTemplateRagged := by
  have hin : gw_readInput exIdle = ⟨0, 0⟩ := by decide
  have hp : playerMove glmQ exStateCaught.grid (gw_readInput exIdle) exIdle.dt
      exStateCaught.player = exStateCaught.player := by
    rw [hin]
    exact playerMove_idle glmQ _ _ _ rfl rfl
  have hpk : gw_pickup exStateCaught.grid exStateCaught.player exStateCaught.hasGun
      = (exStateCaught.grid, exStateCaught.hasGun) := by
    unfold gw_pickup
    have ht : tileOf exStateCaught.player.pos = ⟨1, 1⟩ := tileOf_three_halves
    simp only [ht]
    rw [if_neg (by decide)]
  have hg : ghostStep glmQ exStateCaught.grid exIdle.dt (tileOf exStateCaught.player.pos)
      ({ pos := ⟨3 / 2, 3 / 2⟩ } : GWEntity) = { pos := ⟨3 / 2, 3 / 2⟩ } := by
    apply ghostStep_stuck _ _ _ _ _ rfl
    have ht : tileOf exStateCaught.player.pos = ⟨1, 1⟩ := tileOf_three_halves
    rw [ht]
    simp only
    rw [tileOf_three_halves]
    decide
  unfold framePre
  simp only [hp, hpk]
  have hsh : (gw_shoot glmQ exIdle.space exStateCaught.prevSpace exStateCaught.hasGun
      exStateCaught.fireCooldown exStateCaught.player exStateCaught.bullets).1 = [] := by
    unfold gw_shoot
    simp [exIdle, exStateCaught]
  rw [hsh]
  have hbs : bulletsStep exStateCaught.grid exIdle.dt [] = [] := rfl
  rw [hbs]
  have hgs : exStateCaught.ghosts.map
      (ghostStep glmQ exStateCaught.grid exIdle.dt (tileOf exStateCaught.player.pos))
      = [{ pos := ⟨3 / 2, 3 / 2⟩ }] := by
    show [ghostStep glmQ exStateCaught.grid exIdle.dt (tileOf exStateCaught.player.pos)
      ({ pos := ⟨3 / 2, 3 / 2⟩ } : GWEntity)] = _
    rw [hg]
  rw [hgs]
  exact ⟨trivial, rfl, rfl⟩

theorem frameResets_exStateCaught : frameResets glmQ exIdle exStateCaught = true := by
  unfold frameResets
  rw [framePre_exStateCaught.1, framePre_exStateCaught.2.1]
  have hlen : glmQ.length ((⟨3 / 2, 3 / 2⟩ : Vec2) - ⟨3 / 2, 3 / 2⟩) = 0 := by
    have : ((⟨3 / 2, 3 / 2⟩ : Vec2) - ⟨3 / 2, 3 / 2⟩) = ⟨0, 0⟩ := by
      simp only [vec2_sub_def]
      norm_num
    rw [this, glmQ_length_x]
    norm_num
  show ([({ pos := ⟨3 / 2, 3 / 2⟩ } : GWEntity)].any
    (fun e => decide (glmQ.length (e.pos - (⟨3 / 2, 3 / 2⟩ : Vec2)) < 11 / 20))) = true
  simp only [List.any_cons, List.any_nil, Bool.or_false, hlen]
  norm_num

/-! ## The reset on a catch -/

/-- A frame that ends in a reset returns the state `gw_resetGame` builds. -/
theorem gw_frame_of_reset (glm : GLM) (k : GWInput) (s : GWState) (g0 : GWGrid)
    (hres : frameResets glm k s = true) (h : gw_fixMapWidth s.GW_MAP_ORIG = some g0) :
    ∃ s2 : GWState, gw_frame glm k s = some s2
      ∧ gw_resetGame (framePre glm k s) = some s2
      ∧ s2.grid = clearMarkers g0
      ∧ s2.GW_MAP_ORIG = s.GW_MAP_ORIG
      ∧ s2.player = { pos := spawnOfPlayer g0 }
      ∧ s2.ghosts = spawnOfGhosts g0
      ∧ s2.hasGun = false ∧ s2.fireCooldown = 0 ∧ s2.bullets = [] := by
  have h2 : gw_fixMapWidth (framePre glm k s).GW_MAP_ORIG = some g0 := h
  obtain ⟨sr, hr, hgrid, horig, hpl, hgh, hgun, hcd, hbs, _⟩ :=
    gw_resetGame_spec (framePre glm k s) g0 h2
  refine ⟨sr, ?_, hr, hgrid, horig, hpl, hgh, hgun, hcd, hbs⟩
  unfold frameResets at hres
  unfold gw_frame
  simp only [hres, if_true, hr, Option.map_some', Option.some.injEq]
  have hct : coolTick k.dt sr.fireCooldown = sr.fireCooldown := by
    rw [hcd]
    unfold coolTick
    simp
  rw [hct]

theorem spawnOfGhosts_ne_nil (g : GWGrid) : spawnOfGhosts g ≠ [] := by
  unfold spawnOfGhosts
  cases h : markerTiles g 'G' with
  | nil => simp
  | cons a l => simp

theorem spawnOfGhosts_idle (g : GWGrid) :
    ∀ e ∈ spawnOfGhosts g, e.ctrl.moving = false ∧ e.ctrl.dir = ⟨0, 0⟩ := by
  intro e he
  unfold spawnOfGhosts at he
  cases h : markerTiles g 'G' with
  | nil =>
    rw [h] at he
    simp only [List.isEmpty_nil, if_true, List.mem_singleton] at he
    rw [he]
    exact ⟨rfl, rfl⟩
  | cons a l =>
    rw [h] at he
    simp only [List.isEmpty_cons, Bool.false_eq_true, if_false, List.mem_map] at he
    obtain ⟨t, _, rfl⟩ := he
    exact ⟨rfl, rfl⟩

theorem gw_fixMapWidth_shipped : gw_fixMapWidth GW_MAP_SHIPPED = some exGridShipped := by
  decide

set_option maxRecDepth 100000 in
theorem markerTiles_shipped :
    markerTiles exGridShipped 'P' = [(1, 9)] ∧ markerTiles exGridShipped 'G' = [(11, 13)] := by
  constructor <;> decide

theorem gw_fixMapWidth_ragged : gw_fixMapWidth exTemplateRagged = some exGridRagged := by
  decide

theorem spawnOfPlayer_ragged : spawnOfPlayer exGridRagged = ⟨0, 0⟩ := by
  have h : markerTiles exGridRagged 'P' = [] := by decide
  unfold spawnOfPlayer
  rw [h]
  rfl

/-- C11 fails as stated: the only `'P'` of the template `exTemplateRagged` is at row 1,
column 2, beyond the width taken from the first row; when the enemy on the player triggers
the reset, the player is put at `(0, 0)`, not at the centre `(2.5, 1.5)` of that tile. -/
theorem reset_misses_truncated_spawn :
    (exTemplateRagged[1]?).bind (fun r => r[2]?) = some 'P'
      ∧ frameResets glmQ exIdle exStateCaught = true
      ∧ ∃ s2 : GWState, gw_frame glmQ exIdle exStateCaught = some s2
          ∧ s2.player.pos = ⟨0, 0⟩ ∧ s2.player.pos ≠ tileCentre (2, 1) := by
  refine ⟨by decide, frameResets_exStateCaught, ?_⟩
  obtain ⟨s2, hf, _, _, _, hpl, _⟩ :=
    gw_frame_of_reset glmQ exIdle exStateCaught exGridRagged frameResets_exStateCaught
      gw_fixMapWidth_ragged
  refine ⟨s2, hf, ?_, ?_⟩
  · rw [hpl]
    exact spawnOfPlayer_ragged
  · rw [hpl]
    show spawnOfPlayer exGridRagged ≠ tileCentre (2, 1)
    rw [spawnOfPlayer_ragged]
    intro hh
    unfold tileCentre at hh
    injection hh with hx _
    norm_num at hx

theorem gw_fixMapWidth_of_ne_nil (tmpl : List Row) (hne : tmpl ≠ []) :
    ∃ g : GWGrid, gw_fixMapWidth tmpl = some g := by
  cases tmpl with
  | nil => exact absurd rfl hne
  | cons r0 rest => exact ⟨_, gw_fixMapWidth_cons r0 rest⟩

/-- C11 amended: for every prior game state with a non-empty template, if the frame finds an
enemy within 0.55 of the player, the state after the player-versus-ghost block (and after
the frame) is the one `gw_resetGame` returns: the grid is the width-normalised template with
every `'P'` and `'G'` replaced by `'.'`; no projectiles, no gun, cooldown 0; the player is
not moving, with zero direction, zero queued direction and yaw 0, at the centre of the last
`'P'` tile in scan order of the width-normalised template (its `'P'` tile when it has
exactly one); the enemies are non-empty and idle, one at the centre of each `'G'` tile of
the width-normalised template in row-major order, or a single one at `(W - 2.5, H - 2.5)`
when it has none. On the shipped map the player is at `(1.5, 9.5)` and the only enemy at
`(11.5, 13.5)`. -/
theorem reset_on_catch (glm : GLM) (k : GWInput) (s : GWState) (hne : s.GW_MAP_ORIG ≠ [])
    (hcatch : frameResets glm k s = true) :
    ∃ (g0 : GWGrid) (s2 : GWState), gw_fixMapWidth s.GW_MAP_ORIG = some g0
      ∧ gw_frame glm k s = some s2
      ∧ gw_resetGame (framePre glm k s) = some s2
      ∧ s2.grid = clearMarkers g0
      ∧ s2.bullets = [] ∧ s2.hasGun = false ∧ s2.fireCooldown = 0
      ∧ s2.player.ctrl.moving = false ∧ s2.player.ctrl.dir = ⟨0, 0⟩
      ∧ s2.player.ctrl.queued = ⟨0, 0⟩ ∧ s2.player.yaw = 0
      ∧ s2.player.pos = spawnOfPlayer g0
      ∧ (∀ t : Nat × Nat, markerTiles g0 'P' = [t] → s2.player.pos = tileCentre t)
      ∧ s2.ghosts ≠ [] ∧ s2.ghosts = spawnOfGhosts g0
      ∧ (∀ e ∈ s2.ghosts, e.ctrl.moving = false)
      ∧ (s.GW_MAP_ORIG = GW_MAP_SHIPPED →
          s2.player.pos = ⟨3 / 2, 19 / 2⟩
            ∧ s2.ghosts = [{ pos := ⟨23 / 2, 27 / 2⟩ }]) := by
  obtain ⟨g0, hg0⟩ := gw_fixMapWidth_of_ne_nil s.GW_MAP_ORIG hne
  obtain ⟨s2, hf, hr, hgrid, _, hpl, hgh, hgun, hcd, hbs⟩ :=
    gw_frame_of_reset glm k s g0 hcatch hg0
  refine ⟨g0, s2, hg0, hf, hr, hgrid, hbs, hgun, hcd, ?_, ?_, ?_, ?_, ?_, ?_, ?_, hgh, ?_, ?_⟩
  · rw [hpl]
  · rw [hpl]
  · rw [hpl]
  · rw [hpl]
  · rw [hpl]
  · intro t ht
    rw [hpl]
    show spawnOfPlayer g0 = tileCentre t
    unfold spawnOfPlayer
    rw [ht]
    rfl
  · rw [hgh]
    exact spawnOfGhosts_ne_nil g0
  · intro e he
    rw [hgh] at he
    exact (spawnOfGhosts_idle g0 e he).1
  · intro hship
    rw [hship, gw_fixMapWidth_shipped] at hg0
    injection hg0 with hg0
    subst hg0
    constructor
    · rw [hpl]
      show spawnOfPlayer exGridShipped = _
      unfold spawnOfPlayer
      rw [markerTiles_shipped.1]
      simp only [List.getLast?_singleton, tileCentre]
      norm_num
    · rw [hgh]
      unfold spawnOfGhosts
      rw [markerTiles_shipped.2]
      simp only [List.isEmpty_cons, Bool.false_eq_true, if_false, List.map_cons, List.map_nil,
        tileCentre]
      norm_num

/-- Witness for C11 amended: the frame of `exStateCaught` with no key pressed resets the
game; the grid is the normalised template and there is an enemy again. -/
theorem reset_on_catch_witness :
    exStateCaught.GW_MAP_ORIG ≠ [] ∧ frameResets glmQ exIdle exStateCaught = true
      ∧ ∃ (g0 : GWGrid) (s2 : GWState), gw_fixMapWidth exStateCaught.GW_MAP_ORIG = some g0
          ∧ gw_frame glmQ exIdle exStateCaught = some s2
          ∧ s2.grid = clearMarkers g0 ∧ s2.bullets = [] ∧ s2.hasGun = false
          ∧ s2.ghosts ≠ [] := by
  have hne : exStateCaught.GW_MAP_ORIG ≠ [] := by decide
  obtain ⟨g0, s2, h0, hf, _, hgrid, hbs, hgun, _, _, _, _, _, _, _, hgne, _⟩ :=
    reset_on_catch glmQ exIdle exStateCaught hne frameResets_exStateCaught
  exact ⟨hne, frameResets_exStateCaught, g0, s2, h0, hf, hgrid, hbs, hgun, hgne⟩

/-! ## Targets of moving entities -/

theorem tileOf_centerOf (t : IVec2) : tileOf (gw_centerOf t) = t := by
  have hf : ∀ z : Int, ⌊(z : ℚ) + 1 / 2⌋ = z := by
    intro z
    rw [Int.floor_eq_iff]
    constructor <;> linarith
  show (⟨⌊(t.x : ℚ) + 1 / 2⌋, ⌊(t.y : ℚ) + 1 / 2⌋⟩ : IVec2) = t
  rw [hf, hf]

theorem gw_readInput_dirOrZero (k : GWInput) : dirOrZero (gw_readInput k) := by
  unfold gw_readInput dirOrZero
  split_ifs
  · right; decide
  · right; decide
  · right; decide
  · right; decide
  · left; rfl

theorem playerQueue_queued (inp : IVec2) (p : GWEntity) (hinp : dirOrZero inp)
    (hq : dirOrZero p.ctrl.queued) : dirOrZero (playerQueue inp p).ctrl.queued := by
  unfold playerQueue
  split_ifs
  · exact hinp
  · exact hq

theorem playerStart_cases (g : GWGrid) (p : GWEntity) (hq : dirOrZero p.ctrl.queued) :
    (playerStart g p).pos = p.pos
      ∧ (playerStart g p = p
        ∨ (p.ctrl.moving = false ∧ retargeted g p (playerStart g p))) := by
  unfold playerStart
  by_cases h1 : (!p.ctrl.moving && decide (p.ctrl.queued ≠ ⟨0, 0⟩)) = true
  · rw [if_pos h1]
    simp only [Bool.and_eq_true, Bool.not_eq_true', decide_eq_true_eq] at h1
    by_cases h2 : (!gw_wallAt g (tileOf p.pos + p.ctrl.queued).x
        (tileOf p.pos + p.ctrl.queued).y) = true
    · simp only [h2, if_true]
      refine ⟨rfl, Or.inr ⟨h1.1, rfl, ?_, rfl, ?_, rfl⟩⟩
      · rcases hq with h0 | hd
        · exact absurd h0 h1.2
        · exact hd
      · simpa using h2
    · simp only [h2]
      exact ⟨rfl, Or.inl rfl⟩
  · rw [if_neg h1]
    exact ⟨rfl, Or.inl rfl⟩

theorem preTurn_same_or_retarget (glm : GLM) (g : GWGrid) (dt : ℚ) (p : GWEntity)
    (hq : dirOrZero p.ctrl.queued) :
    playerPreTurn glm g dt p = p
      ∨ (p.ctrl.moving = true ∧ retargeted g p (playerPreTurn glm g dt p)
        ∧ (playerPreTurn glm g dt p).pos = gw_centerOf (tileOf p.pos)) := by
  cases hf : preTurnFires glm g dt p with
  | false =>
    left
    exact playerPreTurn_of_not_fires glm g dt p hf
  | true =>
    right
    rw [playerPreTurn_of_fires glm g dt p hf]
    unfold preTurnFires at hf
    simp only [Bool.and_eq_true, decide_eq_true_eq, Bool.not_eq_true'] at hf
    obtain ⟨⟨⟨⟨⟨hm, hq0⟩, _⟩, _⟩, hw⟩, _⟩ := hf
    refine ⟨hm, ⟨rfl, ?_, rfl, hw, rfl⟩, rfl⟩
    rcases hq with h0 | hd
    · exact absurd h0 hq0
    · exact hd

theorem playerInterp_fields (glm : GLM) (dt : ℚ) (p : GWEntity) :
    (playerInterp glm dt p).ctrl.dir = p.ctrl.dir
      ∧ (playerInterp glm dt p).ctrl.target = p.ctrl.target
      ∧ (playerInterp glm dt p).ctrl.queued = p.ctrl.queued
      ∧ ((playerInterp glm dt p).ctrl.moving = true → p.ctrl.moving = true) := by
  unfold playerInterp
  by_cases h1 : p.ctrl.moving = true
  · rw [if_pos h1]
    simp only
    split_ifs <;> exact ⟨rfl, rfl, rfl, fun _ => h1⟩
  · rw [if_neg h1]
    exact ⟨rfl, rfl, rfl, fun h => h⟩

/-- After the player movement block, a moving player either was moving and keeps target
and direction, or has a fresh target: the centre of the passable neighbour, in the new
cardinal direction, of the tile that contained it. -/
theorem playerMove_track (glm : GLM) (g : GWGrid) (inp : IVec2) (dt : ℚ) (p : GWEntity)
    (hinp : dirOrZero inp) (hq : dirOrZero p.ctrl.queued) :
    dirOrZero (playerMove glm g inp dt p).ctrl.queued
      ∧ ((playerMove glm g inp dt p).ctrl.moving = true →
          (p.ctrl.moving = true ∧ (playerMove glm g inp dt p).ctrl.target = p.ctrl.target
              ∧ (playerMove glm g inp dt p).ctrl.dir = p.ctrl.dir)
            ∨ ((playerMove glm g inp dt p).ctrl.dir ∈ GW_DIRS
              ∧ (playerMove glm g inp dt p).ctrl.target
                  = gw_centerOf (tileOf p.pos + (playerMove glm g inp dt p).ctrl.dir)
              ∧ gw_wallAt g (tileOf p.pos + (playerMove glm g inp dt p).ctrl.dir).x
                  (tileOf p.pos + (playerMove glm g inp dt p).ctrl.dir).y = false)) := by
  obtain ⟨hqpos, hqm, hqt, hqd, _⟩ := playerQueue_fields inp p
  have hq0 := playerQueue_queued inp p hinp hq
  obtain ⟨hspos, hstart⟩ := playerStart_cases g (playerQueue inp p) hq0
  have hq1 : (playerStart g (playerQueue inp p)).ctrl.queued = (playerQueue inp p).ctrl.queued := by
    rcases hstart with h | ⟨_, h⟩
    · rw [h]
    · exact h.2.2.2.2
  have hq1z : dirOrZero (playerStart g (playerQueue inp p)).ctrl.queued := by
    rw [hq1]
    exact hq0
  have hpre := preTurn_same_or_retarget glm g dt (playerStart g (playerQueue inp p)) hq1z
  obtain ⟨hid, hit, hiq, him⟩ :=
    playerInterp_fields glm dt (playerPreTurn glm g dt (playerStart g (playerQueue inp p)))
  have htile : tileOf (playerStart g (playerQueue inp p)).pos = tileOf p.pos := by
    rw [hspos, hqpos]
  unfold playerMove
  constructor
  · rw [hiq]
    rcases hpre with h | ⟨_, h, _⟩
    · rw [h]
      exact hq1z
    · rw [h.2.2.2.2]
      exact hq1z
  · intro hmov
    have hm2 := him hmov
    rw [hid, hit]
    rcases hpre with h | ⟨_, h, _⟩
    · rw [h] at hm2 ⊢
      rcases hstart with h2 | ⟨_, h2⟩
      · rw [h2] at hm2 ⊢
        left
        exact ⟨by rw [← hqm]; exact hm2, hqt, hqd⟩
      · right
        obtain ⟨_, hd, ht, hw, _⟩ := h2
        rw [hqpos] at ht hw
        exact ⟨hd, ht, hw⟩
    · right
      obtain ⟨_, hd, ht, hw, _⟩ := h
      rw [htile] at ht hw
      exact ⟨hd, ht, hw⟩

theorem gw_wallAt_pickup (g : GWGrid) (p : GWEntity) (hasGun : Bool) (x y : Int) :
    gw_wallAt (gw_pickup g p hasGun).1 x y = gw_wallAt g x y := by
  unfold gw_pickup
  simp only
  split_ifs with hk
  · simp only
    unfold gw_wallAt gw_wallAtChecked
    rw [(setCell_dims _ _ _ _).1, (setCell_dims _ _ _ _).2]
    by_cases hb : x < 0 ∨ x ≥ g.GW_GRID_W ∨ y < 0 ∨ y ≥ g.GW_GRID_H
    · rw [if_pos hb, if_pos hb]
    · rw [if_neg hb, if_neg hb]
      by_cases hsame : x = (tileOf p.pos).x ∧ y = (tileOf p.pos).y
      · rw [hsame.1, hsame.2,
          cellAt_setCell_same g _ _ '.' 'K' hk.1 hk.2.2.1 hk.2.2.2.2, hk.2.2.2.2]
        rfl
      · rw [cellAt_setCell_other g _ _ x y '.' hk.1 hk.2.2.1 (by
          by_contra hcon
          push_neg at hcon
          exact hsame hcon)]
  · rfl

theorem gw_resetGame_template (s0 s : GWState) (h : gw_resetGame s0 = some s) :
    ∃ g0 : GWGrid, gw_fixMapWidth s0.GW_MAP_ORIG = some g0 := by
  cases hg : gw_fixMapWidth s0.GW_MAP_ORIG with
  | none =>
    unfold gw_resetGame at h
    rw [hg] at h
    exact absurd h (by simp)
  | some g0 => exact ⟨g0, rfl⟩

theorem gw_wallAt_false_inBounds (g : GWGrid) (x y : Int) (h : gw_wallAt g x y = false) :
    0 ≤ x ∧ x < g.GW_GRID_W ∧ 0 ≤ y ∧ y < g.GW_GRID_H := by
  by_contra hcon
  have hb : x < 0 ∨ x ≥ g.GW_GRID_W ∨ y < 0 ∨ y ≥ g.GW_GRID_H := by omega
  unfold gw_wallAt gw_wallAtChecked at h
  rw [if_pos hb] at h
  exact absurd h (by simp)

theorem playerSafe_of_wall (g : GWGrid) (p : GWEntity)
    (h : gw_wallAt g (tileOf p.pos).x (tileOf p.pos).y = false) : playerSafe g p := by
  obtain ⟨h1, h2, h3, h4⟩ := gw_wallAt_false_inBounds g _ _ h
  exact ⟨h1, h2, h3, h4, h⟩

/-- The tile of a point on the segment between the centres of a tile and of its neighbour
in a cardinal direction is one of the two tiles. -/
theorem tileOf_on_segment (D d : IVec2) (hd : d ∈ GW_DIRS) (lam : ℚ) (h0 : 0 ≤ lam)
    (h1 : lam ≤ 1) :
    tileOf (gw_centerOf D + (d.toVec2).smul lam) = D
      ∨ tileOf (gw_centerOf D + (d.toVec2).smul lam) = D + d := by
  have hfl : ∀ (z : Int) (r : ℚ), (z : ℚ) ≤ r → r < (z : ℚ) + 1 → ⌊r⌋ = z := by
    intro z r ha hb
    rw [Int.floor_eq_iff]
    exact ⟨ha, hb⟩
  simp only [GW_DIRS, List.mem_cons, List.mem_singleton, List.not_mem_nil, or_false] at hd
  rcases hd with rfl | rfl | rfl | rfl
  · by_cases hl : lam < 1 / 2
    · left
      show (⟨⌊(D.x : ℚ) + 1 / 2 + ((1 : Int) : ℚ) * lam⌋,
        ⌊(D.y : ℚ) + 1 / 2 + ((0 : Int) : ℚ) * lam⌋⟩ : IVec2) = D
      rw [hfl D.x _ (by push_cast; linarith) (by push_cast; linarith),
        hfl D.y _ (by push_cast; linarith) (by push_cast; linarith)]
    · right
      show (⟨⌊(D.x : ℚ) + 1 / 2 + ((1 : Int) : ℚ) * lam⌋,
        ⌊(D.y : ℚ) + 1 / 2 + ((0 : Int) : ℚ) * lam⌋⟩ : IVec2) = ⟨D.x + 1, D.y + 0⟩
      rw [hfl (D.x + 1) _ (by push_cast; linarith) (by push_cast; linarith),
        hfl D.y _ (by push_cast; linarith) (by push_cast; linarith)]
      simp
  · by_cases hl : lam ≤ 1 / 2
    · left
      show (⟨⌊(D.x : ℚ) + 1 / 2 + ((-1 : Int) : ℚ) * lam⌋,
        ⌊(D.y : ℚ) + 1 / 2 + ((0 : Int) : ℚ) * lam⌋⟩ : IVec2) = D
      rw [hfl D.x _ (by push_cast; linarith) (by push_cast; linarith),
        hfl D.y _ (by push_cast; linarith) (by push_cast; linarith)]
    · right
      show (⟨⌊(D.x : ℚ) + 1 / 2 + ((-1 : Int) : ℚ) * lam⌋,
        ⌊(D.y : ℚ) + 1 / 2 + ((0 : Int) : ℚ) * lam⌋⟩ : IVec2) = ⟨D.x + -1, D.y + 0⟩
      rw [hfl (D.x + -1) _ (by push_cast; linarith) (by push_cast; linarith),
        hfl D.y _ (by push_cast; linarith) (by push_cast; linarith)]
      simp
  · by_cases hl : lam < 1 / 2
    · left
      show (⟨⌊(D.x : ℚ) + 1 / 2 + ((0 : Int) : ℚ) * lam⌋,
        ⌊(D.y : ℚ) + 1 / 2 + ((1 : Int) : ℚ) * lam⌋⟩ : IVec2) = D
      rw [hfl D.x _ (by push_cast; linarith) (by push_cast; linarith),
        hfl D.y _ (by push_cast; linarith) (by push_cast; linarith)]
    · right
      show (⟨⌊(D.x : ℚ) + 1 / 2 + ((0 : Int) : ℚ) * lam⌋,
        ⌊(D.y : ℚ) + 1 / 2 + ((1 : Int) : ℚ) * lam⌋⟩ : IVec2) = ⟨D.x + 0, D.y + 1⟩
      rw [hfl D.x _ (by push_cast; linarith) (by push_cast; linarith),
        hfl (D.y + 1) _ (by push_cast; linarith) (by push_cast; linarith)]
      simp
  · by_cases hl : lam ≤ 1 / 2
    · left
      show (⟨⌊(D.x : ℚ) + 1 / 2 + ((0 : Int) : ℚ) * lam⌋,
        ⌊(D.y : ℚ) + 1 / 2 + ((-1 : Int) : ℚ) * lam⌋⟩ : IVec2) = D
      rw [hfl D.x _ (by push_cast; linarith) (by push_cast; linarith),
        hfl D.y _ (by push_cast; linarith) (by push_cast; linarith)]
    · right
      show (⟨⌊(D.x : ℚ) + 1 / 2 + ((0 : Int) : ℚ) * lam⌋,
        ⌊(D.y : ℚ) + 1 / 2 + ((-1 : Int) : ℚ) * lam⌋⟩ : IVec2) = ⟨D.x + 0, D.y + -1⟩
      rw [hfl D.x _ (by push_cast; linarith) (by push_cast; linarith),
        hfl (D.y + -1) _ (by push_cast; linarith) (by push_cast; linarith)]
      simp

theorem onTrack_safe (g : GWGrid) (p : GWEntity) (h : onTrack g p) : playerSafe g p := by
  apply playerSafe_of_wall
  cases hm : p.ctrl.moving with
  | false =>
    obtain ⟨T, hpos, hw⟩ := h.1 hm
    rw [hpos, tileOf_centerOf]
    exact hw
  | true =>
    obtain ⟨hd, D, lam, h0, h1, hpos, _, hwD, hwN⟩ := h.2 hm
    rw [hpos]
    rcases tileOf_on_segment D p.ctrl.dir hd lam h0 h1 with ht | ht
    · rw [ht]
      exact hwD
    · rw [ht]
      exact hwN

theorem onTrack_congr_fields (g : GWGrid) (p p2 : GWEntity) (hpos : p2.pos = p.pos)
    (hm : p2.ctrl.moving = p.ctrl.moving) (hd : p2.ctrl.dir = p.ctrl.dir)
    (ht : p2.ctrl.target = p.ctrl.target) (h : onTrack g p) : onTrack g p2 := by
  unfold onTrack
  rw [hpos, hm, hd, ht]
  exact h

theorem onTrack_congr_walls (g g2 : GWGrid) (p : GWEntity)
    (hw : ∀ x y : Int, gw_wallAt g2 x y = gw_wallAt g x y) (h : onTrack g p) :
    onTrack g2 p := by
  unfold onTrack
  simp only [hw]
  exact h

theorem vec2_smul_zero (v : Vec2) (c : Vec2) : c + v.smul 0 = c := by
  cases c with
  | mk cx cy =>
    show (⟨cx + v.x * 0, cy + v.y * 0⟩ : Vec2) = ⟨cx, cy⟩
    rw [mul_zero, mul_zero, add_zero, add_zero]

/-- An entity freshly targeted from the centre of a passable tile is on track. -/
theorem onTrack_of_retarget (g : GWGrid) (p p2 : GWEntity) (T : IVec2)
    (hpos : p2.pos = gw_centerOf T) (hT : tileOf p.pos = T)
    (hw : gw_wallAt g T.x T.y = false) (hr : retargeted g p p2) : onTrack g p2 := by
  obtain ⟨hm, hd, ht, hwn, _⟩ := hr
  rw [hT] at ht hwn
  constructor
  · intro hm2
    rw [hm] at hm2
    exact absurd hm2 (by simp)
  · intro _
    refine ⟨hd, T, 0, le_refl 0, by norm_num, ?_, ht, hw, hwn⟩
    rw [hpos, vec2_smul_zero]

theorem playerStart_onTrack (g : GWGrid) (p : GWEntity) (hq : dirOrZero p.ctrl.queued)
    (h : onTrack g p) : onTrack g (playerStart g p) := by
  obtain ⟨hpos, hc⟩ := playerStart_cases g p hq
  rcases hc with hsame | ⟨hm, hr⟩
  · rw [hsame]
    exact h
  · obtain ⟨T, hT, hw⟩ := h.1 hm
    exact onTrack_of_retarget g p _ T (by rw [hpos]; exact hT)
      (by rw [hT]; exact tileOf_centerOf T) hw hr

theorem playerPreTurn_onTrack (glm : GLM) (g : GWGrid) (dt : ℚ) (p : GWEntity)
    (hq : dirOrZero p.ctrl.queued) (h : onTrack g p) :
    onTrack g (playerPreTurn glm g dt p) := by
  rcases preTurn_same_or_retarget glm g dt p hq with hsame | ⟨_, hr, hpos⟩
  · rw [hsame]
    exact h
  · exact onTrack_of_retarget g p _ (tileOf p.pos) hpos rfl (onTrack_safe g p h).2.2.2.2 hr

theorem toTarget_on_segment (D d : IVec2) (lam : ℚ) :
    gw_centerOf (D + d) - (gw_centerOf D + (d.toVec2).smul lam) = (d.toVec2).smul (1 - lam) := by
  simp only [gw_centerOf, IVec2.toVec2, Vec2.smul, vec2_sub_def, vec2_add_def, ivec2_add_def,
    Vec2.mk.injEq]
  constructor <;> push_cast <;> ring

theorem length_on_segment (glm : GLM) (hglm : glmExactOnAxes glm) (d : IVec2)
    (hd : d ∈ GW_DIRS) (c : ℚ) (hc : 0 ≤ c) : glm.length ((d.toVec2).smul c) = c := by
  simp only [GW_DIRS, List.mem_cons, List.mem_singleton, List.not_mem_nil, or_false] at hd
  rcases hd with rfl | rfl | rfl | rfl
  · have hv : ((⟨1, 0⟩ : IVec2).toVec2).smul c = ⟨c, 0⟩ := by
      simp [IVec2.toVec2, Vec2.smul]
    rw [hv, (hglm c).1, abs_of_nonneg hc]
  · have hv : ((⟨-1, 0⟩ : IVec2).toVec2).smul c = ⟨-c, 0⟩ := by
      simp [IVec2.toVec2, Vec2.smul]
    rw [hv, (hglm (-c)).1, abs_neg, abs_of_nonneg hc]
  · have hv : ((⟨0, 1⟩ : IVec2).toVec2).smul c = ⟨0, c⟩ := by
      simp [IVec2.toVec2, Vec2.smul]
    rw [hv, (hglm c).2, abs_of_nonneg hc]
  · have hv : ((⟨0, -1⟩ : IVec2).toVec2).smul c = ⟨0, -c⟩ := by
      simp [IVec2.toVec2, Vec2.smul]
    rw [hv, (hglm (-c)).2, abs_neg, abs_of_nonneg hc]

theorem advance_on_segment (c v : Vec2) (lam dist speed dt : ℚ) (hne : dist ≠ 0) :
    c + v.smul lam + (((v.smul dist).sdiv dist).smul speed).smul dt
      = c + v.smul (lam + speed * dt) := by
  simp only [Vec2.smul, Vec2.sdiv, vec2_add_def, Vec2.mk.injEq]
  constructor <;> field_simp <;> ring

/-- With the exact length on axis vectors and `dt ≥ 0`, the interpolation keeps the player
on track: it lands on the target or advances along the segment without passing it. -/
theorem playerInterp_onTrack (glm : GLM) (hglm : glmExactOnAxes glm) (g : GWGrid) (dt : ℚ)
    (hdt : 0 ≤ dt) (p : GWEntity) (h : onTrack g p) : onTrack g (playerInterp glm dt p) := by
  cases hm : p.ctrl.moving with
  | false =>
    have hsame : playerInterp glm dt p = p := by
      unfold playerInterp
      simp [hm]
    rw [hsame]
    exact h
  | true =>
    obtain ⟨hd, D, lam, h0, h1, hpos, htgt, hwD, hwN⟩ := h.2 hm
    have htoT : p.ctrl.target - p.pos = (p.ctrl.dir.toVec2).smul (1 - lam) := by
      rw [hpos, htgt]
      exact toTarget_on_segment D p.ctrl.dir lam
    have hdist : glm.length ((p.ctrl.dir.toVec2).smul (1 - lam)) = 1 - lam :=
      length_on_segment glm hglm p.ctrl.dir hd (1 - lam) (by linarith)
    have hland : onTrack g
        { p with pos := p.ctrl.target, ctrl := { p.ctrl with moving := false } } := by
      constructor
      · intro _
        exact ⟨D + p.ctrl.dir, htgt, hwN⟩
      · intro hcon
        exact absurd hcon (by simp)
    unfold playerInterp
    rw [if_pos hm]
    simp only
    rw [htoT, hdist]
    by_cases c1 : 1 - lam < 1 / 10000
    · rw [if_pos c1]
      exact hland
    · rw [if_neg c1]
      by_cases c2 : GW_STEP_SPEED_PLAYER * dt ≥ 1 - lam
      · rw [if_pos c2]
        exact hland
      · rw [if_neg c2]
        have hpos1 : (0 : ℚ) < 1 - lam := by linarith
        have hmax : max (1 - lam) (1 / 1000000) = 1 - lam := max_eq_left (by linarith)
        rw [hmax]
        simp only [GW_STEP_SPEED_PLAYER] at c2 ⊢
        constructor
        · intro hcon
          rw [hm] at hcon
          exact absurd hcon (by simp)
        · intro _
          refine ⟨hd, D, lam + 6 * dt, by linarith, by linarith, ?_, htgt, hwD, hwN⟩
          show p.pos + _ = _
          rw [hpos]
          exact advance_on_segment _ _ lam (1 - lam) 6 dt (ne_of_gt hpos1)

/-- The player movement block keeps the player on track. -/
theorem playerMove_onTrack (glm : GLM) (hglm : glmExactOnAxes glm) (g : GWGrid) (inp : IVec2)
    (dt : ℚ) (hdt : 0 ≤ dt) (p : GWEntity) (hinp : dirOrZero inp)
    (hq : dirOrZero p.ctrl.queued) (h : onTrack g p) :
    onTrack g (playerMove glm g inp dt p) := by
  obtain ⟨hqpos, hqm, hqt, hqd, _⟩ := playerQueue_fields inp p
  have hq0 := playerQueue_queued inp p hinp hq
  have h0 : onTrack g (playerQueue inp p) := onTrack_congr_fields g p _ hqpos hqm hqd hqt h
  have h1 := playerStart_onTrack g _ hq0 h0
  have hq1 : dirOrZero (playerStart g (playerQueue inp p)).ctrl.queued := by
    rcases (playerStart_cases g (playerQueue inp p) hq0).2 with hs | ⟨_, hs⟩
    · rw [hs]
      exact hq0
    · rw [hs.2.2.2.2]
      exact hq0
  have h2 := playerPreTurn_onTrack glm g dt _ hq1 h1
  exact playerInterp_onTrack glm hglm g dt hdt _ h2

/-- When the normalised template has a `'P'`, the reset puts the player on the centre of a
tile that is not a wall in the reset grid. -/
theorem spawnOfPlayer_safe (g0 : GWGrid) (hP : markerTiles g0 'P' ≠ []) :
    ∃ T : IVec2, spawnOfPlayer g0 = gw_centerOf T
      ∧ gw_wallAt (clearMarkers g0) T.x T.y = false := by
  cases hl : (markerTiles g0 'P').getLast? with
  | none => exact absurd (List.getLast?_eq_none_iff.mp hl) hP
  | some t =>
    have hmem := List.mem_of_getLast?_eq_some hl
    unfold markerTiles at hmem
    obtain ⟨hcells, hcell⟩ := List.mem_filter.mp hmem
    have hcellP : cellAt g0 t.1 t.2 = some 'P' := of_decide_eq_true hcell
    have hin := (mem_allCells g0 t.1 t.2).mp hcells
    refine ⟨⟨(t.1 : Int), (t.2 : Int)⟩, ?_, ?_⟩
    · unfold spawnOfPlayer
      rw [hl]
      simp [tileCentre, gw_centerOf, IVec2.toVec2, vec2_add_def]
    · have hb : ¬ ((t.1 : Int) < 0 ∨ (t.1 : Int) ≥ (clearMarkers g0).GW_GRID_W
          ∨ (t.2 : Int) < 0 ∨ (t.2 : Int) ≥ (clearMarkers g0).GW_GRID_H) := by
        have hW : (clearMarkers g0).GW_GRID_W = g0.GW_GRID_W := rfl
        have hH : (clearMarkers g0).GW_GRID_H = g0.GW_GRID_H := rfl
        rw [hW, hH]
        omega
      unfold gw_wallAt gw_wallAtChecked
      simp only
      rw [if_neg hb, cellAt_clearMarkers, hcellP]
      rfl

theorem playerOK_of_reset (s0 s : GWState) (g0 : GWGrid) (h : gw_resetGame s0 = some s)
    (hg0 : gw_fixMapWidth s0.GW_MAP_ORIG = some g0) (hP : markerTiles g0 'P' ≠ []) :
    playerOK s := by
  obtain ⟨s2, hr, hgrid, horig, hpl, _⟩ := gw_resetGame_spec s0 g0 hg0
  rw [h] at hr
  injection hr with hr
  subst hr
  obtain ⟨T, hT, hw⟩ := spawnOfPlayer_safe g0 hP
  refine ⟨⟨g0, by rw [horig]; exact hg0, hP⟩, ?_, ?_⟩
  · rw [hpl]
    exact Or.inl rfl
  · rw [hpl, hgrid]
    constructor
    · intro _
      exact ⟨T, hT, hw⟩
    · intro hcon
      exact absurd hcon (by simp)

theorem gw_frame_playerOK (glm : GLM) (hglm : glmExactOnAxes glm) (k : GWInput)
    (hdt : 0 ≤ k.dt) (s : GWState) (h : playerOK s) :
    onTrack s.grid (playerMove glm s.grid (gw_readInput k) k.dt s.player)
      ∧ ∃ s2 : GWState, gw_frame glm k s = some s2 ∧ playerOK s2 := by
  obtain ⟨⟨g0, hg0, hP⟩, hq, htr⟩ := h
  have hmove := playerMove_onTrack glm hglm s.grid (gw_readInput k) k.dt hdt s.player
    (gw_readInput_dirOrZero k) hq htr
  refine ⟨hmove, ?_⟩
  cases hres : frameResets glm k s with
  | true =>
    obtain ⟨s2, hf, hr, _⟩ := gw_frame_of_reset glm k s g0 hres hg0
    exact ⟨s2, hf, playerOK_of_reset _ s2 g0 hr hg0 hP⟩
  | false =>
    refine ⟨_, gw_frame_of_noReset glm k s hres, ⟨g0, hg0, hP⟩, ?_, ?_⟩
    · exact (playerMove_track glm s.grid (gw_readInput k) k.dt s.player
        (gw_readInput_dirOrZero k) hq).1
    · exact onTrack_congr_walls s.grid _ _ (gw_wallAt_pickup s.grid _ s.hasGun) hmove

theorem gw_run_playerOK (glm : GLM) (hglm : glmExactOnAxes glm) (ks : List GWInput) :
    ∀ s : GWState, playerOK s → (∀ k ∈ ks, 0 ≤ k.dt) →
      ∃ s2 : GWState, gw_run glm ks s = some s2 ∧ playerOK s2 := by
  induction ks with
  | nil =>
    intro s h _
    exact ⟨s, rfl, h⟩
  | cons k ks ih =>
    intro s h hdt
    obtain ⟨_, s1, hf, hok⟩ :=
      gw_frame_playerOK glm hglm k (hdt k (List.mem_cons_self k ks)) s h
    obtain ⟨s2, hrun, hok2⟩ := ih s1 hok (fun k2 hk2 => hdt k2 (List.mem_cons_of_mem k hk2))
    exact ⟨s2, by simp only [gw_run, hf, Option.some_bind, hrun], hok2⟩

theorem glmQ_exactOnAxes : glmExactOnAxes glmQ :=
  fun a => ⟨glmQ_length_x a, glmQ_length_y a⟩

/-- C15 fails as stated: the template `exTemplateRagged` has a `'P'` marker, but beyond the
width taken from its first row; after the reset the player is at `(0, 0)`, and after the
movement update of a frame without input it is still there, in the tile (0,0), which is a
wall. -/
theorem player_in_wall_when_spawn_truncated :
    (exTemplateRagged[1]?).bind (fun r => r[2]?) = some 'P'
      ∧ ∃ sInit : GWState, gw_resetGame exStateCaught = some sInit
          ∧ (playerMove glmQ sInit.grid (gw_readInput exIdle) exIdle.dt sInit.player).pos
              = ⟨0, 0⟩
          ∧ gw_wallAt sInit.grid
              (tileOf (playerMove glmQ sInit.grid (gw_readInput exIdle) exIdle.dt
                sInit.player).pos).x
              (tileOf (playerMove glmQ sInit.grid (gw_readInput exIdle) exIdle.dt
                sInit.player).pos).y = true := by
  refine ⟨by decide, ?_⟩
  obtain ⟨sInit, hr, hgrid, _, hpl, _⟩ :=
    gw_resetGame_spec exStateCaught exGridRagged gw_fixMapWidth_ragged
  have hin : gw_readInput exIdle = ⟨0, 0⟩ := by decide
  have hmove : playerMove glmQ sInit.grid (gw_readInput exIdle) exIdle.dt sInit.player
      = sInit.player := by
    rw [hin]
    apply playerMove_idle
    · rw [hpl]
    · rw [hpl]
  have hpos : sInit.player.pos = ⟨0, 0⟩ := by
    rw [hpl]
    exact spawnOfPlayer_ragged
  refine ⟨sInit, hr, ?_, ?_⟩
  · rw [hmove]
    exact hpos
  · rw [hmove, hpos, tileOf_zero, hgrid]
    decide

/-- C15 amended: when `glm::length` is exact on axis vectors and the width-normalised
template has a `'P'` marker, the reset succeeds and from its state, for every sequence of
inputs with every `dt ≥ 0`, the run is defined and, at its end as after the player movement
update of any further frame with `dt ≥ 0`, the tile containing the player's position is
inside the grid and is not a wall. -/
theorem player_never_in_wall (glm : GLM) (hglm : glmExactOnAxes glm) (s0 : GWState)
    (g0 : GWGrid) (hg0 : gw_fixMapWidth s0.GW_MAP_ORIG = some g0)
    (hP : markerTiles g0 'P' ≠ []) :
    ∃ sInit : GWState, gw_resetGame s0 = some sInit
      ∧ ∀ ks : List GWInput, (∀ k ∈ ks, 0 ≤ k.dt) →
          ∃ s : GWState, gw_run glm ks sInit = some s
            ∧ playerSafe s.grid s.player
            ∧ ∀ k : GWInput, 0 ≤ k.dt →
                playerSafe s.grid (playerMove glm s.grid (gw_readInput k) k.dt s.player) := by
  obtain ⟨sInit, hr, _⟩ := gw_resetGame_spec s0 g0 hg0
  refine ⟨sInit, hr, ?_⟩
  intro ks hdt
  obtain ⟨s, hrun, hok⟩ :=
    gw_run_playerOK glm hglm ks sInit (playerOK_of_reset s0 sInit g0 hr hg0 hP) hdt
  refine ⟨s, hrun, onTrack_safe _ _ hok.2.2, ?_⟩
  intro k hk
  exact onTrack_safe _ _ (gw_frame_playerOK glm hglm k hk s hok).1

/-- Witness for C15 amended: on the shipped map with the instance `glmQ`, after the reset
and two frames with the right key held the player's tile is inside the grid and not a
wall. -/
theorem player_never_in_wall_witness :
    glmExactOnAxes glmQ ∧ markerTiles exGridShipped 'P' ≠ []
      ∧ ∃ sInit : GWState, gw_resetGame exStateShipped = some sInit
          ∧ ∃ s : GWState, gw_run glmQ [exRight, exRight] sInit = some s
              ∧ playerSafe s.grid s.player := by
  have hP : markerTiles exGridShipped 'P' ≠ [] := by
    rw [markerTiles_shipped.1]
    simp
  obtain ⟨sInit, hr, hall⟩ :=
    player_never_in_wall glmQ glmQ_exactOnAxes exStateShipped exGridShipped
      gw_fixMapWidth_shipped hP
  obtain ⟨s, hrun, hsafe, _⟩ := hall [exRight, exRight] (by
    intro k hk
    simp only [List.mem_cons, List.mem_singleton, List.not_mem_nil, or_false] at hk
    rcases hk with rfl | rfl <;> norm_num [exRight])
  exact ⟨glmQ_exactOnAxes, hP, sInit, hr, s, hrun, hsafe⟩

/-! ## The shooting block within the frame -/

theorem gw_frame_prevSpace (glm : GLM) (k : GWInput) (s s2 : GWState)
    (h : gw_frame glm k s = some s2) : s2.prevSpace = k.space := by
  cases hres : frameResets glm k s with
  | false =>
    rw [gw_frame_of_noReset glm k s hres] at h
    injection h with h
    subst h
    rfl
  | true =>
    unfold frameResets at hres
    unfold gw_frame at h
    simp only [hres, if_true] at h
    cases hr : gw_resetGame (framePre glm k s) with
    | none =>
      rw [hr] at h
      exact absurd h (by simp)
    | some sr =>
      rw [hr] at h
      simp only [Option.map_some', Option.some.injEq] at h
      subst h
      obtain ⟨g0, hg0⟩ := gw_resetGame_template _ sr hr
      obtain ⟨s3, hr3, _, _, _, _, _, _, _, hprev⟩ := gw_resetGame_spec (framePre glm k s) g0 hg0
      rw [hr] at hr3
      injection hr3 with hr3
      subst hr3
      exact hprev

/-- C6: with `glm::length` positive on non-zero vectors, (1) the shooting block creates a
projectile if and only if the fire key is pressed now, the recorded previous key state is
not pressed, `hasGun` is true and the cooldown is at most 0; then exactly one projectile is
appended, at the player's position, alive, with lifetime 1.5, and the cooldown becomes 0.25;
otherwise projectiles and cooldown are unchanged; (2) the frame runs the block on the key
read in this frame, on `prevSpace`, and on `hasGun` as left by the pickup, and (3) every
frame records the key it read in `prevSpace`; so (4) in the frame after a frame with input
`k1` a projectile is created if and only if the key is pressed now, was not pressed in `k1`,
`hasGun` is true and the cooldown is at most 0, and a key that was already pressed in `k1`
leaves projectiles and cooldown unchanged. -/
theorem gw_shoot_spec (glm : GLM) (hlen : ∀ v : Vec2, v ≠ ⟨0, 0⟩ → 0 < glm.length v) :
    (∀ (spaceNow prevSpace hasGun : Bool) (fireCooldown : ℚ) (player : GWEntity)
        (bullets : List GWBullet),
        ((gw_shoot glm spaceNow prevSpace hasGun fireCooldown player bullets).1.length
              = bullets.length + 1 ↔
            (spaceNow = true ∧ prevSpace = false ∧ hasGun = true ∧ fireCooldown ≤ 0))
          ∧ ((spaceNow = true ∧ prevSpace = false ∧ hasGun = true ∧ fireCooldown ≤ 0) →
              ∃ b : GWBullet,
                gw_shoot glm spaceNow prevSpace hasGun fireCooldown player bullets
                    = (bullets ++ [b], 1 / 4)
                  ∧ b.pos = player.pos ∧ b.alive = true ∧ b.life = 3 / 2)
          ∧ (¬ (spaceNow = true ∧ prevSpace = false ∧ hasGun = true ∧ fireCooldown ≤ 0) →
              gw_shoot glm spaceNow prevSpace hasGun fireCooldown player bullets
                = (bullets, fireCooldown)))
      ∧ (∀ (k : GWInput) (s : GWState),
          (framePre glm k s).prevSpace = k.space
            ∧ (framePre glm k s).fireCooldown =
                (gw_shoot glm k.space s.prevSpace
                  (gw_pickup s.grid (playerMove glm s.grid (gw_readInput k) k.dt s.player)
                    s.hasGun).2
                  s.fireCooldown (playerMove glm s.grid (gw_readInput k) k.dt s.player)
                  s.bullets).2
            ∧ (framePre glm k s).bullets =
                (bulletVsGhost glm
                  (s.ghosts.map (ghostStep glm
                    (gw_pickup s.grid (playerMove glm s.grid (gw_readInput k) k.dt s.player)
                      s.hasGun).1
                    k.dt (tileOf (playerMove glm s.grid (gw_readInput k) k.dt s.player).pos)))
                  (bulletsStep
                    (gw_pickup s.grid (playerMove glm s.grid (gw_readInput k) k.dt s.player)
                      s.hasGun).1
                    k.dt
                    (gw_shoot glm k.space s.prevSpace
                      (gw_pickup s.grid (playerMove glm s.grid (gw_readInput k) k.dt s.player)
                        s.hasGun).2
                      s.fireCooldown (playerMove glm s.grid (gw_readInput k) k.dt s.player)
                      s.bullets).1)).2)
      ∧ (∀ (k : GWInput) (s s2 : GWState), gw_frame glm k s = some s2 →
          s2.prevSpace = k.space)
      ∧ (∀ (k1 k2 : GWInput) (s s1 : GWState), gw_frame glm k1 s = some s1 →
          ((gw_shoot glm k2.space s1.prevSpace
                (gw_pickup s1.grid (playerMove glm s1.grid (gw_readInput k2) k2.dt s1.player)
                  s1.hasGun).2
                s1.fireCooldown (playerMove glm s1.grid (gw_readInput k2) k2.dt s1.player)
                s1.bullets).1.length = s1.bullets.length + 1 ↔
              (k2.space = true ∧ k1.space = false
                ∧ (gw_pickup s1.grid (playerMove glm s1.grid (gw_readInput k2) k2.dt s1.player)
                    s1.hasGun).2 = true
                ∧ s1.fireCooldown ≤ 0))
            ∧ (k1.space = true →
                gw_shoot glm k2.space s1.prevSpace
                    (gw_pickup s1.grid
                      (playerMove glm s1.grid (gw_readInput k2) k2.dt s1.player) s1.hasGun).2
                    s1.fireCooldown (playerMove glm s1.grid (gw_readInput k2) k2.dt s1.player)
                    s1.bullets
                  = (s1.bullets, s1.fireCooldown))) := by
  refine ⟨?_, ?_, ?_, ?_⟩
  · intro spaceNow prevSpace hasGun fireCooldown player bullets
    exact gw_shoot_block glm hlen spaceNow prevSpace hasGun fireCooldown player bullets
  · intro k s
    exact ⟨rfl, rfl, rfl⟩
  · intro k s s2 h
    exact gw_frame_prevSpace glm k s s2 h
  · intro k1 k2 s s1 h
    have hprev : s1.prevSpace = k1.space := gw_frame_prevSpace glm k1 s s1 h
    obtain ⟨hiff, _, hno⟩ := gw_shoot_block glm hlen k2.space s1.prevSpace
      (gw_pickup s1.grid (playerMove glm s1.grid (gw_readInput k2) k2.dt s1.player)
        s1.hasGun).2
      s1.fireCooldown (playerMove glm s1.grid (gw_readInput k2) k2.dt s1.player) s1.bullets
    constructor
    · rw [hiff, hprev]
    · intro hheld
      apply hno
      rintro ⟨_, hp, _, _⟩
      rw [hprev, hheld] at hp
      exact absurd hp (by simp)

/-- Witness for C6: with the instance `glmQ`, a fresh press with the gun and no cooldown
appends a bullet at the player's position; and in the frame after a frame with the key
pressed, the key still pressed creates nothing. -/
theorem gw_shoot_spec_witness :
    (∀ v : Vec2, v ≠ ⟨0, 0⟩ → 0 < glmQ.length v)
      ∧ (∃ b : GWBullet,
          gw_shoot glmQ true false true 0 { pos := ⟨3 / 2, 19 / 2⟩ } []
              = ([] ++ [b], 1 / 4)
            ∧ b.pos = (⟨3 / 2, 19 / 2⟩ : Vec2) ∧ b.alive = true ∧ b.life = 3 / 2)
      ∧ ∃ s1 : GWState, gw_frame glmQ exPress exStateArmed = some s1
          ∧ s1.prevSpace = true
          ∧ gw_shoot glmQ exPress.space s1.prevSpace
                (gw_pickup s1.grid
                  (playerMove glmQ s1.grid (gw_readInput exPress) exPress.dt s1.player)
                  s1.hasGun).2
                s1.fireCooldown
                (playerMove glmQ s1.grid (gw_readInput exPress) exPress.dt s1.player)
                s1.bullets
              = (s1.bullets, s1.fireCooldown) := by
  have hspec := gw_shoot_spec glmQ glmQ_length_pos
  have hframe := gw_frame_of_noReset glmQ exPress exStateArmed
    (frameResets_of_no_ghosts glmQ exPress exStateArmed rfl)
  refine ⟨glmQ_length_pos,
    (hspec.1 true false true 0 { pos := ⟨3 / 2, 19 / 2⟩ } []).2.1 ⟨rfl, rfl, rfl, le_refl 0⟩,
    _, hframe, ?_, ?_⟩
  · exact hspec.2.2.1 exPress exStateArmed _ hframe
  · exact (hspec.2.2.2 exPress exPress exStateArmed _ hframe).2 rfl

end GridWalk
